import Mathlib

/-!
# squzy: storage converter, transaction queries and HTTP probe

A shallow embedding of the conversion layer between the wire messages
(`apiPb.*`) and the stored records of the ClickHouse backend
(`internal/database/clickhouse/conversion.go`), of the transaction queries
(`internal/database/clickhouse/transaction_info.go`) and of the HTTP probe
(`apps/internal/job/job_HTTP.go`).

Conventions of the embedding

* A Go pointer `*T` is `Option T`; `none` is the nil pointer.
* A Go slice `[]T` is `List T`.  The source never distinguishes a nil slice
  from an empty one except through `range` and `len`, which agree on both, so
  both are the empty list.
* A Go `map[string]V` is an association list with pairwise distinct keys, listed
  in the order in which `range` happens to enumerate it (`GoMap`).
* Signed machine integers are `Int`; arithmetic that can leave the 64-bit
  range is wrapped explicitly with `wrap64`.  `uint64` fields are `Nat`.
* `float64` values are carried as their IEEE-754 bit pattern (`Float64`); the
  converter copies them, and the uptime summary converts and divides them with
  IEEE-754 rounding (`Float64.ofInt64`, `Float64.div`).
* A Go function returning `(*T, error)` returns the pair
  `Option T × Option GoError`.
* A function that dereferences a pointer without a nil check returns in `Go`,
  whose `fault` outcome is the run-time nil-dereference panic.
-/

/-! ## Go run-time basics -/

/-- Wrap-around of a mathematical integer into the signed 64-bit range, as Go
does for `int64` arithmetic. -/
def wrap64 (x : Int) : Int := (x + 2 ^ 63) % 2 ^ 64 - 2 ^ 63

/-- Smallest `int64`. -/
def minInt64 : Int := -(2 ^ 63)

/-- Largest `int64`. -/
def maxInt64 : Int := 2 ^ 63 - 1

/-- Membership in the signed 64-bit range. -/
def inInt64 (x : Int) : Prop := minInt64 ≤ x ∧ x ≤ maxInt64

instance (x : Int) : Decidable (inInt64 x) := by
  unfold inInt64; exact inferInstance

/-- Outcome of a Go call that may panic on a nil dereference. -/
inductive Go (α : Type) where
  | ret (a : α)
  | fault
  deriving DecidableEq, Repr

/-- Sequencing of calls that may panic. -/
def Go.bind {α β : Type} (x : Go α) (f : α → Go β) : Go β :=
  match x with
  | .ret a => f a
  | .fault => .fault

/-- Carrier of a `float64`: its bit pattern. -/
structure Float64 where
  bits : Nat
  deriving DecidableEq, Repr

/-- The `float64` zero, the value a nil-receiver getter returns. -/
def Float64.zero : Float64 := ⟨0⟩

/-- Reasons for which `ptypes.validateTimestamp` rejects a timestamp. -/
inductive TimestampFault where
  | nilTimestamp
  | beforeMin
  | afterMax
  | nanosOutOfRange
  deriving DecidableEq, Repr

/-- Go `error` values met in the converter: one made by `errors.New` with its
text, or one of the `timestamp: ...` errors of package `ptypes`. -/
inductive GoError where
  | errorsNew (text : String)
  | timestamp (why : TimestampFault)
  deriving DecidableEq, Repr

/-- A Go `map[string]V`: its entries in the order `range` enumerates them; the
keys of a map are pairwise distinct (`GoMap.WellFormed`). -/
abbrev GoMap (V : Type) := List (String × V)

/-- Go `m[k]` with the presence flag: the value stored under `k`, if any. -/
def GoMap.get? {V : Type} (m : GoMap V) (k : String) : Option V :=
  match m with
  | [] => none
  | (k1, v) :: rest => if k1 = k then some v else GoMap.get? rest k

/-- Go `m[k] = v`: replaces the value of an existing key, adds a new key
otherwise. -/
def GoMap.set {V : Type} (m : GoMap V) (k : String) (v : V) : GoMap V :=
  match m with
  | [] => [(k, v)]
  | (k1, v1) :: rest => if k1 = k then (k, v) :: rest else (k1, v1) :: GoMap.set rest k v

/-- The keys of a map, in enumeration order. -/
def GoMap.keys {V : Type} (m : GoMap V) : List String := m.map Prod.fst

/-- The invariant of a Go map: no key occurs twice. -/
def GoMap.WellFormed {V : Type} (m : GoMap V) : Prop := m.keys.Nodup

instance {V : Type} (m : GoMap V) : Decidable m.WellFormed := by
  unfold GoMap.WellFormed; exact inferInstance

/-- The JSON codec of package `jsonpb` for the structured value type `V`, as
far as the converter depends on it: `Marshal` encodes a (possibly nil) value
or fails, `Unmarshal` decodes a blob or fails.  `none` is failure. -/
structure jsonpb.Codec (V : Type) where
  Marshal : Option V → Option (List UInt8)
  Unmarshal : List UInt8 → Option V

/-! ## Package `time` -/

namespace time

/-- A `time.Time`, by its Unix seconds (an `int64`) and the nanosecond offset
inside that second, in `[0, 10^9)`. -/
structure Time where
  unixSec : Int
  nsec : Int
  deriving DecidableEq, Repr

/-- Go `time.Unix(sec, nsec)`: an `nsec` outside `[0, 10^9)` is carried over
into the seconds (Go `/` truncates toward zero). -/
def Unix (sec nsec : Int) : Time :=
  if nsec < 0 ∨ nsec ≥ 10 ^ 9 then
    let n := Int.tdiv nsec (10 ^ 9)
    let sec1 := wrap64 (sec + n)
    let nsec1 := nsec - n * 10 ^ 9
    if nsec1 < 0 then ⟨wrap64 (sec1 - 1), nsec1 + 10 ^ 9⟩ else ⟨sec1, nsec1⟩
  else ⟨sec, nsec⟩

/-- Go `t.UnixNano()`: `sec * 1e9 + nsec` in `int64` arithmetic. -/
def Time.UnixNano (t : Time) : Int := wrap64 (t.unixSec * 10 ^ 9 + t.nsec)

end time

/-! ## Package `ptypes` and the wire timestamp -/

/-- The wire `timestamp.Timestamp`: `Seconds` is an `int64`, `Nanos` an
`int32`. -/
structure timestamppb.Timestamp where
  Seconds : Int
  Nanos : Int
  deriving DecidableEq, Repr

namespace ptypes

/-- Seconds of `0001-01-01T00:00:00Z`. -/
def minValidSeconds : Int := -62135596800

/-- Seconds of `10000-01-01T00:00:00Z`. -/
def maxValidSeconds : Int := 253402300800

/-- Go `ptypes.validateTimestamp`: `none` is the nil error. -/
def validateTimestamp (ts : Option timestamppb.Timestamp) : Option GoError :=
  match ts with
  | none => some (.timestamp .nilTimestamp)
  | some ts =>
    if ts.Seconds < minValidSeconds then some (.timestamp .beforeMin)
    else if ts.Seconds ≥ maxValidSeconds then some (.timestamp .afterMax)
    else if ts.Nanos < 0 ∨ ts.Nanos ≥ 10 ^ 9 then some (.timestamp .nanosOutOfRange)
    else none

/-- Go `ptypes.Timestamp`: the time is built also for an invalid timestamp and
returned next to the error. -/
def Timestamp (ts : Option timestamppb.Timestamp) : time.Time × Option GoError :=
  let t := match ts with
    | none => time.Unix 0 0
    | some ts => time.Unix ts.Seconds ts.Nanos
  (t, validateTimestamp ts)

/-- Go `ptypes.TimestampProto`: a nil timestamp next to the error when the
time is outside the years 0001 to 9999. -/
def TimestampProto (t : time.Time) : Option timestamppb.Timestamp × Option GoError :=
  let ts : timestamppb.Timestamp := ⟨t.unixSec, t.nsec⟩
  match validateTimestamp (some ts) with
  | some err => (none, some err)
  | none => (some ts, none)

end ptypes

/-- A timestamp that `ptypes.validateTimestamp` accepts. -/
def timestamppb.Timestamp.Valid (ts : timestamppb.Timestamp) : Prop :=
  ptypes.minValidSeconds ≤ ts.Seconds ∧ ts.Seconds < ptypes.maxValidSeconds ∧
    0 ≤ ts.Nanos ∧ ts.Nanos < 10 ^ 9

instance (ts : timestamppb.Timestamp) : Decidable ts.Valid := by
  unfold timestamppb.Timestamp.Valid; exact inferInstance

/-- The nanoseconds since the Unix epoch a timestamp stands for, as a
mathematical integer. -/
def timestamppb.Timestamp.nanos (ts : timestamppb.Timestamp) : Int := ts.Seconds * 10 ^ 9 + ts.Nanos

/-! ## Wire messages (`apiPb`) -/

namespace apiPb

/-- Wire `Incident.HistoryItem`. -/
structure Incident_HistoryItem where
  Status : Int
  Timestamp : Option timestamppb.Timestamp
  deriving DecidableEq, Repr

/-- Wire `Incident`. -/
structure Incident where
  Id : String
  Status : Int
  RuleId : String
  Histories : List (Option Incident_HistoryItem)
  deriving DecidableEq, Repr

/-- Generated getter: nil-safe. -/
def Incident_HistoryItem.GetTimestamp (x : Option Incident_HistoryItem) :
    Option timestamppb.Timestamp :=
  match x with
  | none => none
  | some x => x.Timestamp

/-- Generated getter: nil-safe. -/
def Incident_HistoryItem.GetStatus (x : Option Incident_HistoryItem) : Int :=
  match x with
  | none => 0
  | some x => x.Status

/-- Generated getter: nil-safe. -/
def Incident.GetHistories (x : Option Incident) : List (Option Incident_HistoryItem) :=
  match x with
  | none => []
  | some x => x.Histories

/-- Generated getter: nil-safe. -/
def Incident.GetId (x : Option Incident) : String :=
  match x with
  | none => ""
  | some x => x.Id

/-- Generated getter: nil-safe. -/
def Incident.GetStatus (x : Option Incident) : Int :=
  match x with
  | none => 0
  | some x => x.Status

/-- Generated getter: nil-safe. -/
def Incident.GetRuleId (x : Option Incident) : String :=
  match x with
  | none => ""
  | some x => x.RuleId

/-- Wire `SchedulerSnapshot.Error`. -/
structure SchedulerSnapshot_Error where
  Message : String
  deriving DecidableEq, Repr

/-- Wire `SchedulerSnapshot.MetaData`; `V` is the structured value
(`structpb.Value`), which the converter only hands to the JSON codec. -/
structure SchedulerSnapshot_MetaData (V : Type) where
  StartTime : Option timestamppb.Timestamp
  EndTime : Option timestamppb.Timestamp
  Value : Option V
  deriving DecidableEq, Repr

/-- Wire `SchedulerSnapshot`. -/
structure SchedulerSnapshot (V : Type) where
  Code : Int
  «Type» : Int
  Error : Option SchedulerSnapshot_Error
  Meta : Option (SchedulerSnapshot_MetaData V)
  deriving DecidableEq, Repr

/-- Wire `SchedulerResponse`. -/
structure SchedulerResponse (V : Type) where
  SchedulerId : String
  Snapshot : Option (SchedulerSnapshot V)
  deriving DecidableEq, Repr

/-- Generated getter: nil-safe. -/
def SchedulerSnapshot_Error.GetMessage (x : Option SchedulerSnapshot_Error) : String :=
  match x with
  | none => ""
  | some x => x.Message

/-- Generated getter: nil-safe. -/
def SchedulerSnapshot_MetaData.GetStartTime {V : Type} (x : Option (SchedulerSnapshot_MetaData V)) :
    Option timestamppb.Timestamp :=
  match x with
  | none => none
  | some x => x.StartTime

/-- Generated getter: nil-safe. -/
def SchedulerSnapshot_MetaData.GetEndTime {V : Type} (x : Option (SchedulerSnapshot_MetaData V)) :
    Option timestamppb.Timestamp :=
  match x with
  | none => none
  | some x => x.EndTime

/-- Generated getter: nil-safe. -/
def SchedulerSnapshot_MetaData.GetValue {V : Type} (x : Option (SchedulerSnapshot_MetaData V)) :
    Option V :=
  match x with
  | none => none
  | some x => x.Value

/-- Generated getter: nil-safe. -/
def SchedulerSnapshot.GetMeta {V : Type} (x : Option (SchedulerSnapshot V)) :
    Option (SchedulerSnapshot_MetaData V) :=
  match x with
  | none => none
  | some x => x.Meta

/-- Generated getter: nil-safe. -/
def SchedulerSnapshot.GetError {V : Type} (x : Option (SchedulerSnapshot V)) :
    Option SchedulerSnapshot_Error :=
  match x with
  | none => none
  | some x => x.Error

/-- Generated getter: nil-safe. -/
def SchedulerSnapshot.GetCode {V : Type} (x : Option (SchedulerSnapshot V)) : Int :=
  match x with
  | none => 0
  | some x => x.Code

/-- Generated getter: nil-safe. -/
def SchedulerSnapshot.GetType {V : Type} (x : Option (SchedulerSnapshot V)) : Int :=
  match x with
  | none => 0
  | some x => x.«Type»

/-- Generated getter: nil-safe. -/
def SchedulerResponse.GetSnapshot {V : Type} (x : Option (SchedulerResponse V)) :
    Option (SchedulerSnapshot V) :=
  match x with
  | none => none
  | some x => x.Snapshot

/-- Generated getter: nil-safe. -/
def SchedulerResponse.GetSchedulerId {V : Type} (x : Option (SchedulerResponse V)) : String :=
  match x with
  | none => ""
  | some x => x.SchedulerId

/-- Wire `CpuInfo.CPU`. -/
structure CpuInfo_CPU where
  Load : Float64
  deriving DecidableEq, Repr

/-- Wire `CpuInfo`. -/
structure CpuInfo where
  Cpus : List (Option CpuInfo_CPU)
  deriving DecidableEq, Repr

/-- Wire `MemoryInfo.Memory`. -/
structure MemoryInfo_Memory where
  Total : Nat
  Used : Nat
  Free : Nat
  Shared : Nat
  UsedPercent : Float64
  deriving DecidableEq, Repr

/-- Wire `MemoryInfo`. -/
structure MemoryInfo where
  Mem : Option MemoryInfo_Memory
  Swap : Option MemoryInfo_Memory
  deriving DecidableEq, Repr

/-- Wire `DiskInfo.Disk`. -/
structure DiskInfo_Disk where
  Total : Nat
  Free : Nat
  Used : Nat
  UsedPercent : Float64
  deriving DecidableEq, Repr

/-- Wire `DiskInfo`. -/
structure DiskInfo where
  Disks : GoMap (Option DiskInfo_Disk)
  deriving DecidableEq, Repr

/-- Wire `NetInfo.Interface`. -/
structure NetInfo_Interface where
  BytesSent : Nat
  BytesRecv : Nat
  PacketsSent : Nat
  PacketsRecv : Nat
  ErrIn : Nat
  ErrOut : Nat
  DropIn : Nat
  DropOut : Nat
  deriving DecidableEq, Repr

/-- Wire `NetInfo`. -/
structure NetInfo where
  Interfaces : GoMap (Option NetInfo_Interface)
  deriving DecidableEq, Repr

/-- Wire `Metric`, the agent statistics message. -/
structure Metric where
  AgentId : String
  AgentName : String
  CpuInfo : Option CpuInfo
  MemoryInfo : Option MemoryInfo
  DiskInfo : Option DiskInfo
  NetInfo : Option NetInfo
  Time : Option timestamppb.Timestamp
  deriving DecidableEq, Repr

/-- Wire `GetAgentInformationResponse.Statistic`. -/
structure GetAgentInformationResponse_Statistic where
  CpuInfo : Option CpuInfo
  MemoryInfo : Option MemoryInfo
  DiskInfo : Option DiskInfo
  NetInfo : Option NetInfo
  Time : Option timestamppb.Timestamp
  deriving DecidableEq, Repr

/-- Generated getter: nil-safe. -/
def CpuInfo_CPU.GetLoad (x : Option CpuInfo_CPU) : Float64 :=
  match x with
  | none => Float64.zero
  | some x => x.Load

/-- Generated getter: nil-safe. -/
def MemoryInfo.GetMem (x : Option MemoryInfo) : Option MemoryInfo_Memory :=
  match x with
  | none => none
  | some x => x.Mem

/-- Generated getter: nil-safe. -/
def MemoryInfo.GetSwap (x : Option MemoryInfo) : Option MemoryInfo_Memory :=
  match x with
  | none => none
  | some x => x.Swap

/-- Generated getter: nil-safe. -/
def MemoryInfo_Memory.GetTotal (x : Option MemoryInfo_Memory) : Nat :=
  match x with
  | none => 0
  | some x => x.Total

/-- Generated getter: nil-safe. -/
def MemoryInfo_Memory.GetUsed (x : Option MemoryInfo_Memory) : Nat :=
  match x with
  | none => 0
  | some x => x.Used

/-- Generated getter: nil-safe. -/
def MemoryInfo_Memory.GetFree (x : Option MemoryInfo_Memory) : Nat :=
  match x with
  | none => 0
  | some x => x.Free

/-- Generated getter: nil-safe. -/
def MemoryInfo_Memory.GetShared (x : Option MemoryInfo_Memory) : Nat :=
  match x with
  | none => 0
  | some x => x.Shared

/-- Generated getter: nil-safe. -/
def MemoryInfo_Memory.GetUsedPercent (x : Option MemoryInfo_Memory) : Float64 :=
  match x with
  | none => Float64.zero
  | some x => x.UsedPercent

/-- Generated getter: nil-safe. -/
def DiskInfo.GetDisks (x : Option DiskInfo) : GoMap (Option DiskInfo_Disk) :=
  match x with
  | none => []
  | some x => x.Disks

/-- Generated getter: nil-safe. -/
def DiskInfo_Disk.GetTotal (x : Option DiskInfo_Disk) : Nat :=
  match x with
  | none => 0
  | some x => x.Total

/-- Generated getter: nil-safe. -/
def DiskInfo_Disk.GetFree (x : Option DiskInfo_Disk) : Nat :=
  match x with
  | none => 0
  | some x => x.Free

/-- Generated getter: nil-safe. -/
def DiskInfo_Disk.GetUsed (x : Option DiskInfo_Disk) : Nat :=
  match x with
  | none => 0
  | some x => x.Used

/-- Generated getter: nil-safe. -/
def DiskInfo_Disk.GetUsedPercent (x : Option DiskInfo_Disk) : Float64 :=
  match x with
  | none => Float64.zero
  | some x => x.UsedPercent

/-- Generated getter: nil-safe. -/
def NetInfo.GetInterfaces (x : Option NetInfo) : GoMap (Option NetInfo_Interface) :=
  match x with
  | none => []
  | some x => x.Interfaces

/-- Generated getter: nil-safe. -/
def NetInfo_Interface.GetBytesSent (x : Option NetInfo_Interface) : Nat :=
  match x with
  | none => 0
  | some x => x.BytesSent

/-- Generated getter: nil-safe. -/
def NetInfo_Interface.GetBytesRecv (x : Option NetInfo_Interface) : Nat :=
  match x with
  | none => 0
  | some x => x.BytesRecv

/-- Generated getter: nil-safe. -/
def NetInfo_Interface.GetPacketsSent (x : Option NetInfo_Interface) : Nat :=
  match x with
  | none => 0
  | some x => x.PacketsSent

/-- Generated getter: nil-safe. -/
def NetInfo_Interface.GetPacketsRecv (x : Option NetInfo_Interface) : Nat :=
  match x with
  | none => 0
  | some x => x.PacketsRecv

/-- Generated getter: nil-safe. -/
def NetInfo_Interface.GetErrIn (x : Option NetInfo_Interface) : Nat :=
  match x with
  | none => 0
  | some x => x.ErrIn

/-- Generated getter: nil-safe. -/
def NetInfo_Interface.GetErrOut (x : Option NetInfo_Interface) : Nat :=
  match x with
  | none => 0
  | some x => x.ErrOut

/-- Generated getter: nil-safe. -/
def NetInfo_Interface.GetDropIn (x : Option NetInfo_Interface) : Nat :=
  match x with
  | none => 0
  | some x => x.DropIn

/-- Generated getter: nil-safe. -/
def NetInfo_Interface.GetDropOut (x : Option NetInfo_Interface) : Nat :=
  match x with
  | none => 0
  | some x => x.DropOut

/-- Generated getter: nil-safe. -/
def Metric.GetAgentId (x : Option Metric) : String :=
  match x with
  | none => ""
  | some x => x.AgentId

/-- Generated getter: nil-safe. -/
def Metric.GetAgentName (x : Option Metric) : String :=
  match x with
  | none => ""
  | some x => x.AgentName

/-- Generated getter: nil-safe. -/
def Metric.GetCpuInfo (x : Option Metric) : Option apiPb.CpuInfo :=
  match x with
  | none => none
  | some x => x.CpuInfo

/-- Generated getter: nil-safe. -/
def Metric.GetMemoryInfo (x : Option Metric) : Option apiPb.MemoryInfo :=
  match x with
  | none => none
  | some x => x.MemoryInfo

/-- Generated getter: nil-safe. -/
def Metric.GetDiskInfo (x : Option Metric) : Option apiPb.DiskInfo :=
  match x with
  | none => none
  | some x => x.DiskInfo

/-- Generated getter: nil-safe. -/
def Metric.GetNetInfo (x : Option Metric) : Option apiPb.NetInfo :=
  match x with
  | none => none
  | some x => x.NetInfo

/-- Generated getter: nil-safe. -/
def Metric.GetTime (x : Option Metric) : Option timestamppb.Timestamp :=
  match x with
  | none => none
  | some x => x.Time

end apiPb

/-! ## Stored records and the incident conversion -/

namespace clickhouse

/-- Stored `IncidentHistory`. -/
structure IncidentHistory where
  Status : Int
  Timestamp : Int
  deriving DecidableEq, Repr

/-- Stored `Incident`. -/
structure Incident where
  IncidentId : String
  Status : Int
  RuleId : String
  StartTime : Int
  EndTime : Int
  Histories : List (Option IncidentHistory)
  deriving DecidableEq, Repr

/-- Source `convertToIncidentHistory`: nil for a nil entry and for an entry
whose timestamp `ptypes.Timestamp` rejects. -/
def convertToIncidentHistory (data : Option apiPb.Incident_HistoryItem) : Option IncidentHistory :=
  match data with
  | none => none
  | some _ =>
    let (t, err) := ptypes.Timestamp (apiPb.Incident_HistoryItem.GetTimestamp data)
    match err with
    | some _ => none
    | none => some ⟨apiPb.Incident_HistoryItem.GetStatus data, t.UnixNano⟩

/-- Loop state of `convertToIncidentHistories`: the histories appended so far,
`minTime` and `maxTime`. -/
structure HistoriesAcc where
  histories : List (Option IncidentHistory)
  minTime : Int
  maxTime : Int
  deriving DecidableEq, Repr

/-- One iteration of the loop of `convertToIncidentHistories`, comparisons as
in the source. -/
def convertToIncidentHistories.step (acc : HistoriesAcc)
    (v : Option apiPb.Incident_HistoryItem) : HistoriesAcc :=
  match convertToIncidentHistory v with
  | none => acc
  | some history =>
    let minTime :=
      if acc.minTime < history.Timestamp ∨ acc.minTime = 0 then history.Timestamp
      else acc.minTime
    let maxTime :=
      if acc.maxTime > history.Timestamp ∨ acc.maxTime = 0 then history.Timestamp
      else acc.maxTime
    ⟨acc.histories ++ [some history], minTime, maxTime⟩

/-- Source `convertToIncidentHistories`: the converted histories, `minTime`
and `maxTime`. -/
def convertToIncidentHistories (data : List (Option apiPb.Incident_HistoryItem)) :
    List (Option IncidentHistory) × Int × Int :=
  let acc := data.foldl convertToIncidentHistories.step ⟨[], 0, 0⟩
  (acc.histories, acc.minTime, acc.maxTime)

/-- Source `convertToIncident`. -/
def convertToIncident (data : Option apiPb.Incident) (t : time.Time) : Option Incident :=
  match data with
  | none => none
  | some _ =>
    let (histories, startTime, endTime) := convertToIncidentHistories (apiPb.Incident.GetHistories data)
    let clock := startTime = 0 ∨ endTime = 0
    let startTime1 := if clock then t.UnixNano else startTime
    let endTime1 := if clock then t.UnixNano else endTime
    some
      { IncidentId := apiPb.Incident.GetId data
        Status := apiPb.Incident.GetStatus data
        RuleId := apiPb.Incident.GetRuleId data
        StartTime := startTime1
        EndTime := endTime1
        Histories := histories }

/-- Source `convertFromIncidentHistory`; the error of `TimestampProto` is
dropped, its nil timestamp kept. -/
def convertFromIncidentHistory (data : Option IncidentHistory) : Option apiPb.Incident_HistoryItem :=
  match data with
  | none => none
  | some data =>
    let (parsedTime, _) := ptypes.TimestampProto (time.Unix 0 data.Timestamp)
    some ⟨data.Status, parsedTime⟩

/-- Source `convertFromIncidentHistories`. -/
def convertFromIncidentHistories (data : List (Option IncidentHistory)) :
    List (Option apiPb.Incident_HistoryItem) :=
  data.foldl
    (fun histories v =>
      match convertFromIncidentHistory v with
      | none => histories
      | some history => histories ++ [some history])
    []

/-- Source `convertFromIncident`: reads the fields of `data` without a nil
check. -/
def convertFromIncident (data : Option Incident) : Go apiPb.Incident :=
  match data with
  | none => .fault
  | some data =>
    .ret
      { Id := data.IncidentId
        Status := data.Status
        RuleId := data.RuleId
        Histories := convertFromIncidentHistories data.Histories }

/-- Source `convertFromIncidents`. -/
def convertFromIncidents (data : List (Option Incident)) : Go (List (Option apiPb.Incident)) :=
  match data with
  | [] => .ret []
  | v :: rest =>
    (convertFromIncident v).bind fun x =>
      (convertFromIncidents rest).bind fun xs => .ret (some x :: xs)

/-! ### Snapshots -/

/-- Stored `Snapshot`. -/
structure Snapshot where
  SchedulerID : String
  Code : Int
  «Type» : Int
  MetaStartTime : Int
  MetaEndTime : Int
  Error : String
  MetaValue : List UInt8
  deriving DecidableEq, Repr

/-- Source `convertToSnapshot`. -/
def convertToSnapshot {V : Type} (codec : jsonpb.Codec V)
    (request : Option (apiPb.SchedulerSnapshot V)) (schedulerID : String) :
    Option Snapshot × Option GoError :=
  match request with
  | none => (none, some (.errorsNew "ERROR_SNAPSHOT_IS_EMPTY"))
  | some _ =>
    match apiPb.SchedulerSnapshot.GetMeta request with
    | none => (none, some (.errorsNew "EMPTY_META_DATA"))
    | some _ =>
      let meta := apiPb.SchedulerSnapshot.GetMeta request
      let (startTime, err) := ptypes.Timestamp (apiPb.SchedulerSnapshot_MetaData.GetStartTime meta)
      match err with
      | some e => (none, some e)
      | none =>
        let (endTime, err) := ptypes.Timestamp (apiPb.SchedulerSnapshot_MetaData.GetEndTime meta)
        match err with
        | some e => (none, some e)
        | none =>
          let res : Snapshot :=
            { SchedulerID := schedulerID
              Code := apiPb.SchedulerSnapshot.GetCode request
              «Type» := apiPb.SchedulerSnapshot.GetType request
              MetaStartTime := startTime.UnixNano
              MetaEndTime := endTime.UnixNano
              Error := ""
              MetaValue := [] }
          let res : Snapshot :=
            match apiPb.SchedulerSnapshot.GetError request with
            | some _ =>
              let message :=
                apiPb.SchedulerSnapshot_Error.GetMessage (apiPb.SchedulerSnapshot.GetError request)
              { res with Error := message }
            | none => res
          match codec.Marshal (apiPb.SchedulerSnapshot_MetaData.GetValue meta) with
          | none => (some res, none)
          | some b => (some { res with MetaValue := b }, none)

/-- Source `ConvertToSnapshot`. -/
def ConvertToSnapshot {V : Type} (codec : jsonpb.Codec V)
    (request : Option (apiPb.SchedulerResponse V)) : Option Snapshot × Option GoError :=
  convertToSnapshot codec (apiPb.SchedulerResponse.GetSnapshot request)
    (apiPb.SchedulerResponse.GetSchedulerId request)

/-- Source `convertFromSnapshot`: reads the fields of `snapshot` without a nil
check; the errors of `TimestampProto` are dropped. -/
def convertFromSnapshot {V : Type} (codec : jsonpb.Codec V) (snapshot : Option Snapshot) :
    Go (Option (apiPb.SchedulerSnapshot V) × Option GoError) :=
  match snapshot with
  | none => .fault
  | some snapshot =>
    let (startTime, _) := ptypes.TimestampProto (time.Unix 0 snapshot.MetaStartTime)
    let (endTime, _) := ptypes.TimestampProto (time.Unix 0 snapshot.MetaEndTime)
    let res : apiPb.SchedulerSnapshot V :=
      { Code := snapshot.Code
        «Type» := snapshot.«Type»
        Error := none
        Meta := some { StartTime := startTime, EndTime := endTime, Value := none } }
    let res : apiPb.SchedulerSnapshot V :=
      if snapshot.Error ≠ "" then { res with Error := some ⟨snapshot.Error⟩ } else res
    match codec.Unmarshal snapshot.MetaValue with
    | none => .ret (some res, none)
    | some str =>
      .ret (some { res with Meta := some { StartTime := startTime, EndTime := endTime,
                                            Value := some str } }, none)

/-- Source `ConvertFromSnapshots`: keeps the snapshots converted without
error. -/
def ConvertFromSnapshots {V : Type} (codec : jsonpb.Codec V) (snapshots : List (Option Snapshot)) :
    Go (List (Option (apiPb.SchedulerSnapshot V))) :=
  match snapshots with
  | [] => .ret []
  | v :: rest =>
    (convertFromSnapshot codec v).bind fun (snap, err) =>
      (ConvertFromSnapshots codec rest).bind fun res =>
        match err with
        | none => .ret (snap :: res)
        | some _ => .ret res

/-! ### Agent statistics -/

/-- Stored `CPUInfo`. -/
structure CPUInfo where
  Load : Float64
  deriving DecidableEq, Repr

/-- Stored `MemoryMem`. -/
structure MemoryMem where
  Total : Nat
  Used : Nat
  Free : Nat
  Shared : Nat
  UsedPercent : Float64
  deriving DecidableEq, Repr

/-- Stored `MemorySwap`. -/
structure MemorySwap where
  Total : Nat
  Used : Nat
  Free : Nat
  Shared : Nat
  UsedPercent : Float64
  deriving DecidableEq, Repr

/-- Stored `MemoryInfo`. -/
structure MemoryInfo where
  Mem : Option MemoryMem
  Swap : Option MemorySwap
  deriving DecidableEq, Repr

/-- Stored `DiskInfo`. -/
structure DiskInfo where
  Name : String
  Total : Nat
  Free : Nat
  Used : Nat
  UsedPercent : Float64
  deriving DecidableEq, Repr

/-- Stored `NetInfo`. -/
structure NetInfo where
  Name : String
  BytesSent : Nat
  BytesRecv : Nat
  PacketsSent : Nat
  PacketsRecv : Nat
  ErrIn : Nat
  ErrOut : Nat
  DropIn : Nat
  DropOut : Nat
  deriving DecidableEq, Repr

/-- Stored `StatRequest`. -/
structure StatRequest where
  AgentID : String
  AgentName : String
  CPUInfo : List (Option CPUInfo)
  MemoryInfo : Option MemoryInfo
  DiskInfo : List (Option DiskInfo)
  NetInfo : List (Option NetInfo)
  Time : time.Time
  deriving DecidableEq, Repr

/-- Source `convertToCPUInfo`. -/
def convertToCPUInfo (request : Option apiPb.CpuInfo) : List (Option CPUInfo) :=
  match request with
  | none => []
  | some request =>
    request.Cpus.foldl (fun res v => res ++ [some ⟨apiPb.CpuInfo_CPU.GetLoad v⟩]) []

/-- Source `convertToMemoryInfo`. -/
def convertToMemoryInfo (reqest : Option apiPb.MemoryInfo) : Option MemoryInfo :=
  match reqest with
  | none => none
  | some _ =>
    let res : MemoryInfo := ⟨none, none⟩
    let res : MemoryInfo :=
      match apiPb.MemoryInfo.GetMem reqest with
      | some _ =>
        let mem := apiPb.MemoryInfo.GetMem reqest
        let converted : MemoryMem :=
          { Total := apiPb.MemoryInfo_Memory.GetTotal mem
            Used := apiPb.MemoryInfo_Memory.GetUsed mem
            Free := apiPb.MemoryInfo_Memory.GetFree mem
            Shared := apiPb.MemoryInfo_Memory.GetShared mem
            UsedPercent := apiPb.MemoryInfo_Memory.GetUsedPercent mem }
        { res with Mem := some converted }
      | none => res
    let res : MemoryInfo :=
      match apiPb.MemoryInfo.GetSwap reqest with
      | some _ =>
        let swap := apiPb.MemoryInfo.GetSwap reqest
        let converted : MemorySwap :=
          { Total := apiPb.MemoryInfo_Memory.GetTotal swap
            Used := apiPb.MemoryInfo_Memory.GetUsed swap
            Free := apiPb.MemoryInfo_Memory.GetFree swap
            Shared := apiPb.MemoryInfo_Memory.GetShared swap
            UsedPercent := apiPb.MemoryInfo_Memory.GetUsedPercent swap }
        { res with Swap := some converted }
      | none => res
    some res

/-- Source `convertToDiskInfo`: one record per map entry, in the order `range`
enumerates the map. -/
def convertToDiskInfo (request : Option apiPb.DiskInfo) : List (Option DiskInfo) :=
  match request with
  | none => []
  | some _ =>
    (apiPb.DiskInfo.GetDisks request).foldl
      (fun res (entry : String × Option apiPb.DiskInfo_Disk) =>
        res ++ [some
          { Name := entry.1
            Total := apiPb.DiskInfo_Disk.GetTotal entry.2
            Free := apiPb.DiskInfo_Disk.GetFree entry.2
            Used := apiPb.DiskInfo_Disk.GetUsed entry.2
            UsedPercent := apiPb.DiskInfo_Disk.GetUsedPercent entry.2 }])
      []

/-- Source `convertToNetInfo`: one record per map entry, in the order `range`
enumerates the map. -/
def convertToNetInfo (request : Option apiPb.NetInfo) : List (Option NetInfo) :=
  match request with
  | none => []
  | some _ =>
    (apiPb.NetInfo.GetInterfaces request).foldl
      (fun res (entry : String × Option apiPb.NetInfo_Interface) =>
        res ++ [some
          { Name := entry.1
            BytesSent := apiPb.NetInfo_Interface.GetBytesSent entry.2
            BytesRecv := apiPb.NetInfo_Interface.GetBytesRecv entry.2
            PacketsSent := apiPb.NetInfo_Interface.GetPacketsSent entry.2
            PacketsRecv := apiPb.NetInfo_Interface.GetPacketsRecv entry.2
            ErrIn := apiPb.NetInfo_Interface.GetErrIn entry.2
            ErrOut := apiPb.NetInfo_Interface.GetErrOut entry.2
            DropIn := apiPb.NetInfo_Interface.GetDropIn entry.2
            DropOut := apiPb.NetInfo_Interface.GetDropOut entry.2 }])
      []

/-- Source `ConvertToClickhouseStatRequest`. -/
def ConvertToClickhouseStatRequest (request : Option apiPb.Metric) :
    Option StatRequest × Option GoError :=
  let (t, err) := ptypes.Timestamp (apiPb.Metric.GetTime request)
  match err with
  | some e => (none, some e)
  | none =>
    (some
      { AgentID := apiPb.Metric.GetAgentId request
        AgentName := apiPb.Metric.GetAgentName request
        CPUInfo := convertToCPUInfo (apiPb.Metric.GetCpuInfo request)
        MemoryInfo := convertToMemoryInfo (apiPb.Metric.GetMemoryInfo request)
        DiskInfo := convertToDiskInfo (apiPb.Metric.GetDiskInfo request)
        NetInfo := convertToNetInfo (apiPb.Metric.GetNetInfo request)
        Time := t }, none)

/-- The loop of `convertFromCPUInfo`: appends one wire entry per record and
panics on a nil record (`v.Load`). -/
def convertFromCPUInfo.loop (cpus : List (Option apiPb.CpuInfo_CPU)) :
    List (Option CPUInfo) → Go (List (Option apiPb.CpuInfo_CPU))
  | [] => .ret cpus
  | none :: _ => .fault
  | some v :: rest => convertFromCPUInfo.loop (cpus ++ [some ⟨v.Load⟩]) rest

/-- Source `convertFromCPUInfo`. -/
def convertFromCPUInfo (data : List (Option CPUInfo)) : Go (Option apiPb.CpuInfo) :=
  (convertFromCPUInfo.loop [] data).bind fun cpus =>
    if cpus.length = 0 then .ret none else .ret (some ⟨cpus⟩)

/-- Source `convertFromMemoryInfo`. -/
def convertFromMemoryInfo (data : Option MemoryInfo) : Option apiPb.MemoryInfo :=
  match data with
  | none => none
  | some data =>
    let res : apiPb.MemoryInfo := ⟨none, none⟩
    let res : apiPb.MemoryInfo :=
      match data.Mem with
      | some mem =>
        let converted : apiPb.MemoryInfo_Memory :=
          { Total := mem.Total, Used := mem.Used, Free := mem.Free, Shared := mem.Shared
            UsedPercent := mem.UsedPercent }
        { res with Mem := some converted }
      | none => res
    let res : apiPb.MemoryInfo :=
      match data.Swap with
      | some swap =>
        let converted : apiPb.MemoryInfo_Memory :=
          { Total := swap.Total, Used := swap.Used, Free := swap.Free, Shared := swap.Shared
            UsedPercent := swap.UsedPercent }
        { res with Swap := some converted }
      | none => res
    if res.Mem = none ∧ res.Swap = none then none else some res

/-- The loop of `convertFromDiskInfo`: stores one wire entry under the name of
each record and panics on a nil record (`v.Name`). -/
def convertFromDiskInfo.loop (disks : GoMap (Option apiPb.DiskInfo_Disk)) :
    List (Option DiskInfo) → Go (GoMap (Option apiPb.DiskInfo_Disk))
  | [] => .ret disks
  | none :: _ => .fault
  | some v :: rest =>
    convertFromDiskInfo.loop
      (disks.set v.Name (some
        { Total := v.Total, Free := v.Free, Used := v.Used, UsedPercent := v.UsedPercent }))
      rest

/-- Source `convertFromDiskInfo`. -/
def convertFromDiskInfo (data : List (Option DiskInfo)) : Go (Option apiPb.DiskInfo) :=
  (convertFromDiskInfo.loop [] data).bind fun disks =>
    if disks.length = 0 then .ret none else .ret (some ⟨disks⟩)

/-- The loop of `convertFromNetInfo`: stores one wire entry under the name of
each record and panics on a nil record (`v.Name`). -/
def convertFromNetInfo.loop (interfaces : GoMap (Option apiPb.NetInfo_Interface)) :
    List (Option NetInfo) → Go (GoMap (Option apiPb.NetInfo_Interface))
  | [] => .ret interfaces
  | none :: _ => .fault
  | some v :: rest =>
    convertFromNetInfo.loop
      (interfaces.set v.Name (some
        { BytesSent := v.BytesSent, BytesRecv := v.BytesRecv, PacketsSent := v.PacketsSent
          PacketsRecv := v.PacketsRecv, ErrIn := v.ErrIn, ErrOut := v.ErrOut
          DropIn := v.DropIn, DropOut := v.DropOut }))
      rest

/-- Source `convertFromNetInfo`. -/
def convertFromNetInfo (data : List (Option NetInfo)) : Go (Option apiPb.NetInfo) :=
  (convertFromNetInfo.loop [] data).bind fun interfaces =>
    if interfaces.length = 0 then .ret none else .ret (some ⟨interfaces⟩)

/-- Source `ConvertFromClickhouseStatRequest`: reads `data.Time` without a nil
check; the arguments of the composite literal are evaluated in order. -/
def ConvertFromClickhouseStatRequest (data : Option StatRequest) :
    Go (Option apiPb.GetAgentInformationResponse_Statistic × Option GoError) :=
  match data with
  | none => .fault
  | some data =>
    let (t, err) := ptypes.TimestampProto data.Time
    match err with
    | some e => .ret (none, some e)
    | none =>
      (convertFromCPUInfo data.CPUInfo).bind fun cpu =>
        (convertFromDiskInfo data.DiskInfo).bind fun disk =>
          (convertFromNetInfo data.NetInfo).bind fun net =>
            .ret (some
              { CpuInfo := cpu
                MemoryInfo := convertFromMemoryInfo data.MemoryInfo
                DiskInfo := disk
                NetInfo := net
                Time := t }, none)

/-- Source `ConvertFromClickhouseStatRequests`: keeps the statistics converted
without error. -/
def ConvertFromClickhouseStatRequests (data : List (Option StatRequest)) :
    Go (List (Option apiPb.GetAgentInformationResponse_Statistic)) :=
  match data with
  | [] => .ret []
  | request :: rest =>
    (ConvertFromClickhouseStatRequest request).bind fun (stat, err) =>
      (ConvertFromClickhouseStatRequests rest).bind fun res =>
        match err with
        | none => .ret (stat :: res)
        | some _ => .ret res

end clickhouse

/-! ## Predicates used in the statements -/

namespace clickhouse

/-- A history entry that is present and carries a timestamp accepted by
`ptypes.validateTimestamp`. -/
def ValidEntry (e : Option apiPb.Incident_HistoryItem) : Prop :=
  match e with
  | none => False
  | some h =>
    match h.Timestamp with
    | none => False
    | some ts => ts.Valid

instance (e : Option apiPb.Incident_HistoryItem) : Decidable (ValidEntry e) := by
  unfold ValidEntry
  split
  · exact inferInstance
  · split <;> exact inferInstance

/-- The timestamp of a history entry, when there is one, counts a number of
nanoseconds since the epoch that fits an `int64`. -/
def Int64Entry (e : Option apiPb.Incident_HistoryItem) : Prop :=
  match e with
  | none => True
  | some h =>
    match h.Timestamp with
    | none => True
    | some ts => inInt64 ts.nanos

instance (e : Option apiPb.Incident_HistoryItem) : Decidable (Int64Entry e) := by
  unfold Int64Entry
  split
  · exact inferInstance
  · split <;> exact inferInstance

end clickhouse

/-- A timestamp that `ptypes.validateTimestamp` rejects: absent, seconds outside
the years 0001 to 9999, or nanos outside `[0, 10^9)`. -/
def timestamppb.Malformed (ts : Option timestamppb.Timestamp) : Prop :=
  match ts with
  | none => True
  | some v => ¬ v.Valid

instance (ts : Option timestamppb.Timestamp) : Decidable (timestamppb.Malformed ts) := by
  unfold timestamppb.Malformed
  split <;> exact inferInstance

/-- A small codec for closed examples: the structured value is a byte string
that encodes as itself; a nil value cannot be encoded and the empty blob
cannot be decoded. -/
def jsonpb.rawCodec : jsonpb.Codec (List UInt8) where
  Marshal := fun v => v
  Unmarshal := fun b => if b = [] then none else some b

/-- A wire disk entry read through its getters, as `convertToDiskInfo` reads it
and `convertFromDiskInfo` writes it back: a nil entry reads as the zero entry. -/
def apiPb.DiskInfo_Disk.viaGetters (v : Option apiPb.DiskInfo_Disk) : Option apiPb.DiskInfo_Disk :=
  some
    { Total := apiPb.DiskInfo_Disk.GetTotal v
      Free := apiPb.DiskInfo_Disk.GetFree v
      Used := apiPb.DiskInfo_Disk.GetUsed v
      UsedPercent := apiPb.DiskInfo_Disk.GetUsedPercent v }

/-- A wire network interface read through its getters: a nil entry reads as the
zero entry. -/
def apiPb.NetInfo_Interface.viaGetters (v : Option apiPb.NetInfo_Interface) :
    Option apiPb.NetInfo_Interface :=
  some
    { BytesSent := apiPb.NetInfo_Interface.GetBytesSent v
      BytesRecv := apiPb.NetInfo_Interface.GetBytesRecv v
      PacketsSent := apiPb.NetInfo_Interface.GetPacketsSent v
      PacketsRecv := apiPb.NetInfo_Interface.GetPacketsRecv v
      ErrIn := apiPb.NetInfo_Interface.GetErrIn v
      ErrOut := apiPb.NetInfo_Interface.GetErrOut v
      DropIn := apiPb.NetInfo_Interface.GetDropIn v
      DropOut := apiPb.NetInfo_Interface.GetDropOut v }

/-- The stored record `convertToDiskInfo` makes of one map entry. -/
def clickhouse.diskRecord (entry : String × Option apiPb.DiskInfo_Disk) : clickhouse.DiskInfo :=
  { Name := entry.1
    Total := apiPb.DiskInfo_Disk.GetTotal entry.2
    Free := apiPb.DiskInfo_Disk.GetFree entry.2
    Used := apiPb.DiskInfo_Disk.GetUsed entry.2
    UsedPercent := apiPb.DiskInfo_Disk.GetUsedPercent entry.2 }

/-- The stored record `convertToNetInfo` makes of one map entry. -/
def clickhouse.netRecord (entry : String × Option apiPb.NetInfo_Interface) : clickhouse.NetInfo :=
  { Name := entry.1
    BytesSent := apiPb.NetInfo_Interface.GetBytesSent entry.2
    BytesRecv := apiPb.NetInfo_Interface.GetBytesRecv entry.2
    PacketsSent := apiPb.NetInfo_Interface.GetPacketsSent entry.2
    PacketsRecv := apiPb.NetInfo_Interface.GetPacketsRecv entry.2
    ErrIn := apiPb.NetInfo_Interface.GetErrIn entry.2
    ErrOut := apiPb.NetInfo_Interface.GetErrOut entry.2
    DropIn := apiPb.NetInfo_Interface.GetDropIn entry.2
    DropOut := apiPb.NetInfo_Interface.GetDropOut entry.2 }

/-- A stat message used in closed examples: two cores, memory with mem only, two
disks (one entry nil) and no network section. -/
def apiPb.exampleMetric : apiPb.Metric :=
  { AgentId := "agent-1"
    AgentName := "host"
    CpuInfo := some ⟨[some ⟨⟨7⟩⟩, none]⟩
    MemoryInfo := some ⟨some ⟨8, 3, 5, 0, ⟨37⟩⟩, none⟩
    DiskInfo := some ⟨[("sdb", some ⟨100, 60, 40, ⟨40⟩⟩), ("sda", none)]⟩
    NetInfo := none
    Time := some ⟨1600000000, 5⟩ }

/-! ## IEEE-754 arithmetic on `float64` (conversion from `int64` and division) -/

/-- Search for the floor of the binary logarithm, with fuel. -/
def Float64.log2Floor.go : Nat → Nat → Nat
  | 0, _ => 0
  | fuel + 1, n => if n ≥ 2 then Float64.log2Floor.go fuel (n / 2) + 1 else 0

/-- Floor of the binary logarithm of a positive number (`0` for `0`). -/
def Float64.log2Floor (n : Nat) : Nat := Float64.log2Floor.go n n

/-- The `float64` nearest to `± num / den` for positive `num` and `den`, ties
to the even mantissa: `e` is the binary exponent of the quotient, `qe` the
exponent of the last mantissa bit (held at `-1074` for subnormal results), and
the rounded mantissa is added to the exponent field so that a carry moves to
the next exponent; a result past the largest finite value is the infinity. -/
def Float64.roundRatio (neg : Bool) (num den : Nat) : Float64 :=
  let d : Int := (Float64.log2Floor num : Int) - (Float64.log2Floor den : Int)
  let e : Int := if den * 2 ^ d.toNat ≤ num * 2 ^ (-d).toNat then d else d - 1
  let qe : Int := max (e - 52) (-1074)
  let n1 := num * 2 ^ (-qe).toNat
  let d1 := den * 2 ^ qe.toNat
  let m := n1 / d1
  let r := n1 % d1
  let m1 := if 2 * r > d1 ∨ (2 * r = d1 ∧ m % 2 = 1) then m + 1 else m
  let mag := (qe + 1074).toNat * 2 ^ 52 + m1
  let mag1 := if mag ≥ 2047 * 2 ^ 52 then 2047 * 2 ^ 52 else mag
  ⟨if neg then 2 ^ 63 + mag1 else mag1⟩

/-- The sign bit of a `float64`. -/
def Float64.neg (x : Float64) : Bool := decide (x.bits / 2 ^ 63 % 2 = 1)

/-- The exponent field of a `float64`. -/
def Float64.expField (x : Float64) : Nat := x.bits / 2 ^ 52 % 2048

/-- The fraction field of a `float64`. -/
def Float64.fracField (x : Float64) : Nat := x.bits % 2 ^ 52

/-- A quiet NaN; which NaN an operation yields is left to the hardware by Go and
is not modelled further. -/
def Float64.nan : Float64 := ⟨0x7FF8000000000000⟩

/-- The infinity of the given sign. -/
def Float64.inf (neg : Bool) : Float64 := ⟨if neg then 2 ^ 63 + 2047 * 2 ^ 52 else 2047 * 2 ^ 52⟩

/-- The zero of the given sign. -/
def Float64.signedZero (neg : Bool) : Float64 := ⟨if neg then 2 ^ 63 else 0⟩

/-- The magnitude of a finite `float64` as `mantissa * 2 ^ exponent`. -/
def Float64.decode (x : Float64) : Nat × Int :=
  if x.expField = 0 then (x.fracField, -1074)
  else (2 ^ 52 + x.fracField, (x.expField : Int) - 1075)

/-- Go `float64(n)` for an `int64` `n`: the nearest `float64`, ties to even. -/
def Float64.ofInt64 (n : Int) : Float64 :=
  if n = 0 then Float64.zero
  else Float64.roundRatio (decide (n < 0)) n.natAbs 1

/-- Go `a / b` on `float64`: IEEE-754 division, rounded to nearest, ties to
even. -/
def Float64.div (a b : Float64) : Float64 :=
  let neg := xor a.neg b.neg
  let aNaN := a.expField = 2047 ∧ a.fracField ≠ 0
  let bNaN := b.expField = 2047 ∧ b.fracField ≠ 0
  let aInf := a.expField = 2047 ∧ a.fracField = 0
  let bInf := b.expField = 2047 ∧ b.fracField = 0
  let aZero := a.expField = 0 ∧ a.fracField = 0
  let bZero := b.expField = 0 ∧ b.fracField = 0
  if aNaN ∨ bNaN then Float64.nan
  else if aInf then (if bInf then Float64.nan else Float64.inf neg)
  else if bInf then Float64.signedZero neg
  else if bZero then (if aZero then Float64.nan else Float64.inf neg)
  else if aZero then Float64.signedZero neg
  else
    let (ma, ea) := a.decode
    let (mb, eb) := b.decode
    Float64.roundRatio neg (ma * 2 ^ (ea - eb).toNat) (mb * 2 ^ (eb - ea).toNat)

/-! ## Package `strings` -/

/-- Go `strings.Split(s, ".")[0]`: the text before the first `.`, the whole text
when there is none.  A Go string is taken as its sequence of characters. -/
def strings.beforeFirstDot (s : String) : String :=
  String.mk (s.data.takeWhile fun c => c ≠ '.')

/-- Go `strings.Contains(s, substr)`. -/
def strings.Contains (s substr : String) : Bool := decide (substr.data <:+: s.data)

/-- Go `strings.HasPrefix(s, head)`. -/
def strings.HasPrefix (s head : String) : Bool := decide (head.data <+: s.data)

/-! ## Uptime summary -/

/-- Wire `GetSchedulerUptimeResponse`. -/
structure apiPb.GetSchedulerUptimeResponse where
  Uptime : Float64
  Latency : Float64
  deriving DecidableEq, Repr

/-- Stored `UptimeResult`. -/
structure clickhouse.UptimeResult where
  Count : Int
  Latency : String
  deriving DecidableEq, Repr

/-- Source `convertFromUptimeResult`.  `ParseFloat` is `strconv.ParseFloat(s, 64)`
of the Go library, `none` when it returns an error; `uptimeResult` is read
without a nil check. -/
def clickhouse.convertFromUptimeResult (ParseFloat : String → Option Float64)
    (uptimeResult : Option clickhouse.UptimeResult) (countAll : Int) :
    Go apiPb.GetSchedulerUptimeResponse :=
  match uptimeResult with
  | none => .fault
  | some uptimeResult =>
    match ParseFloat (strings.beforeFirstDot uptimeResult.Latency) with
    | none => .ret { Uptime := Float64.zero, Latency := Float64.zero }
    | some latency =>
      .ret
        { Uptime := Float64.div (Float64.ofInt64 uptimeResult.Count) (Float64.ofInt64 countAll)
          Latency := latency }

/-- A parser for closed examples: it reads the text `12` as the number twelve
and rejects every other text. -/
def strconv.exampleParseFloat (s : String) : Option Float64 :=
  if s = "12" then some (Float64.ofInt64 12) else none

/-! ## The HTTP probe (`apps/internal/job/job_HTTP.go`) -/

/-- The status codes of `clientPb` that the probe sets. -/
inductive clientPb.StatusCode where
  | StatusCode_OK
  | StatusCode_Error
  deriving DecidableEq, Repr

/-- The check type of `clientPb` that the probe sets. -/
inductive clientPb.«Type» where
  | Type_Http
  deriving DecidableEq, Repr

/-- Wire `clientPb.MetaData`. -/
structure clientPb.MetaData where
  Id : String
  Location : String
  Port : Int
  Time : Option timestamppb.Timestamp
  «Type» : clientPb.«Type»
  deriving DecidableEq, Repr

/-- Wire `clientPb.Log`. -/
structure clientPb.Log where
  Code : clientPb.StatusCode
  Description : String
  Meta : Option clientPb.MetaData
  deriving DecidableEq, Repr

/-- An `http.Response`, by the one field the probe reads. -/
structure http.Response where
  StatusCode : Int
  deriving DecidableEq, Repr

/-- A built `*http.Request`, by its method, its url and its header map. -/
structure http.Request where
  Method : String
  URL : String
  Header : GoMap (List String)
  deriving DecidableEq, Repr

/-- The library and the network as the probe meets them.  `NewRequest` is
`http.NewRequest(method, url, nil)`, `none` when it returns an error (an invalid
method, a url that does not parse), in which case the request it returns is
nil; `SetHeader` is `req.Header.Set`; `Do` is `client.Do` on a built request:
the response, nil or not, and the text of the error, if any; `TimestampNow` is
the clock reading of `ptypes.TimestampNow()`. -/
structure http.World where
  NewRequest : String → String → Option http.Request
  SetHeader : http.Request → String → String → http.Request
  Do : http.Request → Option http.Response × Option String
  TimestampNow : Option timestamppb.Timestamp

namespace job

/-- Source constant `httpPort`. -/
def httpPort : Int := 80

/-- Source constant `httpsPort`. -/
def httpsPort : Int := 443

/-- Source `jobHTTP`. -/
structure jobHTTP where
  methodType : String
  url : String
  headers : GoMap String
  statusCode : Int
  deriving DecidableEq, Repr

/-- Source `httpError`, the `CheckError` the probe returns. -/
structure httpError where
  time : Option timestamppb.Timestamp
  code : clientPb.StatusCode
  description : String
  location : String
  deriving DecidableEq, Repr

/-- Source `wrongStatusError`, by its text. -/
def wrongStatusError : String := "WRONG_STATUS_CODE"

/-- Source `httpError.GetLogData`; `id` is the fresh `uuid.New().String()`. -/
def httpError.GetLogData (e : httpError) (id : String) : clientPb.Log :=
  let port := if strings.HasPrefix e.location "https" then httpsPort else httpPort
  { Code := e.code
    Description := e.description
    Meta := some
      { Id := id
        Location := e.location
        Port := port
        Time := e.time
        «Type» := clientPb.«Type».Type_Http } }

/-- Source `NewHttpError`. -/
def NewHttpError (time : Option timestamppb.Timestamp) (code : clientPb.StatusCode)
    (description : String) (location : String) : httpError :=
  { time := time, code := code, description := description, location := location }

/-- The header loop of `Do`: `req.Header.Set(name, val)` for every header,
which dereferences `req`, so a nil request panics at the first header. -/
def jobHTTP.Do.setHeaders (w : http.World) :
    Option http.Request → List (String × String) → Go (Option http.Request)
  | req, [] => .ret req
  | none, _ :: _ => .fault
  | some req, (name, val) :: rest => jobHTTP.Do.setHeaders w (some (w.SetHeader req name val)) rest

/-- Source `jobHTTP.Do`.  The error of `http.NewRequest` is dropped and the
request used as it is; `client.Do` reads `req.URL` first, so a nil request
panics there when no header did before; `resp.StatusCode` is read whether or
not `resp` is nil. -/
def jobHTTP.Do (w : http.World) (j : jobHTTP) : Go httpError :=
  let req := w.NewRequest j.methodType j.url
  (jobHTTP.Do.setHeaders w req j.headers).bind fun req =>
    match req with
    | none => .fault
    | some req =>
      let (resp, err) := w.Do req
      match err with
      | some err =>
        .ret (NewHttpError w.TimestampNow clientPb.StatusCode.StatusCode_Error err j.url)
      | none =>
        match resp with
        | none => .fault
        | some resp =>
          if resp.StatusCode ≠ j.statusCode then
            .ret (NewHttpError w.TimestampNow clientPb.StatusCode.StatusCode_Error
              wrongStatusError j.url)
          else .ret (NewHttpError w.TimestampNow clientPb.StatusCode.StatusCode_OK "" j.url)

/-- Source `NewJob`. -/
def NewJob (method url : String) (headers : GoMap String) (status : Int) : jobHTTP :=
  { methodType := method, url := url, headers := headers, statusCode := status }

end job

/-- A world for closed examples: a request is refused when its method holds a
blank (as `net/http` refuses a method that is not a token), a header is stored
under its name as given, and every request sent is answered with status 200. -/
def http.exampleWorld : http.World where
  NewRequest := fun method url => if ' ' ∈ method.data then none else some ⟨method, url, []⟩
  SetHeader := fun req name val => { req with Header := req.Header.set name [val] }
  Do := fun _ => (some ⟨200⟩, none)
  TimestampNow := some ⟨1600000000, 0⟩

/-- Definition following the spec's words, for comparison with `GetLogData`: the
port written explicitly in a location, that is the decimal number between the
last `:` of the authority (the text between `://` and the next `/`) and its
end, when there is one. -/
def spec.explicitPort (location : String) : Option Nat :=
  let chars := location.data
  let afterScheme :=
    match (List.range chars.length).find? fun i => (chars.drop i).take 3 = "://".data with
    | some i => chars.drop (i + 3)
    | none => chars
  let authority := afterScheme.takeWhile fun c => c ≠ '/'
  let digits := (authority.reverse.takeWhile fun c => c ≠ ':').reverse
  if digits.length < authority.length ∧ digits ≠ [] ∧ digits.all Char.isDigit then
    some (digits.foldl (fun n c => 10 * n + (c.toNat - 48)) 0)
  else none

/-- Definition following the spec's words: the scheme of a location, the text
before `://`. -/
def spec.scheme (location : String) : String :=
  let chars := location.data
  match (List.range chars.length).find? fun i => (chars.drop i).take 3 = "://".data with
  | some i => String.mk (chars.take i)
  | none => ""

/-- Definition following the spec's words: the port of a target location, the
explicit one when there is one, else 443 for the secure scheme and 80
otherwise. -/
def spec.derivedPort (location : String) : Int :=
  match spec.explicitPort location with
  | some port => port
  | none => if spec.scheme location = "https" then 443 else 80

/-! ## Transaction queries (`internal/database/clickhouse/transaction_info.go`) -/

/-- Wire enum `SortTransactionList`: its four constants, and `other n` for a
value that is none of them. -/
inductive apiPb.SortTransactionList where
  | SORT_TRANSACTION_LIST_UNSPECIFIED
  | DURATION
  | BY_TRANSACTION_START_TIME
  | BY_TRANSACTION_END_TIME
  | other (n : Int)
  deriving DecidableEq, Repr

/-- Wire `SortingTransactionList`; the direction is kept as its number. -/
structure apiPb.SortingTransactionList where
  SortBy : apiPb.SortTransactionList
  Direction : Int
  deriving DecidableEq, Repr

/-- Generated getter: nil-safe, the zero constant for a nil request. -/
def apiPb.SortingTransactionList.GetSortBy (x : Option apiPb.SortingTransactionList) :
    apiPb.SortTransactionList :=
  match x with
  | none => .SORT_TRANSACTION_LIST_UNSPECIFIED
  | some x => x.SortBy

/-- Wire `wrappers.StringValue`. -/
structure wrappers.StringValue where
  Value : String
  deriving DecidableEq, Repr

/-- Generated getter: nil-safe. -/
def wrappers.StringValue.GetValue (x : Option wrappers.StringValue) : String :=
  match x with
  | none => ""
  | some x => x.Value

/-- Wire constant `TransactionType_TRANSACTION_TYPE_UNSPECIFIED`, the zero value
of the enum. -/
def apiPb.TransactionType_TRANSACTION_TYPE_UNSPECIFIED : Int := 0

/-- Wire constant `TransactionStatus_TRANSACTION_CODE_UNSPECIFIED`, the zero
value of the enum. -/
def apiPb.TransactionStatus_TRANSACTION_CODE_UNSPECIFIED : Int := 0

namespace clickhouse

/-- Source `TransactionInfo`; of the embedded `gorm.Model` only the key is
kept. -/
structure TransactionInfo where
  ID : Nat
  TransactionId : String
  ApplicationId : String
  ParentId : String
  MetaHost : String
  MetaPath : String
  MetaMethod : String
  Name : String
  StartTime : Int
  EndTime : Int
  TransactionStatus : Int
  TransactionType : Int
  Error : String
  deriving DecidableEq, Repr

/-- Source constant `transTransactionTypeStr`. -/
def transTransactionTypeStr : String := "transactionType"

/-- Source `transOrderMap`, as its lookup; `table` is the constant
`dbTransactionInfoCollection`, declared outside the files at hand. -/
def transOrderMap (table : String) : apiPb.SortTransactionList → Option String
  | .SORT_TRANSACTION_LIST_UNSPECIFIED => some ("\"" ++ table ++ "\".\"startTime\"")
  | .DURATION =>
    some ("\"" ++ table ++ "\".\"endTime\" - \"" ++ table ++ "\".\"startTime\"")
  | .BY_TRANSACTION_START_TIME => some ("\"" ++ table ++ "\".\"startTime\"")
  | .BY_TRANSACTION_END_TIME => some ("\"" ++ table ++ "\".\"endTime\"")
  | .other _ => none

/-- Source `getTransactionOrder`. -/
def getTransactionOrder (table : String) (request : Option apiPb.SortingTransactionList) :
    String :=
  match request with
  | none => "\"" ++ table ++ "\".\"startTime\""
  | some _ =>
    match transOrderMap table (apiPb.SortingTransactionList.GetSortBy request) with
    | some res => res
    | none => "\"" ++ table ++ "\".\"startTime\""

/-- Source `getTransactionsByString`. -/
def getTransactionsByString (table : String) (key : String)
    (value : Option wrappers.StringValue) : String :=
  match value with
  | none => ""
  | some _ =>
    "\"" ++ table ++ "\".\"" ++ key ++ "\" = '" ++ wrappers.StringValue.GetValue value ++ "'"

/-- Source `getTransactionTypeWhere`; `%d` prints the number of the enum value
in decimal. -/
def getTransactionTypeWhere (table : String) (transType : Int) : String :=
  if transType = apiPb.TransactionType_TRANSACTION_TYPE_UNSPECIFIED then ""
  else "\"" ++ table ++ "\".\"" ++ transTransactionTypeStr ++ "\" = '" ++ toString transType ++ "'"

/-- Source `getTransactionStatusWhere`. -/
def getTransactionStatusWhere (table : String) (transType : Int) : String :=
  if transType = apiPb.TransactionStatus_TRANSACTION_CODE_UNSPECIFIED then ""
  else "\"" ++ table ++ "\".\"transactionStatus\" = '" ++ toString transType ++ "'"

/-- The store as `GetTransactionChildren` meets it: `rows` is the finite table
of stored transactions, in the order the store returns them; `findFails` tells
for which parent id the query for its children ends in an error;
`errorDataBase` is the package error of that name. -/
structure Postgres where
  rows : List TransactionInfo
  findFails : String → Bool
  errorDataBase : GoError

/-- The loop of `GetTransactionChildren` over the children found: the subtree of
each child is appended to `res`; `recur` is the recursive call. -/
def Postgres.GetTransactionChildren.loop (p : Postgres)
    (recur : String → String → Option (List TransactionInfo × Option GoError))
    (passedString : String) :
    List TransactionInfo → List TransactionInfo → Option (List TransactionInfo × Option GoError)
  | [], res => some (res, none)
  | v :: rest, res =>
    match recur v.TransactionId (passedString ++ " " ++ v.ParentId) with
    | none => none
    | some (_, some _) => some ([], some p.errorDataBase)
    | some (subchildren, none) =>
      Postgres.GetTransactionChildren.loop p recur passedString rest (res ++ subchildren)

/-- Source `GetTransactionChildren`, which stands in the file as a commented-out
block; the definition follows that text.  The recursion is bounded by `fuel`:
`none` means that the fuel ran out, `some` is the pair the function returns. -/
def Postgres.GetTransactionChildren (p : Postgres) :
    Nat → String → String → Option (List TransactionInfo × Option GoError)
  | 0, _, _ => none
  | fuel + 1, transactionId, passedString =>
    if strings.Contains passedString transactionId then some ([], none)
    else if p.findFails transactionId then some ([], some p.errorDataBase)
    else
      let childrenTransactions := p.rows.filter fun row => row.ParentId = transactionId
      Postgres.GetTransactionChildren.loop p (Postgres.GetTransactionChildren p fuel) passedString
        childrenTransactions childrenTransactions

/-- A stored transaction with the given key, id and parent id and no other
content, for closed examples. -/
def exampleTransaction (key : Nat) (id parent : String) : TransactionInfo :=
  { ID := key, TransactionId := id, ApplicationId := "app", ParentId := parent
    MetaHost := "", MetaPath := "", MetaMethod := "", Name := "", StartTime := 0, EndTime := 0
    TransactionStatus := 0, TransactionType := 0, Error := "" }

/-- A store whose queries never fail, for closed examples. -/
def exampleStore (rows : List TransactionInfo) : Postgres :=
  { rows := rows, findFails := fun _ => false, errorDataBase := .errorsNew "ERROR_DATABASE" }

end clickhouse

/-- A history entry whose stored timestamp, when it is converted, is not 0, the
value `convertToIncident` takes for "no bound yet". -/
def clickhouse.NonEpochEntry (e : Option apiPb.Incident_HistoryItem) : Prop :=
  match clickhouse.convertToIncidentHistory e with
  | none => True
  | some h => h.Timestamp ≠ 0

instance (e : Option apiPb.Incident_HistoryItem) : Decidable (clickhouse.NonEpochEntry e) := by
  unfold clickhouse.NonEpochEntry
  split <;> exact inferInstance

/-- What the loop of `convertToIncidentHistories` keeps true while every
converted timestamp is different from 0: before the first entry both bounds are
0; afterwards each bound is the timestamp of an entry converted so far, all of
which lie between `maxTime` and `minTime`. -/
def clickhouse.BoundsInv (acc : clickhouse.HistoriesAcc) : Prop :=
  (acc.histories = [] ∧ acc.minTime = 0 ∧ acc.maxTime = 0) ∨
    ((∃ a, some a ∈ acc.histories ∧ acc.minTime = a.Timestamp) ∧
      (∃ b, some b ∈ acc.histories ∧ acc.maxTime = b.Timestamp) ∧
      ∀ h, some h ∈ acc.histories →
        acc.maxTime ≤ h.Timestamp ∧ h.Timestamp ≤ acc.minTime ∧ h.Timestamp ≠ 0)

/-- A chain of parent links in the store: the first transaction of the list is
a child of `id`, and each further one a child of the one before it. -/
def clickhouse.linked : String → List clickhouse.TransactionInfo → Prop
  | _, [] => True
  | id, v :: rest => v.ParentId = id ∧ clickhouse.linked v.TransactionId rest

/-- The rows of the store whose id does not yet occur in the path string: the
transactions that can still be expanded. -/
def clickhouse.Postgres.unvisited (p : clickhouse.Postgres) (passedString : String) :
    List clickhouse.TransactionInfo :=
  p.rows.filter fun row => !strings.Contains passedString row.TransactionId

/-- Modelled from the spec: the loop of the tree reconstruction over the children
found, which appends the subtree of each child to `res`; `recur` collects the
subtree of one child. -/
def spec.GetTransactionChildren.loop
    (recur : String → Option (List clickhouse.TransactionInfo)) :
    List clickhouse.TransactionInfo → List clickhouse.TransactionInfo →
      Option (List clickhouse.TransactionInfo)
  | [], res => some res
  | v :: rest, res =>
    match recur v.TransactionId with
    | none => none
    | some subchildren => spec.GetTransactionChildren.loop recur rest (res ++ subchildren)

/-- Modelled from the spec: the tree reconstruction `GetTransactionChildren` of the
storage layer, of which `transaction_info.go` holds no running code, only a
commented-out block.  The definition follows the spec: "recursively collect all
transactions whose parent id chains to it, within one application id, guarding
against cycles by tracking the set of ids already visited on the current descent
path; a transaction whose id already appears on that path is excluded from its
own subtree (cycle break, not an error)".  `rows` are the stored transactions of
the application, `path` the ids visited before `transactionId` on the current
descent, empty at the root.  The recursion is bounded by `fuel`: `none` means
that the fuel ran out, `some` is the list collected. -/
def spec.GetTransactionChildren (rows : List clickhouse.TransactionInfo) :
    Nat → String → List String → Option (List clickhouse.TransactionInfo)
  | 0, _, _ => none
  | fuel + 1, transactionId, path =>
    let visited := path ++ [transactionId]
    let childrenTransactions := rows.filter fun row =>
      row.ParentId = transactionId ∧ row.TransactionId ∉ visited
    spec.GetTransactionChildren.loop (fun id => spec.GetTransactionChildren rows fuel id visited)
      childrenTransactions childrenTransactions

/-- The stored transactions whose id is not among the visited ids: those that
can still be collected further down. -/
def spec.unvisited (rows : List clickhouse.TransactionInfo) (visited : List String) :
    List clickhouse.TransactionInfo :=
  rows.filter fun row => row.TransactionId ∉ visited

/-! # Theorems -/

/-! ## Lemmas on the run-time model -/

theorem wrap64_of_inInt64 {x : Int} (h : inInt64 x) : wrap64 x = x := by
  unfold inInt64 minInt64 maxInt64 at h
  unfold wrap64
  omega

theorem inInt64_wrap64 (x : Int) : inInt64 (wrap64 x) := by
  unfold inInt64 minInt64 maxInt64 wrap64
  omega

/-- For an `int64` count of nanoseconds `time.Unix(0, n)` is the floor
quotient and the non-negative remainder by `10^9`. -/
theorem time.Unix_zero {n : Int} (h : inInt64 n) :
    time.Unix 0 n = ⟨n / 10 ^ 9, n % 10 ^ 9⟩ := by
  unfold inInt64 minInt64 maxInt64 at h
  unfold time.Unix
  by_cases h0 : 0 ≤ n
  · have ht : Int.tdiv n (10 ^ 9) = n / 10 ^ 9 := Int.tdiv_eq_ediv h0 (by norm_num)
    simp only [ht, wrap64]
    norm_num
    split_ifs <;> simp <;> omega
  · have ht : Int.tdiv n (10 ^ 9) = -((-n) / 10 ^ 9) := by
      have hneg := Int.neg_tdiv (-n) (10 ^ 9)
      rw [neg_neg] at hneg
      rw [hneg, Int.tdiv_eq_ediv (by omega) (by norm_num)]
    simp only [ht, wrap64]
    norm_num
    split_ifs <;> simp <;> omega

theorem time.Unix_of_valid {ts : timestamppb.Timestamp} (h : ts.Valid) :
    time.Unix ts.Seconds ts.Nanos = ⟨ts.Seconds, ts.Nanos⟩ := by
  obtain ⟨_, _, h3, h4⟩ := h
  unfold time.Unix
  rw [if_neg (by omega)]

theorem ptypes.validateTimestamp_of_valid {ts : timestamppb.Timestamp} (h : ts.Valid) :
    ptypes.validateTimestamp (some ts) = none := by
  obtain ⟨h1, h2, h3, h4⟩ := h
  simp only [ptypes.validateTimestamp]
  rw [if_neg (by omega), if_neg (by omega), if_neg (by omega)]

theorem ptypes.validateTimestamp_eq_none_iff (ts : Option timestamppb.Timestamp) :
    ptypes.validateTimestamp ts = none ↔ ∃ v, ts = some v ∧ v.Valid := by
  constructor
  · intro h
    cases ts with
    | none => simp [ptypes.validateTimestamp] at h
    | some v =>
      refine ⟨v, rfl, ?_⟩
      simp only [ptypes.validateTimestamp] at h
      unfold timestamppb.Timestamp.Valid
      split_ifs at h
      omega
  · rintro ⟨v, rfl, hv⟩
    exact ptypes.validateTimestamp_of_valid hv

theorem ptypes.Timestamp_of_valid {ts : timestamppb.Timestamp} (h : ts.Valid) :
    ptypes.Timestamp (some ts) = (⟨ts.Seconds, ts.Nanos⟩, none) := by
  simp only [ptypes.Timestamp, time.Unix_of_valid h, ptypes.validateTimestamp_of_valid h]

theorem ptypes.TimestampProto_of_valid {ts : timestamppb.Timestamp} (h : ts.Valid) :
    ptypes.TimestampProto ⟨ts.Seconds, ts.Nanos⟩ = (some ts, none) := by
  simp only [ptypes.TimestampProto, ptypes.validateTimestamp_of_valid h]

/-- Wire timestamp to stored nanoseconds and back: the identity on a valid
timestamp whose nanosecond count fits an `int64`. -/
theorem timestamp_roundtrip {ts : timestamppb.Timestamp} (h : ts.Valid) (hr : inInt64 ts.nanos) :
    ptypes.TimestampProto (time.Unix 0 (ptypes.Timestamp (some ts)).1.UnixNano) = (some ts, none) := by
  rw [ptypes.Timestamp_of_valid h]
  have hn : (⟨ts.Seconds, ts.Nanos⟩ : time.Time).UnixNano = ts.nanos := by
    simp only [time.Time.UnixNano]
    exact wrap64_of_inInt64 hr
  rw [hn, time.Unix_zero hr]
  obtain ⟨_, _, h3, h4⟩ := h
  have h1 : ts.nanos / 10 ^ 9 = ts.Seconds := by
    unfold timestamppb.Timestamp.nanos; omega
  have h2 : ts.nanos % 10 ^ 9 = ts.Nanos := by
    unfold timestamppb.Timestamp.nanos; omega
  rw [h1, h2]
  exact ptypes.TimestampProto_of_valid ⟨by assumption, by assumption, h3, h4⟩

/-! ## Lemmas on the map model -/

theorem GoMap.get?_set {V : Type} (m : GoMap V) (k k1 : String) (v : V) :
    (m.set k v).get? k1 = if k = k1 then some v else m.get? k1 := by
  induction m with
  | nil => simp [GoMap.set, GoMap.get?]
  | cons e rest ih =>
    obtain ⟨k0, v0⟩ := e
    by_cases h0 : k0 = k
    · subst h0
      simp only [GoMap.set, if_true, GoMap.get?]
      by_cases h1 : k0 = k1 <;> simp [h1]
    · simp only [GoMap.set, if_neg h0, GoMap.get?, ih]
      by_cases h1 : k0 = k1
      · subst h1
        simp [Ne.symm h0]
      · simp [h1]

theorem GoMap.mem_keys_set {V : Type} (m : GoMap V) (k k1 : String) (v : V) :
    k1 ∈ (m.set k v).keys ↔ k1 = k ∨ k1 ∈ m.keys := by
  induction m with
  | nil => simp [GoMap.set, GoMap.keys]
  | cons e rest ih =>
    obtain ⟨k0, v0⟩ := e
    by_cases h0 : k0 = k
    · subst h0
      simp [GoMap.set, GoMap.keys]
    · simp only [GoMap.keys] at ih
      simp only [GoMap.set, if_neg h0, GoMap.keys, List.map_cons, List.mem_cons, ih]
      tauto

theorem GoMap.wellFormed_set {V : Type} (m : GoMap V) (k : String) (v : V)
    (h : m.WellFormed) : (m.set k v).WellFormed := by
  induction m with
  | nil => simp [GoMap.set, GoMap.WellFormed, GoMap.keys]
  | cons e rest ih =>
    obtain ⟨k0, v0⟩ := e
    have hn : k0 ∉ GoMap.keys rest ∧ GoMap.WellFormed rest := by
      simpa [GoMap.WellFormed, GoMap.keys] using h
    by_cases h0 : k0 = k
    · subst h0
      simpa [GoMap.set, GoMap.WellFormed, GoMap.keys] using h
    · have hk : k0 ∉ GoMap.keys (GoMap.set rest k v) := by
        rw [GoMap.mem_keys_set]
        rintro (h1 | h1)
        · exact h0 h1
        · exact hn.1 h1
      have ih1 := ih hn.2
      simp only [GoMap.set, if_neg h0]
      simp only [GoMap.WellFormed, GoMap.keys, List.map_cons, List.nodup_cons]
      exact ⟨hk, ih1⟩

theorem GoMap.get?_eq_none_of_not_mem {V : Type} (m : GoMap V) (k : String)
    (h : k ∉ m.keys) : m.get? k = none := by
  induction m with
  | nil => rfl
  | cons e rest ih =>
    obtain ⟨k0, v0⟩ := e
    have h1 : ¬ k = k0 ∧ k ∉ GoMap.keys rest := by simpa [GoMap.keys] using h
    simp only [GoMap.get?, if_neg (Ne.symm h1.1)]
    exact ih h1.2

theorem GoMap.set_ne_nil {V : Type} (m : GoMap V) (k : String) (v : V) : m.set k v ≠ [] := by
  cases m with
  | nil => simp [GoMap.set]
  | cons e rest =>
    obtain ⟨k0, v0⟩ := e
    simp only [GoMap.set]
    split_ifs <;> simp

/-- Storing the entries of a well-formed map one by one, each value passed
through `g`, into a map `acc`: the shape of the loops of `convertFromDiskInfo`
and `convertFromNetInfo` run on the output of `convertToDiskInfo` and
`convertToNetInfo`. -/
theorem GoMap.foldl_set {A B : Type} (g : A → B) (entries : GoMap A) :
    ∀ acc : GoMap B, entries.WellFormed →
      (∀ k, ((entries.foldl (fun m e => m.set e.1 (g e.2)) acc).get? k =
          if k ∈ entries.keys then (entries.get? k).map g else acc.get? k) ∧
        (k ∈ (entries.foldl (fun m e => m.set e.1 (g e.2)) acc).keys ↔
          k ∈ entries.keys ∨ k ∈ acc.keys)) ∧
      (acc.WellFormed → (entries.foldl (fun m e => m.set e.1 (g e.2)) acc).WellFormed) ∧
      (entries ≠ [] ∨ acc ≠ [] → entries.foldl (fun m e => m.set e.1 (g e.2)) acc ≠ []) := by
  induction entries with
  | nil =>
    intro acc _
    simp [GoMap.keys]
  | cons e rest ih =>
    intro acc hwf
    obtain ⟨k0, v0⟩ := e
    have hn : k0 ∉ GoMap.keys rest ∧ GoMap.WellFormed rest := by
      simpa [GoMap.WellFormed, GoMap.keys] using hwf
    obtain ⟨ih1, ih2, ih3⟩ := ih (acc.set k0 (g v0)) hn.2
    simp only [List.foldl_cons]
    refine ⟨fun k => ⟨?_, ?_⟩, fun hacc => ih2 (GoMap.wellFormed_set _ _ _ hacc),
      fun _ => ih3 (Or.inr (GoMap.set_ne_nil _ _ _))⟩
    · rw [(ih1 k).1, GoMap.get?_set]
      by_cases hk : k ∈ GoMap.keys rest
      · have hne : k0 ≠ k := fun hc => hn.1 (hc ▸ hk)
        have hmem : k ∈ GoMap.keys ((k0, v0) :: rest) := by
          simp [GoMap.keys] at hk ⊢
          exact Or.inr hk
        rw [if_pos hk, if_pos hmem]
        simp [GoMap.get?, hne]
      · rw [if_neg hk]
        by_cases hk0 : k0 = k
        · subst hk0
          simp [GoMap.keys, GoMap.get?]
        · have hmem : k ∉ GoMap.keys ((k0, v0) :: rest) := by
            simp only [GoMap.keys, List.map_cons, List.mem_cons, not_or]
            exact ⟨fun hc => hk0 hc.symm, hk⟩
          rw [if_neg hk0, if_neg hmem]
    · rw [(ih1 k).2, GoMap.mem_keys_set]
      simp only [GoMap.keys, List.map_cons, List.mem_cons]
      tauto

theorem GoMap.get?_isSome_of_mem {V : Type} (m : GoMap V) (k : String) (h : k ∈ m.keys) :
    ∃ v, m.get? k = some v := by
  induction m with
  | nil => simp [GoMap.keys] at h
  | cons e rest ih =>
    obtain ⟨k0, v0⟩ := e
    by_cases h0 : k0 = k
    · exact ⟨v0, by simp [GoMap.get?, h0]⟩
    · have h1 : k ∈ GoMap.keys rest := by
        simp only [GoMap.keys, List.map_cons, List.mem_cons] at h
        rcases h with h | h
        · exact absurd h.symm h0
        · exact h
      obtain ⟨v, hv⟩ := ih h1
      exact ⟨v, by simp [GoMap.get?, h0, hv]⟩

theorem List.foldl_append_singleton {A B : Type} (f : A → B) (l : List A) :
    ∀ acc : List B, l.foldl (fun res v => res ++ [f v]) acc = acc ++ l.map f := by
  induction l with
  | nil => intro acc; simp
  | cons a rest ih => intro acc; simp [ih]

namespace clickhouse

theorem convertToIncidentHistory_of_valid {h : apiPb.Incident_HistoryItem}
    {ts : timestamppb.Timestamp} (hts : h.Timestamp = some ts) (hv : ts.Valid) :
    convertToIncidentHistory (some h) =
      some ⟨h.Status, (⟨ts.Seconds, ts.Nanos⟩ : time.Time).UnixNano⟩ := by
  simp only [convertToIncidentHistory, apiPb.Incident_HistoryItem.GetTimestamp, hts,
    ptypes.Timestamp_of_valid hv, apiPb.Incident_HistoryItem.GetStatus]

theorem convertToIncidentHistories_foldl (data : List (Option apiPb.Incident_HistoryItem)) :
    ∀ acc : HistoriesAcc,
      (data.foldl convertToIncidentHistories.step acc).histories =
        acc.histories ++ (data.filterMap convertToIncidentHistory).map some := by
  induction data with
  | nil => intro acc; simp
  | cons v rest ih =>
    intro acc
    rw [List.foldl_cons, ih]
    cases hc : convertToIncidentHistory v with
    | none => simp [convertToIncidentHistories.step, hc, List.filterMap_cons]
    | some history => simp [convertToIncidentHistories.step, hc, List.filterMap_cons]

theorem convertToIncidentHistories_fst (data : List (Option apiPb.Incident_HistoryItem)) :
    (convertToIncidentHistories data).1 = (data.filterMap convertToIncidentHistory).map some := by
  simp [convertToIncidentHistories, convertToIncidentHistories_foldl]

theorem convertFromIncidentHistories_foldl (data : List (Option IncidentHistory)) :
    ∀ acc : List (Option apiPb.Incident_HistoryItem),
      data.foldl
        (fun histories v =>
          match convertFromIncidentHistory v with
          | none => histories
          | some history => histories ++ [some history]) acc =
        acc ++ (data.filterMap convertFromIncidentHistory).map some := by
  induction data with
  | nil => intro acc; simp
  | cons v rest ih =>
    intro acc
    rw [List.foldl_cons, ih]
    cases hc : convertFromIncidentHistory v with
    | none => simp [hc, List.filterMap_cons]
    | some history => simp [hc, List.filterMap_cons]

theorem convertFromIncidentHistories_eq (data : List (Option IncidentHistory)) :
    convertFromIncidentHistories data = (data.filterMap convertFromIncidentHistory).map some := by
  simp [convertFromIncidentHistories, convertFromIncidentHistories_foldl]

theorem history_roundtrip {e : Option apiPb.Incident_HistoryItem} (hv : ValidEntry e)
    (hr : Int64Entry e) :
    ∃ r h, e = some h ∧ convertToIncidentHistory e = some r ∧
      convertFromIncidentHistory (some r) = some h := by
  cases e with
  | none => exact absurd hv (by simp [ValidEntry])
  | some h =>
    obtain ⟨status, tsOpt⟩ := h
    cases tsOpt with
    | none => exact absurd hv (by simp [ValidEntry])
    | some ts =>
      have hv1 : ts.Valid := by simpa [ValidEntry] using hv
      have hr1 : inInt64 ts.nanos := by simpa [Int64Entry] using hr
      refine ⟨_, _, rfl, convertToIncidentHistory_of_valid rfl hv1, ?_⟩
      have hrt := timestamp_roundtrip hv1 hr1
      rw [ptypes.Timestamp_of_valid hv1] at hrt
      simp only [convertFromIncidentHistory, hrt]

theorem histories_roundtrip (data : List (Option apiPb.Incident_HistoryItem))
    (hv : ∀ e ∈ data, ValidEntry e) (hr : ∀ e ∈ data, Int64Entry e) :
    convertFromIncidentHistories (convertToIncidentHistories data).1 = data := by
  rw [convertToIncidentHistories_fst, convertFromIncidentHistories_eq]
  induction data with
  | nil => simp
  | cons e rest ih =>
    obtain ⟨r, h, he, h1, h2⟩ := history_roundtrip (hv e (List.mem_cons_self _ _))
      (hr e (List.mem_cons_self _ _))
    have ih1 := ih (fun x hx => hv x (List.mem_cons_of_mem _ hx))
      (fun x hx => hr x (List.mem_cons_of_mem _ hx))
    simp only [List.filterMap_cons, h1, List.map_cons, h2]
    rw [ih1, he]

/-- C1, evaluated on the code: for the history with the valid timestamps 1 ns and
2 ns (in this order) `convertToIncident` stores the largest one, 2, as
`StartTime` and the smallest one, 1, as `EndTime`: the two comparisons of
`convertToIncidentHistories` are the wrong way round. -/
theorem C1_start_largest_end_smallest :
    (∀ e ∈ [some (⟨1, some ⟨0, 1⟩⟩ : apiPb.Incident_HistoryItem), some ⟨1, some ⟨0, 2⟩⟩],
        ValidEntry e) ∧
      convertToIncident (some ⟨"i", 1, "r", [some ⟨1, some ⟨0, 1⟩⟩, some ⟨1, some ⟨0, 2⟩⟩]⟩) ⟨100, 0⟩ =
        some ⟨"i", 1, "r", 2, 1, [some ⟨1, 1⟩, some ⟨1, 2⟩]⟩ := by
  decide

/-- C2, evaluated on the code: an incident opened at 3 ns and closed at 7 ns is
stored with `StartTime = 7` and `EndTime = 3`, so `EndTime >= StartTime` fails. -/
theorem C2_end_before_start :
    ∃ r, convertToIncident (some ⟨"i", 2, "r", [some ⟨1, some ⟨0, 3⟩⟩, some ⟨2, some ⟨0, 7⟩⟩]⟩)
        ⟨100, 0⟩ = some r ∧ r.StartTime = 7 ∧ r.EndTime = 3 ∧ ¬ (r.EndTime ≥ r.StartTime) := by
  refine ⟨_, rfl, ?_⟩
  decide

/-- C3: for a present incident with an empty history and every conversion instant
`t`, `convertToIncident` returns a record whose `StartTime` and `EndTime` are
both `t.UnixNano()`, the clock reading, and not the zero left by the empty
loop. -/
theorem C3_empty_history_takes_clock (x : apiPb.Incident) (t : time.Time)
    (h : x.Histories = []) :
    ∃ r, convertToIncident (some x) t = some r ∧
      r.StartTime = t.UnixNano ∧ r.EndTime = t.UnixNano ∧ r.Histories = [] := by
  refine ⟨_, rfl, ?_⟩
  simp [apiPb.Incident.GetHistories, h, convertToIncidentHistories]

/-- C3 at a concrete incident with an empty history, converted at 1600000000 s + 5 ns. -/
theorem C3_empty_history_takes_clock_witness :
    ∃ r, convertToIncident (some ⟨"i", 1, "r", []⟩) ⟨1600000000, 5⟩ = some r ∧
      r.StartTime = (⟨1600000000, 5⟩ : time.Time).UnixNano ∧
      r.EndTime = (⟨1600000000, 5⟩ : time.Time).UnixNano ∧ r.Histories = [] :=
  C3_empty_history_takes_clock ⟨"i", 1, "r", []⟩ ⟨1600000000, 5⟩ rfl

/-- C4 as stated fails: a history entry in the year 3000 is present and has a
valid timestamp, yet comes back with another timestamp, because its nanosecond
count does not fit the stored `int64`. -/
theorem C4_counterexample :
    (∀ e ∈ [some (⟨1, some ⟨32503680000, 0⟩⟩ : apiPb.Incident_HistoryItem)], ValidEntry e) ∧
      ∃ y, convertFromIncident
          (convertToIncident (some ⟨"i", 1, "r", [some ⟨1, some ⟨32503680000, 0⟩⟩]⟩) ⟨100, 0⟩) =
            .ret y ∧
        y.Histories ≠ [some ⟨1, some ⟨32503680000, 0⟩⟩] := by
  refine ⟨by decide, _, rfl, by decide⟩

/-- C4, amended: for every present incident message `x` whose history entries are
all present with valid timestamps that count a number of nanoseconds fitting an
`int64`, and every instant `t`, `convertFromIncident (convertToIncident x t)`
returns a message equal to `x` on id, status, rule id and the ordered history. -/
theorem C4_incident_roundtrip (x : apiPb.Incident) (t : time.Time)
    (hv : ∀ e ∈ x.Histories, ValidEntry e) (hr : ∀ e ∈ x.Histories, Int64Entry e) :
    ∃ y, convertFromIncident (convertToIncident (some x) t) = .ret y ∧
      y.Id = x.Id ∧ y.Status = x.Status ∧ y.RuleId = x.RuleId ∧ y.Histories = x.Histories := by
  refine ⟨_, rfl, rfl, rfl, rfl, ?_⟩
  exact histories_roundtrip x.Histories hv hr

/-- C4 as amended, at an incident with two history entries, one of them before the epoch. -/
theorem C4_incident_roundtrip_witness :
    ∃ y, convertFromIncident
        (convertToIncident
          (some ⟨"i", 1, "r", [some ⟨1, some ⟨1600000000, 5⟩⟩, some ⟨2, some ⟨-3, 7⟩⟩]⟩) ⟨100, 0⟩) =
          .ret y ∧
      y.Id = "i" ∧ y.Status = 1 ∧ y.RuleId = "r" ∧
        y.Histories = [some ⟨1, some ⟨1600000000, 5⟩⟩, some ⟨2, some ⟨-3, 7⟩⟩] :=
  C4_incident_roundtrip ⟨"i", 1, "r", [some ⟨1, some ⟨1600000000, 5⟩⟩, some ⟨2, some ⟨-3, 7⟩⟩]⟩
    ⟨100, 0⟩ (by decide) (by decide)

end clickhouse

namespace clickhouse

/-- C5 as stated fails twice: a present error with the empty message comes back
absent, and a valid start time in the year 3000 comes back as another time,
because its nanosecond count does not fit the stored `int64`. -/
theorem C5_counterexample :
    (∃ y, convertFromSnapshot jsonpb.rawCodec
          (convertToSnapshot jsonpb.rawCodec
            (some ⟨1, 2, some ⟨""⟩, some ⟨some ⟨10, 0⟩, some ⟨20, 0⟩, none⟩⟩) "s").1 =
            .ret (some y, none) ∧
        y.Error = none ∧ y.Error ≠ some ⟨""⟩) ∧
      (timestamppb.Timestamp.Valid ⟨32503680000, 0⟩ ∧
        ∃ y, convertFromSnapshot jsonpb.rawCodec
            (convertToSnapshot jsonpb.rawCodec
              (some ⟨1, 2, none, some ⟨some ⟨32503680000, 0⟩, some ⟨32503680000, 0⟩, none⟩⟩) "s").1 =
              .ret (some y, none) ∧
          apiPb.SchedulerSnapshot_MetaData.GetStartTime y.Meta ≠ some ⟨32503680000, 0⟩) := by
  refine ⟨⟨_, rfl, by decide, by decide⟩, by decide, _, rfl, by decide⟩

theorem convertToSnapshot_of_valid {V : Type} (codec : jsonpb.Codec V)
    (x : apiPb.SchedulerSnapshot V) (id : String) (m : apiPb.SchedulerSnapshot_MetaData V)
    (s e : timestamppb.Timestamp) (hm : x.Meta = some m) (hs : m.StartTime = some s)
    (he : m.EndTime = some e) (hsv : s.Valid) (hev : e.Valid) :
    convertToSnapshot codec (some x) id =
      (some
        { SchedulerID := id
          Code := x.Code
          «Type» := x.«Type»
          MetaStartTime := wrap64 s.nanos
          MetaEndTime := wrap64 e.nanos
          Error := apiPb.SchedulerSnapshot_Error.GetMessage x.Error
          MetaValue := (codec.Marshal m.Value).getD [] }, none) := by
  simp only [convertToSnapshot, apiPb.SchedulerSnapshot.GetMeta, hm,
    apiPb.SchedulerSnapshot_MetaData.GetStartTime, hs, ptypes.Timestamp_of_valid hsv,
    apiPb.SchedulerSnapshot_MetaData.GetEndTime, he, ptypes.Timestamp_of_valid hev,
    apiPb.SchedulerSnapshot.GetCode, apiPb.SchedulerSnapshot.GetType,
    apiPb.SchedulerSnapshot.GetError, apiPb.SchedulerSnapshot_MetaData.GetValue,
    time.Time.UnixNano, timestamppb.Timestamp.nanos]
  cases hE : x.Error <;> cases hM : codec.Marshal m.Value <;>
    simp [apiPb.SchedulerSnapshot_Error.GetMessage]

theorem timestampProto_of_nanos {ts : timestamppb.Timestamp} (h : ts.Valid)
    (hr : inInt64 ts.nanos) :
    ptypes.TimestampProto (time.Unix 0 (wrap64 ts.nanos)) = (some ts, none) := by
  have hrt := timestamp_roundtrip h hr
  rw [ptypes.Timestamp_of_valid h] at hrt
  simpa [time.Time.UnixNano, timestamppb.Timestamp.nanos] using hrt

/-- C5, amended: for every snapshot message `x` with present meta and valid start
and end timestamps whose nanosecond counts fit an `int64`, and every scheduler
id, `convertFromSnapshot (convertToSnapshot x id)` succeeds and equals `x` on
code, type, meta start time and meta end time; an absent error stays absent, a
present error with a non-empty message stays present with the same message, and
a present error with the empty message comes back absent. -/
theorem C5_snapshot_roundtrip {V : Type} (codec : jsonpb.Codec V)
    (x : apiPb.SchedulerSnapshot V) (id : String) (m : apiPb.SchedulerSnapshot_MetaData V)
    (s e : timestamppb.Timestamp) (hm : x.Meta = some m) (hs : m.StartTime = some s)
    (he : m.EndTime = some e) (hsv : s.Valid) (hev : e.Valid)
    (hsr : inInt64 s.nanos) (her : inInt64 e.nanos) :
    ∃ r y my, convertToSnapshot codec (some x) id = (some r, none) ∧
      convertFromSnapshot codec (convertToSnapshot codec (some x) id).1 = .ret (some y, none) ∧
      y.Code = x.Code ∧ y.«Type» = x.«Type» ∧
      y.Meta = some my ∧ my.StartTime = m.StartTime ∧ my.EndTime = m.EndTime ∧
      (x.Error = none → y.Error = none) ∧
      (∀ err, x.Error = some err → err.Message ≠ "" → y.Error = some err) ∧
      (∀ err, x.Error = some err → err.Message = "" → y.Error = none) := by
  rw [convertToSnapshot_of_valid codec x id m s e hm hs he hsv hev]
  simp only [convertFromSnapshot, timestampProto_of_nanos hsv hsr, timestampProto_of_nanos hev her]
  cases hU : codec.Unmarshal ((codec.Marshal m.Value).getD []) <;>
    cases hE : x.Error with
    | none => simp [apiPb.SchedulerSnapshot_Error.GetMessage, hs, he]
    | some err =>
      by_cases hmsg : err.Message = ""
      · simp [apiPb.SchedulerSnapshot_Error.GetMessage, hs, he, hmsg]
      · obtain ⟨msg⟩ := err
        simp [apiPb.SchedulerSnapshot_Error.GetMessage, hs, he, hmsg]

/-- C5 as amended, at a snapshot with an error message and an encodable meta value. -/
theorem C5_snapshot_roundtrip_witness :
    ∃ r y my,
      convertToSnapshot jsonpb.rawCodec
          (some ⟨1, 2, some ⟨"timeout"⟩, some ⟨some ⟨10, 5⟩, some ⟨20, 7⟩, some [1, 2]⟩⟩) "s" =
        (some r, none) ∧
      convertFromSnapshot jsonpb.rawCodec
          (convertToSnapshot jsonpb.rawCodec
            (some ⟨1, 2, some ⟨"timeout"⟩, some ⟨some ⟨10, 5⟩, some ⟨20, 7⟩, some [1, 2]⟩⟩) "s").1 =
        .ret (some y, none) ∧
      y.Code = 1 ∧ y.«Type» = 2 ∧
      y.Meta = some my ∧ my.StartTime = some ⟨10, 5⟩ ∧ my.EndTime = some ⟨20, 7⟩ ∧
      ((some ⟨"timeout"⟩ : Option apiPb.SchedulerSnapshot_Error) = none → y.Error = none) ∧
      (∀ err : apiPb.SchedulerSnapshot_Error,
        some ⟨"timeout"⟩ = some err → err.Message ≠ "" → y.Error = some err) ∧
      (∀ err : apiPb.SchedulerSnapshot_Error,
        some ⟨"timeout"⟩ = some err → err.Message = "" → y.Error = none) :=
  C5_snapshot_roundtrip jsonpb.rawCodec
    ⟨1, 2, some ⟨"timeout"⟩, some ⟨some ⟨10, 5⟩, some ⟨20, 7⟩, some [1, 2]⟩⟩ "s"
    ⟨some ⟨10, 5⟩, some ⟨20, 7⟩, some [1, 2]⟩ ⟨10, 5⟩ ⟨20, 7⟩ rfl rfl rfl
    (by decide) (by decide) (by decide) (by decide)

theorem convertToSnapshot_of_malformed {V : Type} (codec : jsonpb.Codec V)
    (x : apiPb.SchedulerSnapshot V) (id : String) (m : apiPb.SchedulerSnapshot_MetaData V)
    (hm : x.Meta = some m)
    (h : timestamppb.Malformed m.StartTime ∨ timestamppb.Malformed m.EndTime) :
    ∃ why, convertToSnapshot codec (some x) id = (none, some (.timestamp why)) := by
  have key : ∀ ts : Option timestamppb.Timestamp,
      (∃ why, ptypes.validateTimestamp ts = some (.timestamp why)) ∨
        ptypes.validateTimestamp ts = none := by
    intro ts
    cases ts with
    | none => exact Or.inl ⟨_, rfl⟩
    | some v =>
      simp only [ptypes.validateTimestamp]
      split_ifs
      · exact Or.inl ⟨_, rfl⟩
      · exact Or.inl ⟨_, rfl⟩
      · exact Or.inl ⟨_, rfl⟩
      · exact Or.inr rfl
  have bad : ∀ ts : Option timestamppb.Timestamp, timestamppb.Malformed ts →
      ptypes.validateTimestamp ts ≠ none := by
    intro ts hts hnone
    obtain ⟨v, rfl, hv⟩ := (ptypes.validateTimestamp_eq_none_iff ts).1 hnone
    exact hts hv
  simp only [convertToSnapshot, apiPb.SchedulerSnapshot.GetMeta, hm,
    apiPb.SchedulerSnapshot_MetaData.GetStartTime, apiPb.SchedulerSnapshot_MetaData.GetEndTime,
    ptypes.Timestamp]
  rcases key m.StartTime with ⟨why, hw⟩ | hok
  · exact ⟨why, by simp [hw]⟩
  · have hE : timestamppb.Malformed m.EndTime := by
      rcases h with h | h
      · exact absurd hok (bad _ h)
      · exact h
    rcases key m.EndTime with ⟨why, hw⟩ | hok2
    · exact ⟨why, by simp [hok, hw]⟩
    · exact absurd hok2 (bad _ hE)

/-- C8: `convertToSnapshot` on an absent snapshot returns no record and the error
`ERROR_SNAPSHOT_IS_EMPTY`; on a present snapshot with absent meta it returns no
record and the error `EMPTY_META_DATA`; the first error is returned only for an
absent snapshot and the second only for a present snapshot with absent meta, so
neither stands for a malformed timestamp. -/
theorem C8_empty_input_errors {V : Type} (codec : jsonpb.Codec V) (id : String) :
    convertToSnapshot codec none id = (none, some (.errorsNew "ERROR_SNAPSHOT_IS_EMPTY")) ∧
      (∀ code type err, convertToSnapshot codec (some ⟨code, type, err, none⟩) id =
        (none, some (.errorsNew "EMPTY_META_DATA"))) ∧
      (∀ request, (convertToSnapshot codec request id).2 =
          some (.errorsNew "ERROR_SNAPSHOT_IS_EMPTY") ↔ request = none) ∧
      (∀ request, (convertToSnapshot codec request id).2 = some (.errorsNew "EMPTY_META_DATA") ↔
          ∃ x, request = some x ∧ x.Meta = none) := by
  have other : ∀ (x : apiPb.SchedulerSnapshot V) (m : apiPb.SchedulerSnapshot_MetaData V),
      x.Meta = some m →
        ∀ text, (convertToSnapshot codec (some x) id).2 ≠ some (.errorsNew text) := by
    intro x m hm text
    by_cases hbad : timestamppb.Malformed m.StartTime ∨ timestamppb.Malformed m.EndTime
    · obtain ⟨why, hw⟩ := convertToSnapshot_of_malformed codec x id m hm hbad
      rw [hw]
      simp
    · have hs : ¬ timestamppb.Malformed m.StartTime := fun h => hbad (Or.inl h)
      have he : ¬ timestamppb.Malformed m.EndTime := fun h => hbad (Or.inr h)
      cases hS : m.StartTime with
      | none => exact absurd (by simp [timestamppb.Malformed, hS]) hs
      | some s =>
        cases hE : m.EndTime with
        | none => exact absurd (by simp [timestamppb.Malformed, hE]) he
        | some e =>
          have hsv : s.Valid := by simpa [timestamppb.Malformed, hS] using hs
          have hev : e.Valid := by simpa [timestamppb.Malformed, hE] using he
          rw [convertToSnapshot_of_valid codec x id m s e hm hS hE hsv hev]
          simp
  refine ⟨rfl, fun _ _ _ => rfl, ?_, ?_⟩
  · intro request
    constructor
    · intro h
      cases request with
      | none => rfl
      | some x =>
        cases hm : x.Meta with
        | none =>
          simp [convertToSnapshot, apiPb.SchedulerSnapshot.GetMeta, hm] at h
        | some m => exact absurd h (other x m hm _)
    · rintro rfl
      rfl
  · intro request
    constructor
    · intro h
      cases request with
      | none => simp [convertToSnapshot] at h
      | some x =>
        cases hm : x.Meta with
        | none => exact ⟨x, rfl, hm⟩
        | some m => exact absurd h (other x m hm _)
    · rintro ⟨x, rfl, hm⟩
      simp [convertToSnapshot, apiPb.SchedulerSnapshot.GetMeta, hm]

/-- C9: for every snapshot with present meta whose start time or end time is
malformed (absent included), `convertToSnapshot` returns an error and no
snapshot; for every stat message whose time is malformed (an absent message
included), `ConvertToClickhouseStatRequest` returns an error and no record.  The
error is the one of the timestamp check. -/
theorem C9_malformed_timestamp_fails :
    (∀ (V : Type) (codec : jsonpb.Codec V) (x : apiPb.SchedulerSnapshot V) (id : String)
        (m : apiPb.SchedulerSnapshot_MetaData V), x.Meta = some m →
        timestamppb.Malformed m.StartTime ∨ timestamppb.Malformed m.EndTime →
        ∃ why, convertToSnapshot codec (some x) id = (none, some (.timestamp why))) ∧
      (∀ request : Option apiPb.Metric, timestamppb.Malformed (apiPb.Metric.GetTime request) →
        ∃ why, ConvertToClickhouseStatRequest request = (none, some (.timestamp why))) := by
  refine ⟨fun V codec x id m hm h => convertToSnapshot_of_malformed codec x id m hm h, ?_⟩
  intro request h
  simp only [ConvertToClickhouseStatRequest, ptypes.Timestamp]
  cases hT : apiPb.Metric.GetTime request with
  | none => exact ⟨_, rfl⟩
  | some v =>
    rw [hT] at h
    have hv : ¬ v.Valid := h
    simp only [ptypes.validateTimestamp]
    unfold timestamppb.Timestamp.Valid at hv
    split_ifs
    · exact ⟨_, rfl⟩
    · exact ⟨_, rfl⟩
    · exact ⟨_, rfl⟩
    · omega

/-- C9 at a snapshot whose start time has negative nanos and at a stat message timed in the year 10000. -/
theorem C9_malformed_timestamp_fails_witness :
    (∃ why, convertToSnapshot jsonpb.rawCodec
        (some ⟨1, 2, none, some ⟨some ⟨10, -1⟩, none, some [1]⟩⟩) "s" =
          (none, some (.timestamp why))) ∧
      (∃ why, ConvertToClickhouseStatRequest
        (some ⟨"a", "n", none, none, none, none, some ⟨253402300800, 0⟩⟩) =
          (none, some (.timestamp why))) :=
  ⟨C9_malformed_timestamp_fails.1 _ jsonpb.rawCodec
      ⟨1, 2, none, some ⟨some ⟨10, -1⟩, none, some [1]⟩⟩ "s" ⟨some ⟨10, -1⟩, none, some [1]⟩ rfl
      (by decide),
    C9_malformed_timestamp_fails.2 (some ⟨"a", "n", none, none, none, none, some ⟨253402300800, 0⟩⟩)
      (by decide)⟩

/-- C10: for every snapshot with present meta and valid timestamps,
`convertToSnapshot` returns a snapshot and no error for every codec, so whether
or not the meta value can be encoded; scheduler id, code, type, start time, end
time and error message do not depend on the codec, and `MetaValue` is the
encoding when there is one and empty when encoding fails.  Symmetrically
`convertFromSnapshot` returns a message and no error for every stored snapshot,
its meta value being the decoded blob, absent when the blob cannot be decoded. -/
theorem C10_meta_value_degrades {V : Type} (x : apiPb.SchedulerSnapshot V) (id : String)
    (m : apiPb.SchedulerSnapshot_MetaData V) (s e : timestamppb.Timestamp)
    (hm : x.Meta = some m) (hs : m.StartTime = some s) (he : m.EndTime = some e)
    (hsv : s.Valid) (hev : e.Valid) :
    (∀ codec : jsonpb.Codec V, ∃ r, convertToSnapshot codec (some x) id = (some r, none) ∧
        r.SchedulerID = id ∧ r.Code = x.Code ∧ r.«Type» = x.«Type» ∧
        r.MetaStartTime = wrap64 s.nanos ∧ r.MetaEndTime = wrap64 e.nanos ∧
        r.Error = apiPb.SchedulerSnapshot_Error.GetMessage x.Error ∧
        (codec.Marshal m.Value = none → r.MetaValue = []) ∧
        (∀ b, codec.Marshal m.Value = some b → r.MetaValue = b)) ∧
      (∀ (codec : jsonpb.Codec V) (stored : Snapshot), ∃ y my,
        convertFromSnapshot codec (some stored) = .ret (some y, none) ∧
          y.Meta = some my ∧ my.Value = codec.Unmarshal stored.MetaValue) := by
  constructor
  · intro codec
    refine ⟨_, convertToSnapshot_of_valid codec x id m s e hm hs he hsv hev, rfl, rfl, rfl, rfl,
      rfl, rfl, ?_, ?_⟩
    · intro h; simp [h]
    · intro b h; simp [h]
  · intro codec stored
    simp only [convertFromSnapshot]
    cases hU : codec.Unmarshal stored.MetaValue with
    | none => exact ⟨_, _, rfl, by split_ifs <;> rfl, rfl⟩
    | some str => exact ⟨_, _, rfl, rfl, rfl⟩

/-- C10 at a snapshot whose meta value is nil. -/
theorem C10_meta_value_degrades_witness :
    (∀ codec : jsonpb.Codec (List UInt8), ∃ r,
        convertToSnapshot codec
            (some ⟨1, 2, some ⟨"timeout"⟩, some ⟨some ⟨10, 5⟩, some ⟨20, 7⟩, none⟩⟩) "s" =
          (some r, none) ∧
        r.SchedulerID = "s" ∧ r.Code = 1 ∧ r.«Type» = 2 ∧
        r.MetaStartTime = wrap64 (timestamppb.Timestamp.nanos ⟨10, 5⟩) ∧
        r.MetaEndTime = wrap64 (timestamppb.Timestamp.nanos ⟨20, 7⟩) ∧
        r.Error = apiPb.SchedulerSnapshot_Error.GetMessage (some ⟨"timeout"⟩) ∧
        (codec.Marshal none = none → r.MetaValue = []) ∧
        (∀ b, codec.Marshal none = some b → r.MetaValue = b)) ∧
      (∀ (codec : jsonpb.Codec (List UInt8)) (stored : Snapshot), ∃ y my,
        convertFromSnapshot codec (some stored) = .ret (some y, none) ∧
          y.Meta = some my ∧ my.Value = codec.Unmarshal stored.MetaValue) :=
  C10_meta_value_degrades ⟨1, 2, some ⟨"timeout"⟩, some ⟨some ⟨10, 5⟩, some ⟨20, 7⟩, none⟩⟩ "s"
    ⟨some ⟨10, 5⟩, some ⟨20, 7⟩, none⟩ ⟨10, 5⟩ ⟨20, 7⟩ rfl rfl rfl (by decide) (by decide)

end clickhouse

namespace clickhouse

theorem convertToCPUInfo_some (c : apiPb.CpuInfo) :
    convertToCPUInfo (some c) =
      (c.Cpus.map fun v => (⟨apiPb.CpuInfo_CPU.GetLoad v⟩ : CPUInfo)).map some := by
  simp [convertToCPUInfo, List.foldl_append_singleton]

theorem convertFromCPUInfo_loop_map_some (l : List CPUInfo) :
    ∀ acc, convertFromCPUInfo.loop acc (l.map some) =
      .ret (acc ++ l.map fun v => some (⟨v.Load⟩ : apiPb.CpuInfo_CPU)) := by
  induction l with
  | nil => intro acc; simp [convertFromCPUInfo.loop]
  | cons a rest ih => intro acc; simp [convertFromCPUInfo.loop, ih]

theorem cpu_roundtrip (c : apiPb.CpuInfo) :
    convertFromCPUInfo (convertToCPUInfo (some c)) =
      .ret (if c.Cpus = [] then none
        else some ⟨c.Cpus.map fun v => some ⟨apiPb.CpuInfo_CPU.GetLoad v⟩⟩) := by
  rw [convertToCPUInfo_some, convertFromCPUInfo, convertFromCPUInfo_loop_map_some]
  cases hc : c.Cpus with
  | nil => simp [Go.bind]
  | cons a rest => simp [Go.bind]

theorem memory_roundtrip (mi : apiPb.MemoryInfo) :
    convertFromMemoryInfo (convertToMemoryInfo (some mi)) =
      if mi.Mem = none ∧ mi.Swap = none then none else some mi := by
  obtain ⟨mem, swap⟩ := mi
  cases mem <;> cases swap <;>
    simp [convertFromMemoryInfo, convertToMemoryInfo, apiPb.MemoryInfo.GetMem,
      apiPb.MemoryInfo.GetSwap, apiPb.MemoryInfo_Memory.GetTotal, apiPb.MemoryInfo_Memory.GetUsed,
      apiPb.MemoryInfo_Memory.GetFree, apiPb.MemoryInfo_Memory.GetShared,
      apiPb.MemoryInfo_Memory.GetUsedPercent]

theorem convertToDiskInfo_some (d : apiPb.DiskInfo) :
    convertToDiskInfo (some d) = d.Disks.map fun entry => some (diskRecord entry) := by
  simp [convertToDiskInfo, apiPb.DiskInfo.GetDisks, List.foldl_append_singleton, diskRecord]

theorem convertFromDiskInfo_loop_map (entries : GoMap (Option apiPb.DiskInfo_Disk)) :
    ∀ acc, convertFromDiskInfo.loop acc (entries.map fun entry => some (diskRecord entry)) =
      .ret (entries.foldl (fun m e => m.set e.1 (apiPb.DiskInfo_Disk.viaGetters e.2)) acc) := by
  induction entries with
  | nil => intro acc; simp [convertFromDiskInfo.loop]
  | cons a rest ih =>
    intro acc
    simp only [List.map_cons, convertFromDiskInfo.loop, ih, List.foldl_cons]
    rfl

theorem disk_roundtrip (d : apiPb.DiskInfo) (hwf : d.Disks.WellFormed) :
    ∃ y, convertFromDiskInfo (convertToDiskInfo (some d)) = .ret y ∧
      (d.Disks = [] → y = none) ∧
      (d.Disks ≠ [] → ∃ yd, y = some yd ∧ yd.Disks.WellFormed ∧
        (∀ name, name ∈ yd.Disks.keys ↔ name ∈ d.Disks.keys) ∧
        ∀ name v, d.Disks.get? name = some v →
          yd.Disks.get? name = some (apiPb.DiskInfo_Disk.viaGetters v)) := by
  rw [convertToDiskInfo_some, convertFromDiskInfo, convertFromDiskInfo_loop_map]
  obtain ⟨h1, h2, h3⟩ := GoMap.foldl_set apiPb.DiskInfo_Disk.viaGetters d.Disks [] hwf
  generalize List.foldl (fun m e => GoMap.set m e.1 (apiPb.DiskInfo_Disk.viaGetters e.2)) []
    d.Disks = m at h1 h2 h3 ⊢
  by_cases he : d.Disks = []
  · have hm : m = [] := by
      by_contra hc
      obtain ⟨k, v⟩ := List.exists_mem_of_ne_nil m hc
      have hk : k.1 ∈ GoMap.keys m := List.mem_map_of_mem Prod.fst v
      rw [(h1 k.1).2] at hk
      simp [he, GoMap.keys] at hk
    refine ⟨none, ?_, fun _ => rfl, fun h => absurd he h⟩
    simp [hm, Go.bind]
  · have hne := h3 (Or.inl he)
    refine ⟨some ⟨m⟩, ?_, fun h => absurd h he, fun _ => ⟨_, rfl, ?_, ?_, ?_⟩⟩
    · simp only [Go.bind]
      rw [if_neg (by simpa [List.length_eq_zero] using hne)]
    · exact h2 (by simp [GoMap.WellFormed, GoMap.keys])
    · intro name
      rw [(h1 name).2]
      simp [GoMap.keys]
    · intro name v hv
      have hmem : name ∈ GoMap.keys d.Disks := by
        by_contra hc
        rw [GoMap.get?_eq_none_of_not_mem _ _ hc] at hv
        exact Option.noConfusion hv
      rw [(h1 name).1, if_pos hmem, hv]
      rfl

theorem convertToNetInfo_some (n : apiPb.NetInfo) :
    convertToNetInfo (some n) = n.Interfaces.map fun entry => some (netRecord entry) := by
  simp [convertToNetInfo, apiPb.NetInfo.GetInterfaces, List.foldl_append_singleton, netRecord]

theorem convertFromNetInfo_loop_map (entries : GoMap (Option apiPb.NetInfo_Interface)) :
    ∀ acc, convertFromNetInfo.loop acc (entries.map fun entry => some (netRecord entry)) =
      .ret (entries.foldl (fun m e => m.set e.1 (apiPb.NetInfo_Interface.viaGetters e.2)) acc) := by
  induction entries with
  | nil => intro acc; simp [convertFromNetInfo.loop]
  | cons a rest ih =>
    intro acc
    simp only [List.map_cons, convertFromNetInfo.loop, ih, List.foldl_cons]
    rfl

theorem net_roundtrip (n : apiPb.NetInfo) (hwf : n.Interfaces.WellFormed) :
    ∃ y, convertFromNetInfo (convertToNetInfo (some n)) = .ret y ∧
      (n.Interfaces = [] → y = none) ∧
      (n.Interfaces ≠ [] → ∃ yn, y = some yn ∧ yn.Interfaces.WellFormed ∧
        (∀ name, name ∈ yn.Interfaces.keys ↔ name ∈ n.Interfaces.keys) ∧
        ∀ name v, n.Interfaces.get? name = some v →
          yn.Interfaces.get? name = some (apiPb.NetInfo_Interface.viaGetters v)) := by
  rw [convertToNetInfo_some, convertFromNetInfo, convertFromNetInfo_loop_map]
  obtain ⟨h1, h2, h3⟩ := GoMap.foldl_set apiPb.NetInfo_Interface.viaGetters n.Interfaces [] hwf
  generalize List.foldl (fun m e => GoMap.set m e.1 (apiPb.NetInfo_Interface.viaGetters e.2)) []
    n.Interfaces = m at h1 h2 h3 ⊢
  by_cases he : n.Interfaces = []
  · have hm : m = [] := by
      by_contra hc
      obtain ⟨k, v⟩ := List.exists_mem_of_ne_nil m hc
      have hk : k.1 ∈ GoMap.keys m := List.mem_map_of_mem Prod.fst v
      rw [(h1 k.1).2] at hk
      simp [he, GoMap.keys] at hk
    refine ⟨none, ?_, fun _ => rfl, fun h => absurd he h⟩
    simp [hm, Go.bind]
  · have hne := h3 (Or.inl he)
    refine ⟨some ⟨m⟩, ?_, fun h => absurd h he, fun _ => ⟨_, rfl, ?_, ?_, ?_⟩⟩
    · simp only [Go.bind]
      rw [if_neg (by simpa [List.length_eq_zero] using hne)]
    · exact h2 (by simp [GoMap.WellFormed, GoMap.keys])
    · intro name
      rw [(h1 name).2]
      simp [GoMap.keys]
    · intro name v hv
      have hmem : name ∈ GoMap.keys n.Interfaces := by
        by_contra hc
        rw [GoMap.get?_eq_none_of_not_mem _ _ hc] at hv
        exact Option.noConfusion hv
      rw [(h1 name).1, if_pos hmem, hv]
      rfl

end clickhouse

namespace clickhouse

theorem cpu_returns (c : Option apiPb.CpuInfo) :
    ∃ y, convertFromCPUInfo (convertToCPUInfo c) = .ret y ∧ (c = none → y = none) := by
  cases c with
  | none => exact ⟨none, rfl, fun _ => rfl⟩
  | some c => exact ⟨_, cpu_roundtrip c, fun h => Option.noConfusion h⟩

theorem disk_returns (d : Option apiPb.DiskInfo) :
    ∃ y, convertFromDiskInfo (convertToDiskInfo d) = .ret y ∧ (d = none → y = none) := by
  cases d with
  | none => exact ⟨none, rfl, fun _ => rfl⟩
  | some d =>
    rw [convertToDiskInfo_some, convertFromDiskInfo, convertFromDiskInfo_loop_map]
    simp only [Go.bind]
    split_ifs
    · exact ⟨_, rfl, fun h => nomatch h⟩
    · exact ⟨_, rfl, fun h => nomatch h⟩

theorem net_returns (n : Option apiPb.NetInfo) :
    ∃ y, convertFromNetInfo (convertToNetInfo n) = .ret y ∧ (n = none → y = none) := by
  cases n with
  | none => exact ⟨none, rfl, fun _ => rfl⟩
  | some n =>
    rw [convertToNetInfo_some, convertFromNetInfo, convertFromNetInfo_loop_map]
    simp only [Go.bind]
    split_ifs
    · exact ⟨_, rfl, fun h => nomatch h⟩
    · exact ⟨_, rfl, fun h => nomatch h⟩

theorem stat_roundtrip_compose (x : apiPb.Metric) (ts : timestamppb.Timestamp)
    (ht : x.Time = some ts) (hv : ts.Valid) (cpu : Option apiPb.CpuInfo)
    (disk : Option apiPb.DiskInfo) (net : Option apiPb.NetInfo)
    (hc : convertFromCPUInfo (convertToCPUInfo x.CpuInfo) = .ret cpu)
    (hd : convertFromDiskInfo (convertToDiskInfo x.DiskInfo) = .ret disk)
    (hn : convertFromNetInfo (convertToNetInfo x.NetInfo) = .ret net) :
    (∃ r, ConvertToClickhouseStatRequest (some x) = (some r, none)) ∧
      ConvertFromClickhouseStatRequest (ConvertToClickhouseStatRequest (some x)).1 =
        .ret (some
          { CpuInfo := cpu
            MemoryInfo := convertFromMemoryInfo (convertToMemoryInfo x.MemoryInfo)
            DiskInfo := disk
            NetInfo := net
            Time := some ts }, none) := by
  simp only [ConvertToClickhouseStatRequest, apiPb.Metric.GetTime, ht,
    ptypes.Timestamp_of_valid hv, apiPb.Metric.GetCpuInfo, apiPb.Metric.GetMemoryInfo,
    apiPb.Metric.GetDiskInfo, apiPb.Metric.GetNetInfo, ConvertFromClickhouseStatRequest,
    ptypes.TimestampProto_of_valid hv, hc, hd, hn, Go.bind]
  exact ⟨⟨_, rfl⟩, trivial⟩

theorem convertFromCPUInfo_not_empty (data : List (Option CPUInfo)) (c : apiPb.CpuInfo)
    (h : convertFromCPUInfo data = .ret (some c)) : c.Cpus ≠ [] := by
  unfold convertFromCPUInfo at h
  cases hl : convertFromCPUInfo.loop [] data with
  | fault => simp [hl, Go.bind] at h
  | ret cpus =>
    simp only [hl, Go.bind] at h
    split_ifs at h with h0
    · exact Go.noConfusion h (fun h1 => Option.noConfusion h1)
    · have hc : c = ⟨cpus⟩ := by
        injection h with h1
        injection h1 with h2
        exact h2.symm
      subst hc
      simpa [List.length_eq_zero] using h0

theorem convertFromDiskInfo_not_empty (data : List (Option DiskInfo)) (d : apiPb.DiskInfo)
    (h : convertFromDiskInfo data = .ret (some d)) : d.Disks ≠ [] := by
  unfold convertFromDiskInfo at h
  cases hl : convertFromDiskInfo.loop [] data with
  | fault => simp [hl, Go.bind] at h
  | ret disks =>
    simp only [hl, Go.bind] at h
    split_ifs at h with h0
    · exact Go.noConfusion h (fun h1 => Option.noConfusion h1)
    · have hc : d = ⟨disks⟩ := by
        injection h with h1
        injection h1 with h2
        exact h2.symm
      subst hc
      simpa [List.length_eq_zero] using h0

theorem convertFromNetInfo_not_empty (data : List (Option NetInfo)) (n : apiPb.NetInfo)
    (h : convertFromNetInfo data = .ret (some n)) : n.Interfaces ≠ [] := by
  unfold convertFromNetInfo at h
  cases hl : convertFromNetInfo.loop [] data with
  | fault => simp [hl, Go.bind] at h
  | ret interfaces =>
    simp only [hl, Go.bind] at h
    split_ifs at h with h0
    · exact Go.noConfusion h (fun h1 => Option.noConfusion h1)
    · have hc : n = ⟨interfaces⟩ := by
        injection h with h1
        injection h1 with h2
        exact h2.symm
      subst hc
      simpa [List.length_eq_zero] using h0

theorem convertFromMemoryInfo_not_empty (data : Option MemoryInfo) (mi : apiPb.MemoryInfo)
    (h : convertFromMemoryInfo data = some mi) : mi.Mem ≠ none ∨ mi.Swap ≠ none := by
  cases data with
  | none => simp [convertFromMemoryInfo] at h
  | some data =>
    obtain ⟨mem, swap⟩ := data
    cases mem <;> cases swap <;> simp [convertFromMemoryInfo] at h <;> subst h <;> simp

/-- C6: for every stat message with a valid time the conversion to the store and
back succeeds, and each of the cpu, memory, disk and network sections that is
absent in the input is absent in the result; on the outbound direction a section
without content (no CPU entry, no disk, no interface, memory with neither mem
nor swap) is returned as absent, and no outbound conversion ever returns a
present section that is empty. -/
theorem C6_absence_preserved (x : apiPb.Metric) (ts : timestamppb.Timestamp)
    (ht : x.Time = some ts) (hv : ts.Valid) :
    (∃ r y, ConvertToClickhouseStatRequest (some x) = (some r, none) ∧
        ConvertFromClickhouseStatRequest (ConvertToClickhouseStatRequest (some x)).1 =
          .ret (some y, none) ∧
        (x.CpuInfo = none → y.CpuInfo = none) ∧ (x.MemoryInfo = none → y.MemoryInfo = none) ∧
        (x.DiskInfo = none → y.DiskInfo = none) ∧ (x.NetInfo = none → y.NetInfo = none)) ∧
      (convertFromCPUInfo [] = .ret none ∧ convertFromDiskInfo [] = .ret none ∧
        convertFromNetInfo [] = .ret none ∧ convertFromMemoryInfo (some ⟨none, none⟩) = none) ∧
      (∀ data c, convertFromCPUInfo data = .ret (some c) → c.Cpus ≠ []) ∧
      (∀ data d, convertFromDiskInfo data = .ret (some d) → d.Disks ≠ []) ∧
      (∀ data n, convertFromNetInfo data = .ret (some n) → n.Interfaces ≠ []) ∧
      (∀ data mi, convertFromMemoryInfo data = some mi → mi.Mem ≠ none ∨ mi.Swap ≠ none) := by
  obtain ⟨cpu, hc, hc0⟩ := cpu_returns x.CpuInfo
  obtain ⟨disk, hd, hd0⟩ := disk_returns x.DiskInfo
  obtain ⟨net, hn, hn0⟩ := net_returns x.NetInfo
  obtain ⟨⟨r, hr⟩, hback⟩ := stat_roundtrip_compose x ts ht hv cpu disk net hc hd hn
  refine ⟨⟨r, _, hr, hback, hc0, ?_, hd0, hn0⟩, ⟨rfl, rfl, rfl, rfl⟩,
    convertFromCPUInfo_not_empty, convertFromDiskInfo_not_empty, convertFromNetInfo_not_empty,
    convertFromMemoryInfo_not_empty⟩
  intro hm
  simp [hm, convertToMemoryInfo, convertFromMemoryInfo]

end clickhouse

namespace clickhouse

/-- C6 at the example stat message, which has no network section. -/
theorem C6_absence_preserved_witness :
    ∃ y, ConvertFromClickhouseStatRequest
        (ConvertToClickhouseStatRequest (some apiPb.exampleMetric)).1 = .ret (some y, none) ∧
      y.NetInfo = none := by
  obtain ⟨⟨_, y, _, hy, _, _, _, hnet⟩, _⟩ :=
    C6_absence_preserved apiPb.exampleMetric ⟨1600000000, 5⟩ rfl (by decide)
  exact ⟨y, hy, hnet rfl⟩

/-- C7: for every stat message `x` with a valid time (its disk and interface
maps being maps, that is without a repeated name) the conversion to the store
and back succeeds and the result equals `x` on time; on the per-core cpu loads,
in the same order, when the cpu section has an entry; on the whole memory
section, so on all five fields of mem and of swap, when one of them is present;
and on the disk and network collections as name-keyed mappings, when they have
an entry: same set of names, and under each name the same field values (a
present entry comes back identical, a nil entry as the entry of its getter
values). -/
theorem C7_stat_roundtrip (x : apiPb.Metric) (ts : timestamppb.Timestamp)
    (ht : x.Time = some ts) (hv : ts.Valid)
    (hdw : ∀ d, x.DiskInfo = some d → d.Disks.WellFormed)
    (hnw : ∀ n, x.NetInfo = some n → n.Interfaces.WellFormed) :
    ∃ r y, ConvertToClickhouseStatRequest (some x) = (some r, none) ∧
      ConvertFromClickhouseStatRequest (ConvertToClickhouseStatRequest (some x)).1 =
        .ret (some y, none) ∧
      y.Time = x.Time ∧
      (∀ c, x.CpuInfo = some c → c.Cpus ≠ [] →
        ∃ yc, y.CpuInfo = some yc ∧
          yc.Cpus.map apiPb.CpuInfo_CPU.GetLoad = c.Cpus.map apiPb.CpuInfo_CPU.GetLoad) ∧
      (∀ mi, x.MemoryInfo = some mi → mi.Mem ≠ none ∨ mi.Swap ≠ none → y.MemoryInfo = some mi) ∧
      (∀ d, x.DiskInfo = some d → d.Disks ≠ [] →
        ∃ yd, y.DiskInfo = some yd ∧
          (∀ name, name ∈ yd.Disks.keys ↔ name ∈ d.Disks.keys) ∧
          ∀ name v, d.Disks.get? name = some v →
            ∃ w, yd.Disks.get? name = some w ∧ (v ≠ none → w = v) ∧
              apiPb.DiskInfo_Disk.GetTotal w = apiPb.DiskInfo_Disk.GetTotal v ∧
              apiPb.DiskInfo_Disk.GetFree w = apiPb.DiskInfo_Disk.GetFree v ∧
              apiPb.DiskInfo_Disk.GetUsed w = apiPb.DiskInfo_Disk.GetUsed v ∧
              apiPb.DiskInfo_Disk.GetUsedPercent w = apiPb.DiskInfo_Disk.GetUsedPercent v) ∧
      (∀ n, x.NetInfo = some n → n.Interfaces ≠ [] →
        ∃ yn, y.NetInfo = some yn ∧
          (∀ name, name ∈ yn.Interfaces.keys ↔ name ∈ n.Interfaces.keys) ∧
          ∀ name v, n.Interfaces.get? name = some v →
            ∃ w, yn.Interfaces.get? name = some w ∧ (v ≠ none → w = v) ∧
              apiPb.NetInfo_Interface.GetBytesSent w = apiPb.NetInfo_Interface.GetBytesSent v ∧
              apiPb.NetInfo_Interface.GetBytesRecv w = apiPb.NetInfo_Interface.GetBytesRecv v ∧
              apiPb.NetInfo_Interface.GetPacketsSent w = apiPb.NetInfo_Interface.GetPacketsSent v ∧
              apiPb.NetInfo_Interface.GetPacketsRecv w = apiPb.NetInfo_Interface.GetPacketsRecv v ∧
              apiPb.NetInfo_Interface.GetErrIn w = apiPb.NetInfo_Interface.GetErrIn v ∧
              apiPb.NetInfo_Interface.GetErrOut w = apiPb.NetInfo_Interface.GetErrOut v ∧
              apiPb.NetInfo_Interface.GetDropIn w = apiPb.NetInfo_Interface.GetDropIn v ∧
              apiPb.NetInfo_Interface.GetDropOut w = apiPb.NetInfo_Interface.GetDropOut v) := by
  obtain ⟨cpu, hc, _⟩ := cpu_returns x.CpuInfo
  obtain ⟨disk, hd, _⟩ := disk_returns x.DiskInfo
  obtain ⟨net, hn, _⟩ := net_returns x.NetInfo
  obtain ⟨⟨r, hr⟩, hback⟩ := stat_roundtrip_compose x ts ht hv cpu disk net hc hd hn
  refine ⟨r, _, hr, hback, ht.symm, ?_, ?_, ?_, ?_⟩
  · intro c hxc hne
    rw [hxc, cpu_roundtrip c, if_neg hne] at hc
    have hcpu : cpu = some ⟨c.Cpus.map fun v => some ⟨apiPb.CpuInfo_CPU.GetLoad v⟩⟩ := by
      injection hc with h1
      exact h1.symm
    refine ⟨_, hcpu, ?_⟩
    simp [List.map_map, Function.comp_def, apiPb.CpuInfo_CPU.GetLoad]
  · intro mi hxm hne
    show convertFromMemoryInfo (convertToMemoryInfo x.MemoryInfo) = some mi
    rw [hxm, memory_roundtrip mi, if_neg (by tauto)]
  · intro d hxd hne
    obtain ⟨y, hy, _, hy2⟩ := disk_roundtrip d (hdw d hxd)
    obtain ⟨yd, hyd, _, hkeys, hvals⟩ := hy2 hne
    rw [hxd, hy] at hd
    have hdisk : disk = some yd := by
      injection hd with h1
      rw [← h1, hyd]
    refine ⟨yd, hdisk, hkeys, ?_⟩
    intro name v hget
    refine ⟨_, hvals name v hget, ?_, rfl, rfl, rfl, rfl⟩
    intro hv0
    cases v with
    | none => exact absurd rfl hv0
    | some dv => rfl
  · intro n hxn hne
    obtain ⟨y, hy, _, hy2⟩ := net_roundtrip n (hnw n hxn)
    obtain ⟨yn, hyn, _, hkeys, hvals⟩ := hy2 hne
    rw [hxn, hy] at hn
    have hnet : net = some yn := by
      injection hn with h1
      rw [← h1, hyn]
    refine ⟨yn, hnet, hkeys, ?_⟩
    intro name v hget
    refine ⟨_, hvals name v hget, ?_, rfl, rfl, rfl, rfl, rfl, rfl, rfl, rfl⟩
    intro hv0
    cases v with
    | none => exact absurd rfl hv0
    | some nv => rfl

/-- C7 at the example stat message: its disk map has distinct names, and time and memory come back unchanged. -/
theorem C7_stat_roundtrip_witness :
    (∀ d, apiPb.exampleMetric.DiskInfo = some d → d.Disks.WellFormed) ∧
      ∃ y, ConvertFromClickhouseStatRequest
          (ConvertToClickhouseStatRequest (some apiPb.exampleMetric)).1 = .ret (some y, none) ∧
        y.Time = some ⟨1600000000, 5⟩ ∧
        y.MemoryInfo = some ⟨some ⟨8, 3, 5, 0, ⟨37⟩⟩, none⟩ := by
  have hdw : ∀ d, apiPb.exampleMetric.DiskInfo = some d → d.Disks.WellFormed := by
    intro d hd
    have hd1 : d = ⟨[("sdb", some ⟨100, 60, 40, ⟨40⟩⟩), ("sda", none)]⟩ := by
      injection hd with h1
      exact h1.symm
    subst hd1
    decide
  obtain ⟨_, y, _, hy, htime, _, hmem, _, _⟩ :=
    C7_stat_roundtrip apiPb.exampleMetric ⟨1600000000, 5⟩ rfl (by decide) hdw
      (fun n hn => nomatch hn)
  exact ⟨hdw, y, hy, htime, hmem _ rfl (Or.inl (by simp))⟩

end clickhouse

/-! ## Uptime summary -/

namespace clickhouse

/-- C11: for every `UptimeResult` and every total `countAll` different from 0, if
the text of `Latency` before its first `.` parses as a number `v` then
`convertFromUptimeResult` returns `Uptime = float64(Count) / float64(countAll)`
and `Latency = v`, and otherwise it returns `Uptime = 0` and `Latency = 0`.  In
particular `float64(7) / float64(10)` is the `float64` 0.7 (bits
`0x3FE6666666666666`); for the latency text `12.345` the parser is given `12`,
so with a parser reading `12` as twelve, count 7 and total 10 give uptime 0.7
and latency 12; and with a parser rejecting `bad` the latency text `bad` gives
uptime 0 and latency 0. -/
theorem C11_uptime_summary (ParseFloat : String → Option Float64) :
    (∀ (u : UptimeResult) (countAll : Int), countAll ≠ 0 →
      (∀ v, ParseFloat (strings.beforeFirstDot u.Latency) = some v →
        convertFromUptimeResult ParseFloat (some u) countAll =
          .ret ⟨Float64.div (Float64.ofInt64 u.Count) (Float64.ofInt64 countAll), v⟩) ∧
      (ParseFloat (strings.beforeFirstDot u.Latency) = none →
        convertFromUptimeResult ParseFloat (some u) countAll =
          .ret ⟨Float64.zero, Float64.zero⟩)) ∧
      Float64.div (Float64.ofInt64 7) (Float64.ofInt64 10) = ⟨0x3FE6666666666666⟩ ∧
      strings.beforeFirstDot "12.345" = "12" ∧
      (ParseFloat "12" = some (Float64.ofInt64 12) →
        convertFromUptimeResult ParseFloat (some ⟨7, "12.345"⟩) 10 =
          .ret ⟨⟨0x3FE6666666666666⟩, ⟨0x4028000000000000⟩⟩) ∧
      (ParseFloat "bad" = none →
        ∀ count countAll, convertFromUptimeResult ParseFloat (some ⟨count, "bad"⟩) countAll =
          .ret ⟨Float64.zero, Float64.zero⟩) := by
  have h710 : Float64.div (Float64.ofInt64 7) (Float64.ofInt64 10) = ⟨0x3FE6666666666666⟩ := by
    decide
  have h12 : strings.beforeFirstDot "12.345" = "12" := by decide
  have hbad : strings.beforeFirstDot "bad" = "bad" := by decide
  have htwelve : Float64.ofInt64 12 = ⟨0x4028000000000000⟩ := by decide
  refine ⟨?_, h710, h12, ?_, ?_⟩
  · intro u countAll _
    constructor
    · intro v hv
      simp only [convertFromUptimeResult, hv]
    · intro hnone
      simp only [convertFromUptimeResult, hnone]
  · intro hp
    simp only [convertFromUptimeResult, h12, hp, h710, htwelve]
  · intro hp count countAll
    simp only [convertFromUptimeResult, hbad, hp]

/-- C11 with the example parser, which reads `12` as twelve and rejects `bad`. -/
theorem C11_uptime_summary_witness :
    convertFromUptimeResult strconv.exampleParseFloat (some ⟨7, "12.345"⟩) 10 =
        .ret ⟨⟨0x3FE6666666666666⟩, ⟨0x4028000000000000⟩⟩ ∧
      convertFromUptimeResult strconv.exampleParseFloat (some ⟨7, "bad"⟩) 10 =
        .ret ⟨Float64.zero, Float64.zero⟩ :=
  ⟨(C11_uptime_summary strconv.exampleParseFloat).2.2.2.1 (by decide),
    (C11_uptime_summary strconv.exampleParseFloat).2.2.2.2 (by decide) 7 10⟩

end clickhouse

/-! ## The HTTP probe -/

namespace job

theorem jobHTTP.Do.setHeaders_some (w : http.World) (headers : List (String × String)) :
    ∀ req : http.Request,
      jobHTTP.Do.setHeaders w (some req) headers =
        .ret (some (headers.foldl (fun r h => w.SetHeader r h.1 h.2) req)) := by
  induction headers with
  | nil => intro req; rfl
  | cons h rest ih =>
    intro req
    obtain ⟨name, val⟩ := h
    simp only [jobHTTP.Do.setHeaders, ih, List.foldl_cons]

theorem jobHTTP.Do.setHeaders_none (w : http.World) (headers : List (String × String)) :
    jobHTTP.Do.setHeaders w none headers = .ret none ∨
      jobHTTP.Do.setHeaders w none headers = .fault := by
  cases headers with
  | nil => exact Or.inl rfl
  | cons h rest => exact Or.inr rfl

theorem jobHTTP.Do_of_unbuilt (w : http.World) (j : jobHTTP)
    (h : w.NewRequest j.methodType j.url = none) : jobHTTP.Do w j = .fault := by
  simp only [jobHTTP.Do, h]
  rcases jobHTTP.Do.setHeaders_none w j.headers with h1 | h1 <;> simp [h1, Go.bind]

theorem jobHTTP.Do_of_built (w : http.World) (j : jobHTTP) (req : http.Request)
    (h : w.NewRequest j.methodType j.url = some req) :
    jobHTTP.Do w j =
      match w.Do (j.headers.foldl (fun r h => w.SetHeader r h.1 h.2) req) with
      | (_, some err) =>
        .ret (NewHttpError w.TimestampNow clientPb.StatusCode.StatusCode_Error err j.url)
      | (none, none) => .fault
      | (some resp, none) =>
        if resp.StatusCode ≠ j.statusCode then
          .ret (NewHttpError w.TimestampNow clientPb.StatusCode.StatusCode_Error
            wrongStatusError j.url)
        else .ret (NewHttpError w.TimestampNow clientPb.StatusCode.StatusCode_OK "" j.url) := by
  rcases hout : w.Do (j.headers.foldl (fun r h => w.SetHeader r h.1 h.2) req) with ⟨resp, err⟩
  simp only [jobHTTP.Do, h, jobHTTP.Do.setHeaders_some, Go.bind, hout]
  cases err <;> cases resp <;> rfl

theorem jobHTTP.Do_of_transport_error (w : http.World) (j : jobHTTP) (req : http.Request)
    (resp : Option http.Response) (text : String)
    (h : w.NewRequest j.methodType j.url = some req)
    (hsent : w.Do (j.headers.foldl (fun r h => w.SetHeader r h.1 h.2) req) = (resp, some text)) :
    jobHTTP.Do w j =
      .ret ⟨w.TimestampNow, clientPb.StatusCode.StatusCode_Error, text, j.url⟩ := by
  rw [jobHTTP.Do_of_built w j req h, hsent]
  cases resp <;> rfl

theorem jobHTTP.Do_of_no_response (w : http.World) (j : jobHTTP) (req : http.Request)
    (h : w.NewRequest j.methodType j.url = some req)
    (hsent : w.Do (j.headers.foldl (fun r h => w.SetHeader r h.1 h.2) req) = (none, none)) :
    jobHTTP.Do w j = .fault := by
  rw [jobHTTP.Do_of_built w j req h, hsent]

theorem jobHTTP.Do_of_response (w : http.World) (j : jobHTTP) (req : http.Request)
    (resp : http.Response) (h : w.NewRequest j.methodType j.url = some req)
    (hsent : w.Do (j.headers.foldl (fun r h => w.SetHeader r h.1 h.2) req) = (some resp, none)) :
    jobHTTP.Do w j =
      if resp.StatusCode ≠ j.statusCode then
        .ret ⟨w.TimestampNow, clientPb.StatusCode.StatusCode_Error, "WRONG_STATUS_CODE", j.url⟩
      else .ret ⟨w.TimestampNow, clientPb.StatusCode.StatusCode_OK, "", j.url⟩ := by
  rw [jobHTTP.Do_of_built w j req h, hsent]
  rfl

/-- C12: for every HTTP job and every behaviour of the library and the network,
`Do` returns a result with code OK and empty description if and only if the
request was built, the transport returned a response without error and the
response status code equals the expected status; a transport error gives code
Error with the text of the error as description; a status mismatch gives code
Error with description `WRONG_STATUS_CODE`; and every result `Do` returns has the
url of the job as location. -/
theorem C12_probe_success_policy (w : http.World) (j : jobHTTP) :
    ((∃ r, jobHTTP.Do w j = .ret r ∧ r.code = clientPb.StatusCode.StatusCode_OK ∧
        r.description = "") ↔
      ∃ req resp, w.NewRequest j.methodType j.url = some req ∧
        w.Do (j.headers.foldl (fun r h => w.SetHeader r h.1 h.2) req) = (some resp, none) ∧
        resp.StatusCode = j.statusCode) ∧
      (∀ req resp text, w.NewRequest j.methodType j.url = some req →
        w.Do (j.headers.foldl (fun r h => w.SetHeader r h.1 h.2) req) = (resp, some text) →
        jobHTTP.Do w j =
          .ret ⟨w.TimestampNow, clientPb.StatusCode.StatusCode_Error, text, j.url⟩) ∧
      (∀ req resp, w.NewRequest j.methodType j.url = some req →
        w.Do (j.headers.foldl (fun r h => w.SetHeader r h.1 h.2) req) = (some resp, none) →
        resp.StatusCode ≠ j.statusCode →
        jobHTTP.Do w j =
          .ret ⟨w.TimestampNow, clientPb.StatusCode.StatusCode_Error, "WRONG_STATUS_CODE",
            j.url⟩) ∧
      (∀ r, jobHTTP.Do w j = .ret r → r.location = j.url) := by
  refine ⟨⟨?_, ?_⟩, ?_, ?_, ?_⟩
  · rintro ⟨r, hr, hcode, _⟩
    cases hreq : w.NewRequest j.methodType j.url with
    | none =>
      rw [jobHTTP.Do_of_unbuilt w j hreq] at hr
      exact Go.noConfusion hr
    | some req =>
      rcases hsent : w.Do (j.headers.foldl (fun r h => w.SetHeader r h.1 h.2) req) with
        ⟨resp, err⟩
      cases err with
      | some text =>
        rw [jobHTTP.Do_of_transport_error w j req resp text hreq hsent] at hr
        injection hr with hr
        subst hr
        exact clientPb.StatusCode.noConfusion hcode
      | none =>
        cases resp with
        | none =>
          rw [jobHTTP.Do_of_no_response w j req hreq hsent] at hr
          exact Go.noConfusion hr
        | some resp =>
          by_cases hs : resp.StatusCode = j.statusCode
          · exact ⟨req, resp, rfl, hsent, hs⟩
          · rw [jobHTTP.Do_of_response w j req resp hreq hsent, if_pos hs] at hr
            injection hr with hr
            subst hr
            exact clientPb.StatusCode.noConfusion hcode
  · rintro ⟨req, resp, h1, h2, h3⟩
    have hd := jobHTTP.Do_of_response w j req resp h1 h2
    rw [if_neg (not_not.2 h3)] at hd
    exact ⟨_, hd, rfl, rfl⟩
  · intro req resp text h1 h2
    exact jobHTTP.Do_of_transport_error w j req resp text h1 h2
  · intro req resp h1 h2 h3
    rw [jobHTTP.Do_of_response w j req resp h1 h2, if_pos h3]
  · intro r hr
    cases hreq : w.NewRequest j.methodType j.url with
    | none =>
      rw [jobHTTP.Do_of_unbuilt w j hreq] at hr
      exact Go.noConfusion hr
    | some req =>
      rcases hsent : w.Do (j.headers.foldl (fun r h => w.SetHeader r h.1 h.2) req) with
        ⟨resp, err⟩
      cases err with
      | some text =>
        rw [jobHTTP.Do_of_transport_error w j req resp text hreq hsent] at hr
        injection hr with hr
        subst hr
        rfl
      | none =>
        cases resp with
        | none =>
          rw [jobHTTP.Do_of_no_response w j req hreq hsent] at hr
          exact Go.noConfusion hr
        | some resp =>
          rw [jobHTTP.Do_of_response w j req resp hreq hsent] at hr
          split_ifs at hr <;>
            · injection hr with hr
              subst hr
              rfl

/-- C12 in the example world, where the request is built and answered with
status 200: a job expecting 200 gets OK, a job expecting 201 gets
`WRONG_STATUS_CODE`. -/
theorem C12_probe_success_policy_witness :
    (∃ r, jobHTTP.Do http.exampleWorld (NewJob "GET" "http://example.com" [("a", "b")] 200) =
        .ret r ∧ r.code = clientPb.StatusCode.StatusCode_OK ∧ r.description = "") ∧
      jobHTTP.Do http.exampleWorld (NewJob "GET" "http://example.com" [] 201) =
        .ret ⟨some ⟨1600000000, 0⟩, clientPb.StatusCode.StatusCode_Error, "WRONG_STATUS_CODE",
          "http://example.com"⟩ :=
  ⟨(C12_probe_success_policy http.exampleWorld
      (NewJob "GET" "http://example.com" [("a", "b")] 200)).1.2
      ⟨_, ⟨200⟩, rfl, rfl, rfl⟩,
    (C12_probe_success_policy http.exampleWorld
      (NewJob "GET" "http://example.com" [] 201)).2.2.1
      ⟨"GET", "http://example.com", []⟩ ⟨200⟩ rfl rfl (by decide)⟩

/-- C13 as stated fails: the location `http://example.com:8080/path` carries the
explicit port 8080, which is the port the spec derives, and `GetLogData` reports
port 80. -/
theorem C13_counterexample :
    spec.explicitPort "http://example.com:8080/path" = some 8080 ∧
      spec.derivedPort "http://example.com:8080/path" = 8080 ∧
      (httpError.GetLogData
          ⟨none, clientPb.StatusCode.StatusCode_OK, "", "http://example.com:8080/path"⟩ "id").Meta.map
        (fun m => m.Port) = some 80 := by
  decide

/-- C13, amended: for every probe result with target location `L`, the port
reported by `GetLogData` is 443 when `L` begins with the text `https` and 80 in
every other case; no other port is ever reported, so a port written in `L` is
not read. -/
theorem C13_port_from_leading_text (e : httpError) (id : String) :
    ∃ m, (e.GetLogData id).Meta = some m ∧ m.Location = e.location ∧
      ((∃ rest, e.location = "https" ++ rest) → m.Port = 443) ∧
      ((¬ ∃ rest, e.location = "https" ++ rest) → m.Port = 80) ∧
      (m.Port = 443 ∨ m.Port = 80) := by
  have hiff : strings.HasPrefix e.location "https" = true ↔ ∃ rest, e.location = "https" ++ rest := by
    simp only [strings.HasPrefix, decide_eq_true_eq]
    constructor
    · rintro ⟨t, ht⟩
      refine ⟨String.mk t, ?_⟩
      apply String.ext
      rw [String.data_append, ← ht]
    · rintro ⟨rest, hrest⟩
      exact ⟨rest.data, by rw [hrest, String.data_append]⟩
  refine ⟨_, rfl, rfl, ?_, ?_, ?_⟩
  · intro h
    simp [(hiff.2 h), httpsPort]
  · intro h
    have hfalse : strings.HasPrefix e.location "https" = false := by
      cases hb : strings.HasPrefix e.location "https" with
      | true => exact absurd (hiff.1 hb) h
      | false => rfl
    simp [hfalse, httpPort]
  · cases hb : strings.HasPrefix e.location "https" with
    | true => exact Or.inl (by simp [httpsPort])
    | false => exact Or.inr (by simp [httpPort])

/-- C14, evaluated on the code: when `http.NewRequest` returns an error, `Do`
goes on with the nil request and panics; so does the job with the method
`BAD METHOD`, which is not a token, in the example world. -/
theorem C14_unbuilt_request_panics :
    (∀ (w : http.World) (j : jobHTTP), w.NewRequest j.methodType j.url = none →
        jobHTTP.Do w j = .fault) ∧
      jobHTTP.Do http.exampleWorld (NewJob "BAD METHOD" "http://example.com" [("a", "b")] 200) =
        .fault ∧
      jobHTTP.Do http.exampleWorld (NewJob "BAD METHOD" "http://example.com" [] 200) = .fault :=
  ⟨jobHTTP.Do_of_unbuilt, jobHTTP.Do_of_unbuilt _ _ (by decide),
    jobHTTP.Do_of_unbuilt _ _ (by decide)⟩

end job

/-! ## Transaction queries: sort key and filters -/

namespace clickhouse

/-- C17: `getTransactionOrder` returns the start-time column for an absent sort
request, for the unspecified key, for `BY_TRANSACTION_START_TIME` and for every
key value outside the enum; it returns the expression end time minus start time
for `DURATION` and the end-time column for `BY_TRANSACTION_END_TIME`; and it
never returns any other text. -/
theorem C17_sort_key_selection (table : String) :
    getTransactionOrder table none = "\"" ++ table ++ "\".\"startTime\"" ∧
      (∀ d, getTransactionOrder table (some ⟨.SORT_TRANSACTION_LIST_UNSPECIFIED, d⟩) =
        "\"" ++ table ++ "\".\"startTime\"") ∧
      (∀ d, getTransactionOrder table (some ⟨.BY_TRANSACTION_START_TIME, d⟩) =
        "\"" ++ table ++ "\".\"startTime\"") ∧
      (∀ n d, getTransactionOrder table (some ⟨.other n, d⟩) =
        "\"" ++ table ++ "\".\"startTime\"") ∧
      (∀ d, getTransactionOrder table (some ⟨.DURATION, d⟩) =
        "\"" ++ table ++ "\".\"endTime\" - \"" ++ table ++ "\".\"startTime\"") ∧
      (∀ d, getTransactionOrder table (some ⟨.BY_TRANSACTION_END_TIME, d⟩) =
        "\"" ++ table ++ "\".\"endTime\"") ∧
      (∀ request,
        getTransactionOrder table request = "\"" ++ table ++ "\".\"startTime\"" ∨
        getTransactionOrder table request =
          "\"" ++ table ++ "\".\"endTime\" - \"" ++ table ++ "\".\"startTime\"" ∨
        getTransactionOrder table request = "\"" ++ table ++ "\".\"endTime\"") := by
  refine ⟨rfl, fun _ => rfl, fun _ => rfl, fun _ _ => rfl, fun _ => rfl, fun _ => rfl, ?_⟩
  intro request
  cases request with
  | none => exact Or.inl rfl
  | some r =>
    obtain ⟨key, d⟩ := r
    cases key with
    | SORT_TRANSACTION_LIST_UNSPECIFIED => exact Or.inl rfl
    | DURATION => exact Or.inr (Or.inl rfl)
    | BY_TRANSACTION_START_TIME => exact Or.inl rfl
    | BY_TRANSACTION_END_TIME => exact Or.inr (Or.inr rfl)
    | other n => exact Or.inl rfl

/-- C18: `getTransactionsByString` returns the empty clause for an absent value,
whatever the key; `getTransactionTypeWhere` and `getTransactionStatusWhere`
return the empty clause for the unspecified enum value; and for every present
value each of the three returns the one equality clause that compares its column
(the given key, `transactionType`, `transactionStatus`) with that value. -/
theorem C18_absent_filter_matches_all (table : String) :
    (∀ key, getTransactionsByString table key none = "") ∧
      getTransactionTypeWhere table apiPb.TransactionType_TRANSACTION_TYPE_UNSPECIFIED = "" ∧
      getTransactionStatusWhere table apiPb.TransactionStatus_TRANSACTION_CODE_UNSPECIFIED = "" ∧
      (∀ key v, getTransactionsByString table key (some ⟨v⟩) =
        "\"" ++ table ++ "\".\"" ++ key ++ "\" = '" ++ v ++ "'") ∧
      (∀ n : Int, n ≠ apiPb.TransactionType_TRANSACTION_TYPE_UNSPECIFIED →
        getTransactionTypeWhere table n =
          "\"" ++ table ++ "\".\"transactionType\" = '" ++ toString n ++ "'") ∧
      (∀ n : Int, n ≠ apiPb.TransactionStatus_TRANSACTION_CODE_UNSPECIFIED →
        getTransactionStatusWhere table n =
          "\"" ++ table ++ "\".\"transactionStatus\" = '" ++ toString n ++ "'") := by
  refine ⟨fun _ => rfl, rfl, rfl, fun _ _ => rfl, ?_, ?_⟩
  · intro n hn
    have key : ("\".\"" : String) ++ "transactionType" ++ "\" = '" =
        "\".\"transactionType\" = '" := by decide
    simp only [getTransactionTypeWhere, if_neg hn, transTransactionTypeStr]
    rw [← key]
    simp only [String.append_assoc]
  · intro n hn
    simp only [getTransactionStatusWhere, if_neg hn]

/-- C18 at the table `transaction_info`: a present host, the type 2 and the
status 1 give one clause each. -/
theorem C18_absent_filter_matches_all_witness :
    getTransactionsByString "transaction_info" "metaHost" (some ⟨"example.com"⟩) =
        "\"transaction_info\".\"metaHost\" = 'example.com'" ∧
      getTransactionTypeWhere "transaction_info" 2 =
        "\"transaction_info\".\"transactionType\" = '2'" ∧
      getTransactionStatusWhere "transaction_info" 1 =
        "\"transaction_info\".\"transactionStatus\" = '1'" :=
  ⟨(C18_absent_filter_matches_all "transaction_info").2.2.2.1 "metaHost" "example.com",
    (C18_absent_filter_matches_all "transaction_info").2.2.2.2.1 2 (by decide),
    (C18_absent_filter_matches_all "transaction_info").2.2.2.2.2 1 (by decide)⟩

end clickhouse

/-! ## Incident conversion: skipped entries and the derived bounds -/

namespace clickhouse

theorem convertToIncidentHistory_eq_none_iff (e : Option apiPb.Incident_HistoryItem) :
    convertToIncidentHistory e = none ↔ ¬ ValidEntry e := by
  cases e with
  | none => simp [convertToIncidentHistory, ValidEntry]
  | some h =>
    obtain ⟨status, tsOpt⟩ := h
    cases tsOpt with
    | none =>
      simp [convertToIncidentHistory, ValidEntry, apiPb.Incident_HistoryItem.GetTimestamp,
        ptypes.Timestamp, ptypes.validateTimestamp]
    | some ts =>
      by_cases hv : ts.Valid
      · have h1 := convertToIncidentHistory_of_valid (h := ⟨status, some ts⟩) rfl hv
        simp [h1, ValidEntry, hv]
      · have hne : ptypes.validateTimestamp (some ts) ≠ none := by
          intro hc
          obtain ⟨v, hv1, hv2⟩ := (ptypes.validateTimestamp_eq_none_iff (some ts)).1 hc
          injection hv1 with hv1
          exact hv (hv1 ▸ hv2)
        cases hval : ptypes.validateTimestamp (some ts) with
        | none => exact absurd hval hne
        | some err =>
          simp [convertToIncidentHistory, ValidEntry, apiPb.Incident_HistoryItem.GetTimestamp,
            ptypes.Timestamp, hval, hv]

theorem filterMap_map_some_eq_filter_map (data : List (Option apiPb.Incident_HistoryItem)) :
    (data.filterMap convertToIncidentHistory).map some =
      (data.filter fun e => decide (ValidEntry e)).map convertToIncidentHistory := by
  induction data with
  | nil => rfl
  | cons e rest ih =>
    by_cases hv : ValidEntry e
    · have hne : convertToIncidentHistory e ≠ none := fun hc =>
        (convertToIncidentHistory_eq_none_iff e).1 hc hv
      cases hc : convertToIncidentHistory e with
      | none => exact absurd hc hne
      | some h => simp [List.filterMap_cons, hc, hv, ih]
    · have hc := (convertToIncidentHistory_eq_none_iff e).2 hv
      simp [List.filterMap_cons, hc, hv, ih]

/-- C19 as stated fails: the first entry has a timestamp with negative nanos,
which does not parse, and `convertToIncident` still returns a record, built from
the remaining entry. -/
theorem C19_counterexample :
    ¬ ValidEntry (some ⟨1, some ⟨10, -1⟩⟩) ∧
      convertToIncident (some ⟨"i", 1, "r", [some ⟨1, some ⟨10, -1⟩⟩, some ⟨2, some ⟨0, 5⟩⟩]⟩)
          ⟨100, 0⟩ =
        some ⟨"i", 1, "r", 5, 5, [some ⟨2, 5⟩]⟩ := by
  decide

/-- C19, amended: for every incident, also one whose history contains an entry
with an unparseable timestamp, `convertToIncident` does not abort: it returns an
incident record with the id, status and rule id of the message, whose history is
made of the conversions of exactly the entries that are present with a valid
timestamp, in their order; the nil and the unparseable entries are skipped, so
the record is shorter than the message when there is one. -/
theorem C19_malformed_entries_skipped (x : apiPb.Incident) (t : time.Time) :
    ∃ r, convertToIncident (some x) t = some r ∧
      r.IncidentId = x.Id ∧ r.Status = x.Status ∧ r.RuleId = x.RuleId ∧
      r.Histories = (x.Histories.filter fun e => decide (ValidEntry e)).map
        convertToIncidentHistory ∧
      (∀ e, ValidEntry e → ∃ h, convertToIncidentHistory e = some h) ∧
      ((∃ e ∈ x.Histories, ¬ ValidEntry e) → r.Histories.length < x.Histories.length) := by
  refine ⟨_, rfl, rfl, rfl, rfl, ?_, ?_, ?_⟩
  · show (convertToIncidentHistories x.Histories).1 = _
    rw [convertToIncidentHistories_fst, filterMap_map_some_eq_filter_map]
  · intro e hv
    cases hc : convertToIncidentHistory e with
    | none => exact absurd hv ((convertToIncidentHistory_eq_none_iff e).1 hc)
    | some h => exact ⟨h, rfl⟩
  · rintro ⟨e, he, hbad⟩
    show ((convertToIncidentHistories x.Histories).1).length < _
    rw [convertToIncidentHistories_fst, filterMap_map_some_eq_filter_map, List.length_map]
    have hlt : (x.Histories.filter fun e => decide (ValidEntry e)).length < x.Histories.length := by
      apply List.length_filter_lt_length_iff_exists.2
      exact ⟨e, he, by simpa using hbad⟩
    exact hlt

/-- C19 as amended, at an incident whose first history entry does not parse. -/
theorem C19_malformed_entries_skipped_witness :
    ∃ r, convertToIncident
        (some ⟨"i", 1, "r", [some ⟨1, some ⟨10, -1⟩⟩, some ⟨2, some ⟨0, 5⟩⟩]⟩) ⟨100, 0⟩ = some r ∧
      r.Histories.length < 2 := by
  obtain ⟨r, hr, _, _, _, _, _, hlen⟩ :=
    C19_malformed_entries_skipped ⟨"i", 1, "r", [some ⟨1, some ⟨10, -1⟩⟩, some ⟨2, some ⟨0, 5⟩⟩]⟩
      ⟨100, 0⟩
  exact ⟨r, hr, hlen ⟨some ⟨1, some ⟨10, -1⟩⟩, by simp, by decide⟩⟩

end clickhouse

namespace clickhouse

theorem BoundsInv_step (acc : HistoriesAcc) (v : Option apiPb.Incident_HistoryItem)
    (hinv : BoundsInv acc) (hz : NonEpochEntry v) :
    BoundsInv (convertToIncidentHistories.step acc v) := by
  unfold convertToIncidentHistories.step
  cases hc : convertToIncidentHistory v with
  | none => simpa using hinv
  | some history =>
    have hnz : history.Timestamp ≠ 0 := by
      simpa [NonEpochEntry, hc] using hz
    simp only
    rcases hinv with ⟨h1, h2, h3⟩ | ⟨⟨a, ha, hmin⟩, ⟨b, hb, hmax⟩, hall⟩
    · refine Or.inr ⟨⟨history, by simp, by simp [h2]⟩, ⟨history, by simp, by simp [h3]⟩, ?_⟩
      intro h hh
      have hh1 : h = history := by simpa [h1] using hh
      subst hh1
      simp [h2, h3, hnz]
    · have hmin0 : acc.minTime ≠ 0 := by rw [hmin]; exact (hall a ha).2.2
      have hmax0 : acc.maxTime ≠ 0 := by rw [hmax]; exact (hall b hb).2.2
      refine Or.inr ⟨?_, ?_, ?_⟩
      · by_cases hlt : acc.minTime < history.Timestamp
        · exact ⟨history, by simp, by simp [hlt]⟩
        · refine ⟨a, by simp [ha], ?_⟩
          rw [if_neg (not_or.2 ⟨hlt, hmin0⟩)]
          exact hmin
      · by_cases hgt : acc.maxTime > history.Timestamp
        · exact ⟨history, by simp, by simp [hgt]⟩
        · refine ⟨b, by simp [hb], ?_⟩
          rw [if_neg (not_or.2 ⟨hgt, hmax0⟩)]
          exact hmax
      · intro h hh
        have hcases : some h ∈ acc.histories ∨ h = history := by
          simpa using hh
        simp only [hmin0, hmax0, or_false]
        rcases hcases with hold | hnew
        · obtain ⟨h1, h2, h3⟩ := hall h hold
          refine ⟨?_, ?_, h3⟩
          · split_ifs <;> omega
          · split_ifs <;> omega
        · subst hnew
          refine ⟨?_, ?_, hnz⟩
          · split_ifs <;> omega
          · split_ifs <;> omega

theorem BoundsInv_foldl (data : List (Option apiPb.Incident_HistoryItem)) :
    ∀ acc : HistoriesAcc, BoundsInv acc → (∀ e ∈ data, NonEpochEntry e) →
      BoundsInv (data.foldl convertToIncidentHistories.step acc) := by
  induction data with
  | nil => intro acc hinv _; exact hinv
  | cons v rest ih =>
    intro acc hinv hz
    rw [List.foldl_cons]
    exact ih _ (BoundsInv_step acc v hinv (hz v (List.mem_cons_self _ _)))
      (fun e he => hz e (List.mem_cons_of_mem _ he))

theorem convertToIncident_bounds (x : apiPb.Incident) (t : time.Time) :
    ∃ r, convertToIncident (some x) t = some r ∧
      r.Histories = (x.Histories.foldl convertToIncidentHistories.step ⟨[], 0, 0⟩).histories ∧
      r.StartTime =
        (if (x.Histories.foldl convertToIncidentHistories.step ⟨[], 0, 0⟩).minTime = 0 ∨
            (x.Histories.foldl convertToIncidentHistories.step ⟨[], 0, 0⟩).maxTime = 0
          then t.UnixNano
          else (x.Histories.foldl convertToIncidentHistories.step ⟨[], 0, 0⟩).minTime) ∧
      r.EndTime =
        (if (x.Histories.foldl convertToIncidentHistories.step ⟨[], 0, 0⟩).minTime = 0 ∨
            (x.Histories.foldl convertToIncidentHistories.step ⟨[], 0, 0⟩).maxTime = 0
          then t.UnixNano
          else (x.Histories.foldl convertToIncidentHistories.step ⟨[], 0, 0⟩).maxTime) :=
  ⟨_, rfl, rfl, rfl, rfl⟩

/-- C20 as stated fails: for the history with the timestamps 2 ns, 1 ns, 3 ns, in
this order, the first entry is at 2 ns and the last at 3 ns, and
`convertToIncident` returns `StartTime = 3` and `EndTime = 1`. -/
theorem C20_counterexample :
    ∃ r, convertToIncident
        (some ⟨"i", 1, "r",
          [some ⟨1, some ⟨0, 2⟩⟩, some ⟨1, some ⟨0, 1⟩⟩, some ⟨1, some ⟨0, 3⟩⟩]⟩) ⟨100, 0⟩ =
          some r ∧
      r.Histories = [some ⟨1, 2⟩, some ⟨1, 1⟩, some ⟨1, 3⟩] ∧
      r.StartTime = 3 ∧ r.StartTime ≠ 2 ∧ r.EndTime = 1 ∧ r.EndTime ≠ 3 := by
  refine ⟨_, rfl, ?_⟩
  decide

/-- C20, amended: for every incident with a non-empty history of valid
timestamps, none of which is stored as 0, in whatever order the entries come,
the record of `convertToIncident` holds the conversion of every entry, and its
`StartTime` and `EndTime` are the two extreme timestamps of that history: each
is the timestamp of an entry, and either `StartTime` is the smallest and
`EndTime` the largest or the other way round.  They are those of the first and
last entry only when these are the extremes. -/
theorem C20_bounds_are_extremes (x : apiPb.Incident) (t : time.Time)
    (hne : x.Histories ≠ []) (hv : ∀ e ∈ x.Histories, ValidEntry e)
    (hz : ∀ e ∈ x.Histories, NonEpochEntry e) :
    ∃ r, convertToIncident (some x) t = some r ∧
      r.Histories = x.Histories.map convertToIncidentHistory ∧
      (∃ a, some a ∈ r.Histories ∧ r.StartTime = a.Timestamp) ∧
      (∃ b, some b ∈ r.Histories ∧ r.EndTime = b.Timestamp) ∧
      ((∀ h, some h ∈ r.Histories → r.StartTime ≤ h.Timestamp ∧ h.Timestamp ≤ r.EndTime) ∨
        (∀ h, some h ∈ r.Histories → r.EndTime ≤ h.Timestamp ∧ h.Timestamp ≤ r.StartTime)) := by
  have hinv := BoundsInv_foldl x.Histories ⟨[], 0, 0⟩ (Or.inl ⟨rfl, rfl, rfl⟩) hz
  have hhist := convertToIncidentHistories_foldl x.Histories ⟨[], 0, 0⟩
  have hfilter : (x.Histories.filter fun e => decide (ValidEntry e)) = x.Histories := by
    rw [List.filter_eq_self]
    intro e he
    simpa using hv e he
  simp only [List.nil_append] at hhist
  rw [filterMap_map_some_eq_filter_map, hfilter] at hhist
  obtain ⟨r, hr, hH, hS, hE⟩ := convertToIncident_bounds x t
  generalize x.Histories.foldl convertToIncidentHistories.step ⟨[], 0, 0⟩ = acc at hinv hhist hH hS hE
  have hnonempty : acc.histories ≠ [] := by
    rw [hhist]
    simpa using hne
  rcases hinv with ⟨h1, _, _⟩ | ⟨⟨a, ha, hmin⟩, ⟨b, hb, hmax⟩, hall⟩
  · exact absurd h1 hnonempty
  · have hmin0 : acc.minTime ≠ 0 := by rw [hmin]; exact (hall a ha).2.2
    have hmax0 : acc.maxTime ≠ 0 := by rw [hmax]; exact (hall b hb).2.2
    rw [if_neg (not_or.2 ⟨hmin0, hmax0⟩)] at hS hE
    refine ⟨r, hr, hH.trans hhist, ⟨a, hH ▸ ha, hS.trans hmin⟩, ⟨b, hH ▸ hb, hE.trans hmax⟩, ?_⟩
    refine Or.inr ?_
    intro h hh
    rw [hH] at hh
    have hh1 := hall h hh
    rw [hS, hE]
    exact ⟨hh1.1, hh1.2.1⟩

/-- C20 as amended, at the history 2 ns, 1 ns, 3 ns. -/
theorem C20_bounds_are_extremes_witness :
    ∃ r, convertToIncident
        (some ⟨"i", 1, "r",
          [some ⟨1, some ⟨0, 2⟩⟩, some ⟨1, some ⟨0, 1⟩⟩, some ⟨1, some ⟨0, 3⟩⟩]⟩) ⟨100, 0⟩ =
          some r ∧
      ((∀ h, some h ∈ r.Histories → r.StartTime ≤ h.Timestamp ∧ h.Timestamp ≤ r.EndTime) ∨
        (∀ h, some h ∈ r.Histories → r.EndTime ≤ h.Timestamp ∧ h.Timestamp ≤ r.StartTime)) := by
  obtain ⟨r, hr, _, _, _, hext⟩ :=
    C20_bounds_are_extremes
      ⟨"i", 1, "r", [some ⟨1, some ⟨0, 2⟩⟩, some ⟨1, some ⟨0, 1⟩⟩, some ⟨1, some ⟨0, 3⟩⟩]⟩
      ⟨100, 0⟩ (by decide) (by decide) (by decide)
  exact ⟨r, hr, hext⟩

end clickhouse

/-! ## Transaction tree reconstruction -/

theorem strings.Contains_append_right (s t x : String) (h : strings.Contains s x = true) :
    strings.Contains (s ++ t) x = true := by
  simp only [strings.Contains, decide_eq_true_eq, String.data_append] at h ⊢
  exact h.trans (List.prefix_append _ _).isInfix

theorem strings.Contains_append_self (s x : String) :
    strings.Contains (s ++ " " ++ x) x = true := by
  simp only [strings.Contains, decide_eq_true_eq, String.data_append]
  exact (List.suffix_append _ _).isInfix

namespace clickhouse

theorem length_filter_le_of_imp {α : Type} (q r : α → Bool) (l : List α)
    (himp : ∀ a, q a = true → r a = true) : (l.filter q).length ≤ (l.filter r).length := by
  induction l with
  | nil => simp
  | cons b rest ih =>
    simp only [List.filter_cons]
    cases hqb : q b with
    | true =>
      rw [himp b hqb]
      simpa using ih
    | false =>
      cases hrb : r b with
      | true =>
        simp only [Bool.false_eq_true, if_false, if_true, List.length_cons]
        omega
      | false => simpa using ih

theorem length_filter_lt_of_imp {α : Type} (q r : α → Bool) (l : List α)
    (himp : ∀ a, q a = true → r a = true) (a : α) (ha : a ∈ l) (hr : r a = true)
    (hq : q a = false) : (l.filter q).length < (l.filter r).length := by
  induction l with
  | nil => simp at ha
  | cons b rest ih =>
    have hle := length_filter_le_of_imp q r rest himp
    simp only [List.filter_cons]
    rcases List.mem_cons.1 ha with hab | hrest
    · subst hab
      rw [hq, hr]
      simp only [Bool.false_eq_true, if_false, if_true, List.length_cons]
      omega
    · have ih1 := ih hrest
      cases hqb : q b with
      | true =>
        rw [himp b hqb]
        simpa using ih1
      | false =>
        cases hrb : r b with
        | true =>
          simp only [Bool.false_eq_true, if_false, if_true, List.length_cons]
          omega
        | false => simpa using ih1

theorem Postgres.unvisited_length_le (p : Postgres) (s t : String) :
    (p.unvisited (s ++ t)).length ≤ (p.unvisited s).length := by
  apply length_filter_le_of_imp
  intro a ha
  cases hc : strings.Contains s a.TransactionId with
  | false => rfl
  | true =>
    rw [strings.Contains_append_right s t _ hc] at ha
    exact absurd ha (by simp)

theorem Postgres.unvisited_length_lt (p : Postgres) (s : String) (v : TransactionInfo)
    (hv : v ∈ p.rows) (hc : strings.Contains s v.TransactionId = false) :
    (p.unvisited (s ++ " " ++ v.TransactionId)).length < (p.unvisited s).length := by
  apply length_filter_lt_of_imp _ _ _ _ v hv
  · simp [hc]
  · simp [strings.Contains_append_self]
  · intro a ha
    cases hca : strings.Contains s a.TransactionId with
    | false => rfl
    | true =>
      have h1 := strings.Contains_append_right s (" " ++ v.TransactionId) _ hca
      rw [← String.append_assoc] at h1
      rw [h1] at ha
      exact absurd ha (by simp)

theorem Postgres.GetTransactionChildren.loop_isSome (p : Postgres)
    (recur : String → String → Option (List TransactionInfo × Option GoError))
    (passedString : String) (children : List TransactionInfo)
    (h : ∀ v ∈ children, ∃ out, recur v.TransactionId (passedString ++ " " ++ v.ParentId) = some out) :
    ∀ res, ∃ out, Postgres.GetTransactionChildren.loop p recur passedString children res =
      some out := by
  induction children with
  | nil => intro res; exact ⟨_, rfl⟩
  | cons v rest ih =>
    intro res
    obtain ⟨⟨sub, err⟩, hout⟩ := h v (List.mem_cons_self _ _)
    have ih1 := ih (fun w hw => h w (List.mem_cons_of_mem _ hw))
    cases err with
    | some e =>
      exact ⟨([], some p.errorDataBase), by simp [Postgres.GetTransactionChildren.loop, hout]⟩
    | none =>
      obtain ⟨out, hres⟩ := ih1 (res ++ sub)
      exact ⟨out, by simp [Postgres.GetTransactionChildren.loop, hout, hres]⟩

/-- With more fuel than there are unvisited rows after the current id joins the
path, the call returns. -/
theorem Postgres.GetTransactionChildren_isSome (p : Postgres) :
    ∀ (n : Nat) (id passed : String), (p.unvisited (passed ++ " " ++ id)).length < n →
      ∃ out, p.GetTransactionChildren (n + 1) id passed = some out := by
  intro n
  induction n with
  | zero => intro id passed h; exact absurd h (Nat.not_lt_zero _)
  | succ n ih =>
    intro id passed h
    unfold Postgres.GetTransactionChildren
    split_ifs with hc hf
    · exact ⟨_, rfl⟩
    · exact ⟨_, rfl⟩
    · apply Postgres.GetTransactionChildren.loop_isSome
      intro v hv
      have hvrow : v ∈ p.rows := (List.mem_filter.1 hv).1
      have hvpar : v.ParentId = id := by simpa using (List.mem_filter.1 hv).2
      rw [hvpar]
      cases hcv : strings.Contains (passed ++ " " ++ id) v.TransactionId with
      | true =>
        refine ⟨([], none), ?_⟩
        unfold Postgres.GetTransactionChildren
        rw [if_pos hcv]
      | false =>
        have hlt := Postgres.unvisited_length_lt p (passed ++ " " ++ id) v hvrow hcv
        exact ih v.TransactionId (passed ++ " " ++ id) (by omega)

theorem Postgres.GetTransactionChildren.loop_mono (p : Postgres)
    (recur1 recur2 : String → String → Option (List TransactionInfo × Option GoError))
    (passedString : String) (children : List TransactionInfo)
    (h : ∀ v ∈ children, ∀ out,
      recur1 v.TransactionId (passedString ++ " " ++ v.ParentId) = some out →
      recur2 v.TransactionId (passedString ++ " " ++ v.ParentId) = some out) :
    ∀ res out, Postgres.GetTransactionChildren.loop p recur1 passedString children res = some out →
      Postgres.GetTransactionChildren.loop p recur2 passedString children res = some out := by
  induction children with
  | nil => intro res out hout; exact hout
  | cons v rest ih =>
    intro res out hout
    have ih1 := ih (fun w hw => h w (List.mem_cons_of_mem _ hw))
    simp only [Postgres.GetTransactionChildren.loop] at hout ⊢
    cases h1 : recur1 v.TransactionId (passedString ++ " " ++ v.ParentId) with
    | none => simp [h1] at hout
    | some o =>
      rw [h v (List.mem_cons_self _ _) o h1]
      rw [h1] at hout
      obtain ⟨sub, err⟩ := o
      cases err with
      | some e => exact hout
      | none => exact ih1 _ _ hout

/-- One more unit of fuel does not change a result. -/
theorem Postgres.GetTransactionChildren_succ (p : Postgres) :
    ∀ (n : Nat) (id passed : String) out, p.GetTransactionChildren n id passed = some out →
      p.GetTransactionChildren (n + 1) id passed = some out := by
  intro n
  induction n with
  | zero => intro id passed out h; simp [Postgres.GetTransactionChildren] at h
  | succ n ih =>
    intro id passed out h
    unfold Postgres.GetTransactionChildren at h ⊢
    split_ifs at h ⊢ with hc hf
    · exact h
    · exact h
    · exact Postgres.GetTransactionChildren.loop_mono p _ _ passed _
        (fun v _ o ho => ih _ _ o ho) _ _ h

theorem Postgres.GetTransactionChildren_of_le (p : Postgres) (n m : Nat) (hnm : n ≤ m)
    (id passed : String) (out : List TransactionInfo × Option GoError)
    (h : p.GetTransactionChildren n id passed = some out) :
    p.GetTransactionChildren m id passed = some out := by
  induction hnm with
  | refl => exact h
  | step _ ih => exact Postgres.GetTransactionChildren_succ p _ _ _ _ ih

theorem Postgres.GetTransactionChildren.loop_no_error (p : Postgres)
    (recur : String → String → Option (List TransactionInfo × Option GoError))
    (passedString : String) (children : List TransactionInfo)
    (h : ∀ v ∈ children, ∀ out,
      recur v.TransactionId (passedString ++ " " ++ v.ParentId) = some out → out.2 = none) :
    ∀ res out, Postgres.GetTransactionChildren.loop p recur passedString children res = some out →
      out.2 = none := by
  induction children with
  | nil =>
    intro res out hout
    simp only [Postgres.GetTransactionChildren.loop, Option.some.injEq] at hout
    rw [← hout]
  | cons v rest ih =>
    intro res out hout
    have ih1 := ih (fun w hw => h w (List.mem_cons_of_mem _ hw))
    simp only [Postgres.GetTransactionChildren.loop] at hout
    cases h1 : recur v.TransactionId (passedString ++ " " ++ v.ParentId) with
    | none => simp [h1] at hout
    | some o =>
      have ho := h v (List.mem_cons_self _ _) o h1
      rw [h1] at hout
      obtain ⟨sub, err⟩ := o
      simp only at ho
      subst ho
      exact ih1 _ _ hout

theorem Postgres.GetTransactionChildren_no_error (p : Postgres)
    (hp : ∀ id, p.findFails id = false) :
    ∀ (n : Nat) (id passed : String) out, p.GetTransactionChildren n id passed = some out →
      out.2 = none := by
  intro n
  induction n with
  | zero => intro id passed out h; simp [Postgres.GetTransactionChildren] at h
  | succ n ih =>
    intro id passed out h
    unfold Postgres.GetTransactionChildren at h
    split_ifs at h with hc hf
    · simp only [Option.some.injEq] at h
      rw [← h]
    · rw [hp id] at hf
      exact absurd hf (by simp)
    · exact Postgres.GetTransactionChildren.loop_no_error p _ passed _
        (fun v _ o ho => ih _ _ o ho) _ _ h

/-- C15: for every finite table of stored transactions, with arbitrary and
possibly cyclic parent ids, and every root id, `GetTransactionChildren(root, "")`
terminates: with fuel for two calls more than there are rows it returns, and
every larger amount of fuel gives the same result, a finite list next to the
error; the error is nil when no query to the store fails. -/
theorem C15_tree_reconstruction_terminates (p : Postgres) (root : String) :
    ∃ out, (∀ fuel, p.rows.length + 2 ≤ fuel →
        p.GetTransactionChildren fuel root "" = some out) ∧
      ((∀ id, p.findFails id = false) → out.2 = none) := by
  have hlen : (p.unvisited ("" ++ " " ++ root)).length < p.rows.length + 1 := by
    have := List.length_filter_le (fun row => !strings.Contains ("" ++ " " ++ root)
      row.TransactionId) p.rows
    unfold Postgres.unvisited
    omega
  obtain ⟨out, hout⟩ := Postgres.GetTransactionChildren_isSome p (p.rows.length + 1) root "" hlen
  refine ⟨out, fun fuel hfuel => Postgres.GetTransactionChildren_of_le p _ fuel hfuel _ _ _ hout,
    fun hp => Postgres.GetTransactionChildren_no_error p hp _ _ _ _ hout⟩

end clickhouse

namespace clickhouse

/-- The commented-out text of `GetTransactionChildren`, evaluated in the store
holding A with parent B and B with parent A: the list for the root A is B
followed by A. -/
theorem Postgres.GetTransactionChildren_cycle_example :
    (exampleStore [exampleTransaction 1 "A" "B", exampleTransaction 2 "B" "A"]).GetTransactionChildren
        4 "A" "" =
      some ([exampleTransaction 2 "B" "A", exampleTransaction 1 "A" "B"], none) := by
  decide

/-- The guard of the commented-out text is a substring test on the path string:
in the store holding A with parent AB and C with parent A, the call for A under
the path " AB" returns at once, and the list for the root AB is A alone. -/
theorem Postgres.GetTransactionChildren_substring_example :
    (exampleStore [exampleTransaction 1 "A" "AB", exampleTransaction 2 "C" "A"]).GetTransactionChildren
        4 "AB" "" =
      some ([exampleTransaction 1 "A" "AB"], none) := by
  decide

/-- C15 in the store of A with parent B and B with parent A: four units of fuel
give the list B, A for the root A. -/
theorem C15_tree_reconstruction_terminates_witness :
    ∃ out,
      (exampleStore [exampleTransaction 1 "A" "B", exampleTransaction 2 "B" "A"]).GetTransactionChildren
          4 "A" "" = some out ∧
      out.2 = none := by
  obtain ⟨out, hout, herr⟩ := C15_tree_reconstruction_terminates
    (exampleStore [exampleTransaction 1 "A" "B", exampleTransaction 2 "B" "A"]) "A"
  exact ⟨out, hout 4 (by decide), herr (fun _ => rfl)⟩

end clickhouse

/-! ## Totality of the outbound conversions -/

namespace clickhouse

/-- C21, evaluated on the code: each of the nine conversions named in the claim
panics on an absent record or on a list holding an absent element, because it
reads a field of the record without a nil check; `ConvertFromClickhouseStatRequest`
also panics on a present record whose cpu list holds an absent element. -/
theorem C21_outbound_conversions_panic_on_nil :
    convertFromIncident none = .fault ∧
      convertFromIncidents [some ⟨"i", 1, "r", 5, 5, []⟩, none] = .fault ∧
      convertFromSnapshot jsonpb.rawCodec none = .fault ∧
      ConvertFromSnapshots jsonpb.rawCodec [none] = .fault ∧
      ConvertFromClickhouseStatRequest none = .fault ∧
      ConvertFromClickhouseStatRequest
        (some ⟨"a", "n", [none], none, [], [], ⟨1600000000, 0⟩⟩) = .fault ∧
      convertFromCPUInfo [some ⟨⟨7⟩⟩, none] = .fault ∧
      convertFromDiskInfo [none] = .fault ∧
      convertFromNetInfo [none] = .fault ∧
      convertFromUptimeResult strconv.exampleParseFloat none 10 = .fault := by
  decide

end clickhouse

/-! ## The stored nanoseconds and the wire timestamp -/

theorem ptypes.TimestampProto_unix_nano {n : Int} (h : inInt64 n) :
    ptypes.TimestampProto (time.Unix 0 n) = (some ⟨n / 10 ^ 9, n % 10 ^ 9⟩, none) ∧
      timestamppb.Timestamp.Valid ⟨n / 10 ^ 9, n % 10 ^ 9⟩ ∧
      timestamppb.Timestamp.nanos ⟨n / 10 ^ 9, n % 10 ^ 9⟩ = n := by
  have hvalid : timestamppb.Timestamp.Valid ⟨n / 10 ^ 9, n % 10 ^ 9⟩ := by
    unfold inInt64 minInt64 maxInt64 at h
    unfold timestamppb.Timestamp.Valid ptypes.minValidSeconds ptypes.maxValidSeconds
    simp only
    omega
  refine ⟨?_, hvalid, ?_⟩
  · rw [time.Unix_zero h]
    exact ptypes.TimestampProto_of_valid hvalid
  · unfold timestamppb.Timestamp.nanos
    simp only
    omega

namespace clickhouse

/-- C22: for every signed 64-bit nanosecond value `n`, also a negative one,
`ptypes.TimestampProto(time.Unix(0, n))` returns no error and a valid timestamp
(seconds within the years 0001 to 9999, nanos within `[0, 10^9)`) that stands
for `n` nanoseconds; so `convertFromIncidentHistory` and `convertFromSnapshot`
always produce well-formed timestamps from stored 64-bit values. -/
theorem C22_ignored_error_never_raised :
    (∀ n : Int, inInt64 n →
      ∃ ts, ptypes.TimestampProto (time.Unix 0 n) = (some ts, none) ∧ ts.Valid ∧
        ts.Seconds = n / 10 ^ 9 ∧ ts.Nanos = n % 10 ^ 9 ∧ ts.nanos = n) ∧
      (∀ h : IncidentHistory, inInt64 h.Timestamp →
        ∃ ts, convertFromIncidentHistory (some h) = some ⟨h.Status, some ts⟩ ∧ ts.Valid) ∧
      (∀ (V : Type) (codec : jsonpb.Codec V) (s : Snapshot),
        inInt64 s.MetaStartTime → inInt64 s.MetaEndTime →
        ∃ y m a b, convertFromSnapshot codec (some s) = .ret (some y, none) ∧
          y.Meta = some m ∧ m.StartTime = some a ∧ m.EndTime = some b ∧ a.Valid ∧ b.Valid) := by
  refine ⟨?_, ?_, ?_⟩
  · intro n hn
    obtain ⟨h1, h2, h3⟩ := ptypes.TimestampProto_unix_nano hn
    exact ⟨_, h1, h2, rfl, rfl, h3⟩
  · intro h hn
    obtain ⟨h1, h2, _⟩ := ptypes.TimestampProto_unix_nano hn
    exact ⟨_, by simp only [convertFromIncidentHistory, h1], h2⟩
  · intro V codec s hs he
    obtain ⟨hs1, hs2, _⟩ := ptypes.TimestampProto_unix_nano hs
    obtain ⟨he1, he2, _⟩ := ptypes.TimestampProto_unix_nano he
    simp only [convertFromSnapshot, hs1, he1]
    cases hU : codec.Unmarshal s.MetaValue with
    | none => exact ⟨_, _, _, _, rfl, by split_ifs <;> rfl, rfl, rfl, hs2, he2⟩
    | some str => exact ⟨_, _, _, _, rfl, rfl, rfl, rfl, hs2, he2⟩

/-- C22 at the stored value -1, one nanosecond before the epoch. -/
theorem C22_ignored_error_never_raised_witness :
    ∃ ts, ptypes.TimestampProto (time.Unix 0 (-1)) = (some ts, none) ∧ ts.Valid ∧
      ts.Seconds = -1 / 10 ^ 9 ∧ ts.Nanos = -1 % 10 ^ 9 ∧ ts.nanos = -1 :=
  C22_ignored_error_never_raised.1 (-1) (by decide)

end clickhouse

namespace clickhouse

/-- The stored nanoseconds of a valid timestamp come back as a valid timestamp
standing for the wrapped count, which is the original one exactly when the
count fits an `int64`. -/
theorem timestamp_back_iff {ts : timestamppb.Timestamp} (hv : ts.Valid) :
    ∃ back, ptypes.TimestampProto (time.Unix 0 (wrap64 ts.nanos)) = (some back, none) ∧
      back.Valid ∧ back.nanos = wrap64 ts.nanos ∧ (back = ts ↔ inInt64 ts.nanos) := by
  obtain ⟨h1, h2, h3⟩ := ptypes.TimestampProto_unix_nano (inInt64_wrap64 ts.nanos)
  refine ⟨_, h1, h2, h3, ?_, ?_⟩
  · intro heq
    rw [heq] at h3
    rw [h3]
    exact inInt64_wrap64 _
  · intro hr
    have hrt := timestampProto_of_nanos hv hr
    rw [h1] at hrt
    injection hrt with hrt _
    injection hrt

theorem convertFromSnapshot_meta {V : Type} (codec : jsonpb.Codec V) (s : Snapshot)
    (a b : timestamppb.Timestamp)
    (ha : ptypes.TimestampProto (time.Unix 0 s.MetaStartTime) = (some a, none))
    (hb : ptypes.TimestampProto (time.Unix 0 s.MetaEndTime) = (some b, none)) :
    ∃ y my, convertFromSnapshot codec (some s) = .ret (some y, none) ∧ y.Meta = some my ∧
      my.StartTime = some a ∧ my.EndTime = some b := by
  simp only [convertFromSnapshot, ha, hb]
  cases hU : codec.Unmarshal s.MetaValue with
  | none => exact ⟨_, _, rfl, by split_ifs <;> rfl, rfl, rfl⟩
  | some str => exact ⟨_, _, rfl, rfl, rfl, rfl⟩

/-- C23: for every valid wire timestamp, converting it to the stored nanoseconds
(64-bit wrap-around arithmetic) and back returns the original timestamp if and
only if `seconds * 10^9 + nanos` lies in the signed 64-bit range: so for the
bare conversions, for a history entry through `convertToIncidentHistory` and
`convertFromIncidentHistory`, and for the start and end time of a snapshot
through `convertToSnapshot` and `convertFromSnapshot`.  The first instant of the
year 3000 is valid and outside the range, so it does not survive. -/
theorem C23_roundtrip_iff_in_range (ts : timestamppb.Timestamp) (hv : ts.Valid) :
    (ptypes.TimestampProto (time.Unix 0 (ptypes.Timestamp (some ts)).1.UnixNano) = (some ts, none) ↔
        inInt64 ts.nanos) ∧
      (∀ status : Int,
        (∃ r, convertToIncidentHistory (some ⟨status, some ts⟩) = some r ∧
          convertFromIncidentHistory (some r) = some ⟨status, some ts⟩) ↔ inInt64 ts.nanos) ∧
      (∀ (V : Type) (codec : jsonpb.Codec V) (x : apiPb.SchedulerSnapshot V) (id : String)
        (m : apiPb.SchedulerSnapshot_MetaData V) (other : timestamppb.Timestamp),
        x.Meta = some m → other.Valid →
        (m.StartTime = some ts → m.EndTime = some other →
          ∃ r y my, convertToSnapshot codec (some x) id = (some r, none) ∧
            convertFromSnapshot codec (some r) = .ret (some y, none) ∧ y.Meta = some my ∧
            (my.StartTime = some ts ↔ inInt64 ts.nanos)) ∧
        (m.StartTime = some other → m.EndTime = some ts →
          ∃ r y my, convertToSnapshot codec (some x) id = (some r, none) ∧
            convertFromSnapshot codec (some r) = .ret (some y, none) ∧ y.Meta = some my ∧
            (my.EndTime = some ts ↔ inInt64 ts.nanos))) ∧
      (timestamppb.Timestamp.Valid ⟨32503680000, 0⟩ ∧
        ¬ inInt64 (timestamppb.Timestamp.nanos ⟨32503680000, 0⟩) ∧
        ptypes.TimestampProto
            (time.Unix 0 (ptypes.Timestamp (some ⟨32503680000, 0⟩)).1.UnixNano) ≠
          (some ⟨32503680000, 0⟩, none)) := by
  obtain ⟨back, hb1, hb2, hb3, hb4⟩ := timestamp_back_iff hv
  have hnano : (⟨ts.Seconds, ts.Nanos⟩ : time.Time).UnixNano = wrap64 ts.nanos := rfl
  refine ⟨?_, ?_, ?_, ?_⟩
  · rw [ptypes.Timestamp_of_valid hv, hnano, hb1]
    constructor
    · intro h
      injection h with h _
      injection h with h
      exact hb4.1 h
    · intro h
      rw [hb4.2 h]
  · intro status
    rw [convertToIncidentHistory_of_valid (h := ⟨status, some ts⟩) rfl hv, hnano]
    constructor
    · rintro ⟨r, hr1, hr2⟩
      injection hr1 with hr1
      subst hr1
      simp only [convertFromIncidentHistory, hb1] at hr2
      injection hr2 with hr2
      injection hr2 with _ hr2
      injection hr2 with hr2
      exact hb4.1 hr2
    · intro h
      refine ⟨_, rfl, ?_⟩
      simp only [convertFromIncidentHistory, hb1, hb4.2 h]
  · intro V codec x id m other hm hov
    obtain ⟨oback, ho1, _, _, _⟩ := timestamp_back_iff hov
    constructor
    · intro hs he
      obtain ⟨y, my, hy, hmeta, hst, _⟩ := convertFromSnapshot_meta codec
        { SchedulerID := id, Code := x.Code, «Type» := x.«Type», MetaStartTime := wrap64 ts.nanos
          MetaEndTime := wrap64 other.nanos
          Error := apiPb.SchedulerSnapshot_Error.GetMessage x.Error
          MetaValue := (codec.Marshal m.Value).getD [] } back oback hb1 ho1
      refine ⟨_, y, my, convertToSnapshot_of_valid codec x id m ts other hm hs he hv hov, hy,
        hmeta, ?_⟩
      rw [hst]
      simp only [Option.some.injEq]
      exact hb4
    · intro hs he
      obtain ⟨y, my, hy, hmeta, _, hen⟩ := convertFromSnapshot_meta codec
        { SchedulerID := id, Code := x.Code, «Type» := x.«Type»
          MetaStartTime := wrap64 other.nanos, MetaEndTime := wrap64 ts.nanos
          Error := apiPb.SchedulerSnapshot_Error.GetMessage x.Error
          MetaValue := (codec.Marshal m.Value).getD [] } oback back ho1 hb1
      refine ⟨_, y, my, convertToSnapshot_of_valid codec x id m other ts hm hs he hov hv, hy,
        hmeta, ?_⟩
      rw [hen]
      simp only [Option.some.injEq]
      exact hb4
  · refine ⟨by decide, by decide, by decide⟩

/-- C23 at a timestamp five nanoseconds after 1600000000 s, which is in range and
comes back unchanged. -/
theorem C23_roundtrip_iff_in_range_witness :
    ptypes.TimestampProto
        (time.Unix 0 (ptypes.Timestamp (some ⟨1600000000, 5⟩)).1.UnixNano) =
      (some ⟨1600000000, 5⟩, none) :=
  (C23_roundtrip_iff_in_range ⟨1600000000, 5⟩ (by decide)).1.2 (by decide)

theorem convertToIncidentHistories_bounds_foldl (data : List (Option apiPb.Incident_HistoryItem)) :
    ∀ acc : HistoriesAcc,
      ((acc.minTime = 0 ∨ ∃ a, some a ∈ acc.histories ∧ acc.minTime = a.Timestamp) ∧
        (acc.maxTime = 0 ∨ ∃ b, some b ∈ acc.histories ∧ acc.maxTime = b.Timestamp)) →
      (((data.foldl convertToIncidentHistories.step acc).minTime = 0 ∨
          ∃ a, some a ∈ (data.foldl convertToIncidentHistories.step acc).histories ∧
            (data.foldl convertToIncidentHistories.step acc).minTime = a.Timestamp) ∧
        ((data.foldl convertToIncidentHistories.step acc).maxTime = 0 ∨
          ∃ b, some b ∈ (data.foldl convertToIncidentHistories.step acc).histories ∧
            (data.foldl convertToIncidentHistories.step acc).maxTime = b.Timestamp)) := by
  induction data with
  | nil => intro acc h; exact h
  | cons v rest ih =>
    intro acc h
    rw [List.foldl_cons]
    apply ih
    unfold convertToIncidentHistories.step
    cases hc : convertToIncidentHistory v with
    | none => exact h
    | some history =>
      simp only
      obtain ⟨hmin, hmax⟩ := h
      constructor
      · by_cases hcond : acc.minTime < history.Timestamp ∨ acc.minTime = 0
        · rw [if_pos hcond]
          exact Or.inr ⟨history, by simp, rfl⟩
        · rw [if_neg hcond]
          rcases hmin with h0 | ⟨a, ha, hat⟩
          · exact absurd (Or.inr h0) hcond
          · exact Or.inr ⟨a, by simp [ha], hat⟩
      · by_cases hcond : acc.maxTime > history.Timestamp ∨ acc.maxTime = 0
        · rw [if_pos hcond]
          exact Or.inr ⟨history, by simp, rfl⟩
        · rw [if_neg hcond]
          rcases hmax with h0 | ⟨b, hb, hbt⟩
          · exact absurd (Or.inr h0) hcond
          · exact Or.inr ⟨b, by simp [hb], hbt⟩

/-- C24: for every present incident and every instant `t`, with `start` and `end`
the bounds derived by `convertToIncidentHistories`: when `start` or `end` is 0 the
record has `StartTime = EndTime = t.UnixNano()`; otherwise `StartTime = start` and
`EndTime = end`, each the timestamp of an entry of the converted history; so the
bounds are either both the clock reading or both timestamps of entries.  A
non-empty history with an entry at the Unix epoch can fall in the first case:
the timestamps 5 ns, 0 ns give the clock reading for both bounds. -/
theorem C24_clock_or_entries (x : apiPb.Incident) (t : time.Time) :
    ∃ r, convertToIncident (some x) t = some r ∧
      r.Histories = (convertToIncidentHistories x.Histories).1 ∧
      (((convertToIncidentHistories x.Histories).2.1 = 0 ∨
          (convertToIncidentHistories x.Histories).2.2 = 0) →
        r.StartTime = t.UnixNano ∧ r.EndTime = t.UnixNano) ∧
      (¬ ((convertToIncidentHistories x.Histories).2.1 = 0 ∨
          (convertToIncidentHistories x.Histories).2.2 = 0) →
        r.StartTime = (convertToIncidentHistories x.Histories).2.1 ∧
        r.EndTime = (convertToIncidentHistories x.Histories).2.2 ∧
        (∃ a, some a ∈ r.Histories ∧ r.StartTime = a.Timestamp) ∧
        (∃ b, some b ∈ r.Histories ∧ r.EndTime = b.Timestamp)) ∧
      ((r.StartTime = t.UnixNano ∧ r.EndTime = t.UnixNano) ∨
        ((∃ a, some a ∈ r.Histories ∧ r.StartTime = a.Timestamp) ∧
          (∃ b, some b ∈ r.Histories ∧ r.EndTime = b.Timestamp))) ∧
      convertToIncident (some ⟨"i", 1, "r", [some ⟨1, some ⟨0, 5⟩⟩, some ⟨2, some ⟨0, 0⟩⟩]⟩) t =
        some ⟨"i", 1, "r", t.UnixNano, t.UnixNano, [some ⟨1, 5⟩, some ⟨2, 0⟩]⟩ := by
  obtain ⟨r, hr, hH, hS, hE⟩ := convertToIncident_bounds x t
  have hinv := convertToIncidentHistories_bounds_foldl x.Histories ⟨[], 0, 0⟩
    ⟨Or.inl rfl, Or.inl rfl⟩
  have hexample :
      convertToIncident (some ⟨"i", 1, "r", [some ⟨1, some ⟨0, 5⟩⟩, some ⟨2, some ⟨0, 0⟩⟩]⟩) t =
        some ⟨"i", 1, "r", t.UnixNano, t.UnixNano, [some ⟨1, 5⟩, some ⟨2, 0⟩]⟩ := by
    have hfold : convertToIncidentHistories
        [some ⟨1, some ⟨0, 5⟩⟩, some ⟨2, some ⟨0, 0⟩⟩] = ([some ⟨1, 5⟩, some ⟨2, 0⟩], 5, 0) := by
      decide
    simp only [convertToIncident, apiPb.Incident.GetHistories, hfold, apiPb.Incident.GetId,
      apiPb.Incident.GetStatus, apiPb.Incident.GetRuleId]
    simp
  show ∃ r, convertToIncident (some x) t = some r ∧
      r.Histories = (x.Histories.foldl convertToIncidentHistories.step ⟨[], 0, 0⟩).histories ∧
      (((x.Histories.foldl convertToIncidentHistories.step ⟨[], 0, 0⟩).minTime = 0 ∨
          (x.Histories.foldl convertToIncidentHistories.step ⟨[], 0, 0⟩).maxTime = 0) →
        r.StartTime = t.UnixNano ∧ r.EndTime = t.UnixNano) ∧
      (¬ ((x.Histories.foldl convertToIncidentHistories.step ⟨[], 0, 0⟩).minTime = 0 ∨
          (x.Histories.foldl convertToIncidentHistories.step ⟨[], 0, 0⟩).maxTime = 0) →
        r.StartTime = (x.Histories.foldl convertToIncidentHistories.step ⟨[], 0, 0⟩).minTime ∧
        r.EndTime = (x.Histories.foldl convertToIncidentHistories.step ⟨[], 0, 0⟩).maxTime ∧
        (∃ a, some a ∈ r.Histories ∧ r.StartTime = a.Timestamp) ∧
        (∃ b, some b ∈ r.Histories ∧ r.EndTime = b.Timestamp)) ∧
      ((r.StartTime = t.UnixNano ∧ r.EndTime = t.UnixNano) ∨
        ((∃ a, some a ∈ r.Histories ∧ r.StartTime = a.Timestamp) ∧
          (∃ b, some b ∈ r.Histories ∧ r.EndTime = b.Timestamp))) ∧ _
  generalize x.Histories.foldl convertToIncidentHistories.step ⟨[], 0, 0⟩ = acc at hinv hH hS hE
  have hcase1 : (acc.minTime = 0 ∨ acc.maxTime = 0) →
      r.StartTime = t.UnixNano ∧ r.EndTime = t.UnixNano := by
    intro h0
    rw [if_pos h0] at hS hE
    exact ⟨hS, hE⟩
  have hcase2 : ¬ (acc.minTime = 0 ∨ acc.maxTime = 0) →
      r.StartTime = acc.minTime ∧ r.EndTime = acc.maxTime ∧
        (∃ a, some a ∈ r.Histories ∧ r.StartTime = a.Timestamp) ∧
        (∃ b, some b ∈ r.Histories ∧ r.EndTime = b.Timestamp) := by
    intro h0
    rw [if_neg h0] at hS hE
    obtain ⟨hmin0, hmax0⟩ := not_or.1 h0
    obtain ⟨hmin, hmax⟩ := hinv
    rcases hmin with hz | ⟨a, ha, hat⟩
    · exact absurd hz hmin0
    · rcases hmax with hz | ⟨b, hb, hbt⟩
      · exact absurd hz hmax0
      · exact ⟨hS, hE, ⟨a, hH ▸ ha, hS.trans hat⟩, ⟨b, hH ▸ hb, hE.trans hbt⟩⟩
  refine ⟨r, hr, hH, hcase1, hcase2, ?_, hexample⟩
  by_cases h0 : acc.minTime = 0 ∨ acc.maxTime = 0
  · exact Or.inl (hcase1 h0)
  · exact Or.inr ⟨(hcase2 h0).2.2.1, (hcase2 h0).2.2.2⟩

/-- C25: for every key and every present string value `v`,
`getTransactionsByString` returns the text made of the quoted table and key,
` = '`, the characters of `v` as they are, and a closing quote: nothing of `v`
is escaped or removed, so the value `x' OR '1'='1` stands unchanged inside the
clause, and a present but empty value gives the clause ending in `= ''`, which
is not the empty match-all clause. -/
theorem C25_value_inserted_verbatim (table key : String) :
    (∀ v : String,
      getTransactionsByString table key (some ⟨v⟩) =
          "\"" ++ table ++ "\".\"" ++ key ++ "\" = '" ++ v ++ "'" ∧
        (getTransactionsByString table key (some ⟨v⟩)).data =
          ("\"" ++ table ++ "\".\"" ++ key ++ "\" = '").data ++ v.data ++ ['\''] ∧
        (getTransactionsByString table key (some ⟨v⟩)).length =
          ("\"" ++ table ++ "\".\"" ++ key ++ "\" = '").length + v.length + 1) ∧
      getTransactionsByString table key (some ⟨"x' OR '1'='1"⟩) =
        "\"" ++ table ++ "\".\"" ++ key ++ "\" = 'x' OR '1'='1'" ∧
      getTransactionsByString table key (some ⟨""⟩) =
        "\"" ++ table ++ "\".\"" ++ key ++ "\" = ''" ∧
      getTransactionsByString table key (some ⟨""⟩) ≠ "" ∧
      getTransactionsByString "transaction_info" "name" (some ⟨"x' OR '1'='1"⟩) =
        "\"transaction_info\".\"name\" = 'x' OR '1'='1'" := by
  have happ : ∀ s : String, s ++ "x' OR '1'='1" ++ "'" = s ++ "x' OR '1'='1'" := by
    intro s
    rw [String.append_assoc]
    rfl
  have hempty : ∀ s : String, s ++ "" ++ "'" = s ++ "'" := by
    intro s
    rw [String.append_assoc]
    rfl
  have hq : ∀ s : String, s ++ "\" = '" ++ "'" = s ++ "\" = ''" := by
    intro s
    rw [String.append_assoc]
    rfl
  refine ⟨?_, ?_, ?_, ?_, by decide⟩
  · intro v
    refine ⟨rfl, ?_, ?_⟩
    · simp only [getTransactionsByString, wrappers.StringValue.GetValue, String.data_append]
    · simp only [getTransactionsByString, wrappers.StringValue.GetValue, String.length_append]
      rfl
  · simp only [getTransactionsByString, wrappers.StringValue.GetValue]
    rw [happ]
    simp only [String.append_assoc]
    rfl
  · simp only [getTransactionsByString, wrappers.StringValue.GetValue]
    rw [hempty, hq]
  · intro h
    have hlen := congrArg String.length h
    simp only [getTransactionsByString, wrappers.StringValue.GetValue, String.length_append] at hlen
    have h1 : ("'" : String).length = 1 := by decide
    have h2 : ("" : String).length = 0 := by decide
    omega

end clickhouse

/-! ## Tree reconstruction as the spec describes it -/

theorem spec.unvisited_length_decreases (rows : List clickhouse.TransactionInfo) (visited : List String)
    (v : clickhouse.TransactionInfo) (hv : v ∈ rows) (hc : v.TransactionId ∉ visited) :
    (spec.unvisited rows (visited ++ [v.TransactionId])).length <
      (spec.unvisited rows visited).length := by
  apply clickhouse.length_filter_lt_of_imp _ _ _ _ v hv
  · simpa using hc
  · simp
  · intro a ha
    simp only [List.mem_append, List.mem_singleton, not_or, decide_eq_true_eq] at ha ⊢
    exact ha.1

theorem spec.GetTransactionChildren.loop_returns
    (recur : String → Option (List clickhouse.TransactionInfo))
    (children : List clickhouse.TransactionInfo)
    (h : ∀ v ∈ children, ∃ out, recur v.TransactionId = some out) :
    ∀ res, ∃ out, spec.GetTransactionChildren.loop recur children res = some out := by
  induction children with
  | nil => intro res; exact ⟨_, rfl⟩
  | cons v rest ih =>
    intro res
    obtain ⟨sub, hout⟩ := h v (List.mem_cons_self _ _)
    obtain ⟨out, hres⟩ := ih (fun w hw => h w (List.mem_cons_of_mem _ hw)) (res ++ sub)
    exact ⟨out, by simp [spec.GetTransactionChildren.loop, hout, hres]⟩

/-- With more fuel than there are unvisited rows after the current id joins the
path, the walk returns. -/
theorem spec.GetTransactionChildren_returns (rows : List clickhouse.TransactionInfo) :
    ∀ (n : Nat) (id : String) (path : List String),
      (spec.unvisited rows (path ++ [id])).length ≤ n →
      ∃ out, spec.GetTransactionChildren rows (n + 1) id path = some out := by
  intro n
  induction n with
  | zero =>
    intro id path h
    unfold spec.GetTransactionChildren
    apply spec.GetTransactionChildren.loop_returns
    intro v hv
    have hvrow : v ∈ rows := (List.mem_filter.1 hv).1
    have hvnot : v.TransactionId ∉ path ++ [id] := by
      have := (List.mem_filter.1 hv).2
      simp only [decide_eq_true_eq] at this
      exact this.2
    have hlt := spec.unvisited_length_decreases rows (path ++ [id]) v hvrow hvnot
    omega
  | succ n ih =>
    intro id path h
    unfold spec.GetTransactionChildren
    apply spec.GetTransactionChildren.loop_returns
    intro v hv
    have hvrow : v ∈ rows := (List.mem_filter.1 hv).1
    have hvnot : v.TransactionId ∉ path ++ [id] := by
      have := (List.mem_filter.1 hv).2
      simp only [decide_eq_true_eq] at this
      exact this.2
    have hlt := spec.unvisited_length_decreases rows (path ++ [id]) v hvrow hvnot
    exact ih v.TransactionId (path ++ [id]) (by omega)

theorem spec.GetTransactionChildren.loop_fuel_mono
    (recur1 recur2 : String → Option (List clickhouse.TransactionInfo))
    (children : List clickhouse.TransactionInfo)
    (h : ∀ v ∈ children, ∀ out, recur1 v.TransactionId = some out →
      recur2 v.TransactionId = some out) :
    ∀ res out, spec.GetTransactionChildren.loop recur1 children res = some out →
      spec.GetTransactionChildren.loop recur2 children res = some out := by
  induction children with
  | nil => intro res out hout; exact hout
  | cons v rest ih =>
    intro res out hout
    have ih1 := ih (fun w hw => h w (List.mem_cons_of_mem _ hw))
    simp only [spec.GetTransactionChildren.loop] at hout ⊢
    cases h1 : recur1 v.TransactionId with
    | none => simp [h1] at hout
    | some o =>
      rw [h v (List.mem_cons_self _ _) o h1]
      rw [h1] at hout
      exact ih1 _ _ hout

/-- One more unit of fuel does not change a result of the walk. -/
theorem spec.GetTransactionChildren_fuel_succ (rows : List clickhouse.TransactionInfo) :
    ∀ (n : Nat) (id : String) (path : List String) out,
      spec.GetTransactionChildren rows n id path = some out →
      spec.GetTransactionChildren rows (n + 1) id path = some out := by
  intro n
  induction n with
  | zero => intro id path out h; simp [spec.GetTransactionChildren] at h
  | succ n ih =>
    intro id path out h
    unfold spec.GetTransactionChildren at h ⊢
    exact spec.GetTransactionChildren.loop_fuel_mono _ _ _ (fun v _ o ho => ih _ _ o ho) _ _ h

theorem spec.GetTransactionChildren_fuel_le (rows : List clickhouse.TransactionInfo) (n m : Nat)
    (hnm : n ≤ m) (id : String) (path : List String) (out : List clickhouse.TransactionInfo)
    (h : spec.GetTransactionChildren rows n id path = some out) :
    spec.GetTransactionChildren rows m id path = some out := by
  induction hnm with
  | refl => exact h
  | step _ ih => exact spec.GetTransactionChildren_fuel_succ rows _ _ _ _ ih

theorem spec.GetTransactionChildren.loop_origin
    (recur : String → Option (List clickhouse.TransactionInfo))
    (children : List clickhouse.TransactionInfo) :
    ∀ res out, spec.GetTransactionChildren.loop recur children res = some out →
      ∀ w ∈ out, w ∈ res ∨ ∃ v ∈ children, ∃ sub, recur v.TransactionId = some sub ∧ w ∈ sub := by
  induction children with
  | nil =>
    intro res out hout w hw
    simp only [spec.GetTransactionChildren.loop, Option.some.injEq] at hout
    rw [← hout] at hw
    exact Or.inl hw
  | cons v rest ih =>
    intro res out hout w hw
    simp only [spec.GetTransactionChildren.loop] at hout
    cases h1 : recur v.TransactionId with
    | none => simp [h1] at hout
    | some sub =>
      rw [h1] at hout
      rcases ih _ _ hout w hw with hres | ⟨v2, hv2, sub2, hsub2, hw2⟩
      · rcases List.mem_append.1 hres with h | h
        · exact Or.inl h
        · exact Or.inr ⟨v, List.mem_cons_self _ _, sub, h1, h⟩
      · exact Or.inr ⟨v2, List.mem_cons_of_mem _ hv2, sub2, hsub2, hw2⟩

/-- Every transaction collected by a call of the walk is linked to the id of the
call by a chain of stored transactions; the ids of the chain, the collected
transaction included, are pairwise distinct and none of them is the id of the
call or an id visited before it. -/
theorem spec.GetTransactionChildren_descent_path (rows : List clickhouse.TransactionInfo) :
    ∀ (n : Nat) (id : String) (path : List String) out,
      spec.GetTransactionChildren rows n id path = some out →
      ∀ w ∈ out, ∃ ancestors : List clickhouse.TransactionInfo,
        (∀ v ∈ ancestors, v ∈ rows) ∧ w ∈ rows ∧ clickhouse.linked id (ancestors ++ [w]) ∧
        ((ancestors ++ [w]).map fun v => v.TransactionId).Nodup ∧
        ∀ v ∈ ancestors ++ [w], v.TransactionId ∉ path ++ [id] := by
  intro n
  induction n with
  | zero => intro id path out h; simp [spec.GetTransactionChildren] at h
  | succ n ih =>
    intro id path out h w hw
    unfold spec.GetTransactionChildren at h
    rcases spec.GetTransactionChildren.loop_origin _ _ _ _ h w hw with
      hchild | ⟨v, hv, sub, hsub, hwsub⟩
    · have hwrow : w ∈ rows := (List.mem_filter.1 hchild).1
      have hw2 := (List.mem_filter.1 hchild).2
      simp only [decide_eq_true_eq] at hw2
      refine ⟨[], by simp, hwrow, ⟨hw2.1, trivial⟩, by simp, ?_⟩
      intro v hv
      simp only [List.nil_append, List.mem_singleton] at hv
      rw [hv]
      exact hw2.2
    · have hvrow : v ∈ rows := (List.mem_filter.1 hv).1
      have hv2 := (List.mem_filter.1 hv).2
      simp only [decide_eq_true_eq] at hv2
      obtain ⟨anc, hanc, hwrow, hlink, hnodup, hdisj⟩ :=
        ih v.TransactionId (path ++ [id]) sub hsub w hwsub
      refine ⟨v :: anc, ?_, hwrow, ⟨hv2.1, hlink⟩, ?_, ?_⟩
      · intro u hu
        rcases List.mem_cons.1 hu with h1 | h1
        · rw [h1]; exact hvrow
        · exact hanc u h1
      · simp only [List.cons_append, List.map_cons, List.nodup_cons]
        refine ⟨?_, hnodup⟩
        intro hmem
        obtain ⟨u, hu, hueq⟩ := List.mem_map.1 hmem
        have h3 := hdisj u hu
        apply h3
        rw [hueq]
        simp
      · intro u hu
        simp only [List.cons_append, List.mem_cons] at hu
        rcases hu with h1 | h1
        · rw [h1]; exact hv2.2
        · have h3 := hdisj u h1
          intro hin
          exact h3 (List.mem_append_left _ hin)

/-- C16, on the tree reconstruction as the spec describes it: for every finite
table of stored transactions and every root id the walk from the root with an
empty path returns a list, the same for every amount of fuel above the number of
rows, and every transaction in that list is stored and is linked to the root by
a chain of stored ancestors, each the child of the one before, such that the id
of the root, the ids of the ancestors and the id of the transaction itself are
pairwise distinct: no listed transaction carries an id already on the descent
path that reached it, the root included.  In the table of A with parent B and B
with parent A the list for the root A is B alone, and A is not in it. -/
theorem C16_revisited_node_excluded :
    (∀ (rows : List clickhouse.TransactionInfo) (root : String),
      ∃ out, (∀ fuel, rows.length + 1 ≤ fuel →
          spec.GetTransactionChildren rows fuel root [] = some out) ∧
        ∀ w ∈ out, ∃ ancestors : List clickhouse.TransactionInfo,
          (∀ v ∈ ancestors, v ∈ rows) ∧ w ∈ rows ∧
          clickhouse.linked root (ancestors ++ [w]) ∧
          (root :: (ancestors ++ [w]).map fun v => v.TransactionId).Nodup) ∧
      spec.GetTransactionChildren
          [clickhouse.exampleTransaction 1 "A" "B", clickhouse.exampleTransaction 2 "B" "A"]
          3 "A" [] = some [clickhouse.exampleTransaction 2 "B" "A"] ∧
      clickhouse.exampleTransaction 1 "A" "B" ∉ [clickhouse.exampleTransaction 2 "B" "A"] := by
  refine ⟨?_, by decide, by decide⟩
  intro rows root
  have hlen : (spec.unvisited rows ([] ++ [root])).length ≤ rows.length :=
    List.length_filter_le _ rows
  obtain ⟨out, hout⟩ := spec.GetTransactionChildren_returns rows rows.length root [] hlen
  refine ⟨out, fun fuel hfuel => spec.GetTransactionChildren_fuel_le rows _ fuel hfuel _ _ _ hout, ?_⟩
  intro w hw
  obtain ⟨anc, h1, h2, h3, h4, h5⟩ :=
    spec.GetTransactionChildren_descent_path rows _ root [] out hout w hw
  refine ⟨anc, h1, h2, h3, ?_⟩
  rw [List.nodup_cons]
  refine ⟨?_, h4⟩
  intro hmem
  obtain ⟨u, hu, hueq⟩ := List.mem_map.1 hmem
  apply h5 u hu
  rw [hueq]
  simp
